import Mathlib

/-!
# access-log-monitor: a shallow embedding and its verified properties

The Go packages `config`, `printer`, `alertmanager`, `collector` and `reader`
are embedded as Lean definitions that keep the source's names. The two regular
expressions of the parser are embedded as backtracking matchers with the
leftmost-first preference of Go's `regexp` package.

Modelling conventions

* Go `int` values are mathematical integers (`Int`): the counters of this
  program count log lines per poll tick and never approach `2^63`.
* Go `string` values are lists of characters (`Str`).
* A `float64` is a mantissa of 53 bits with a power of two. The conversion of
  an integer and the quotient of two `float64` round to the nearest, to the
  even one of two nearest, and `math.Round` rounds half away from zero
  (`roundDiv`).
* A run-time panic, or a conversion whose result Go leaves undefined, is the
  value `none`.
* A goroutine that ranges over a channel is a fold over the list of the
  values received, and what it sends on its output channel is a list.
* A Go map is the list of its entries, with distinct keys. The order in which
  `range` yields the entries is a parameter, and `sort.Slice` keeps the order
  of the elements that its `less` does not order.
* The file that the reader tails is, for each tick of the poll timer, the bytes
  appended to it since the tick before; the buffered reader's `ReadBytes`
  follows the documentation of package `bufio`.
* A loop around a `select` is a step function over what the `select`
  receives, in the order in which it receives it.
* The verb `%q` is `strconv.Quote`; the tables of `strconv.IsPrint` for the
  runes above `0xFF` are a parameter.
-/

set_option autoImplicit false

/-- Go strings, as lists of characters. -/
abbrev Str := List Char

/-! ## Package `config` -/

namespace config

/-- Config stores the configuration to the whole program. -/
structure Config where
  LogFilePath : Str
  SummaryIntervalSec : Int
  PollIntervalSec : Int
  MonitorWindowSec : Int
  AlertThreshold : Int
  TopSectionNum : Int
  LogBufferSize : Int
  MetricBufferSize : Int
  Verbose : Bool
  deriving DecidableEq

/-- NewDefault returns the configuration with only default values. -/
def NewDefault : Config :=
  { LogFilePath := "/tmp/access.log".toList
    SummaryIntervalSec := 10
    PollIntervalSec := 1
    MonitorWindowSec := 120
    AlertThreshold := 10
    TopSectionNum := 10
    LogBufferSize := 10
    MetricBufferSize := 5
    Verbose := false }

end config

/-! ## Package `printer` -/

namespace printer

/-- Instants of `time.Time`, as a count of time units since a fixed epoch. -/
abbrev Time := Int

/-- The values that implement the `Formatter` interface and are sent to the
printer: one constructor per concrete message type. -/
inductive Formatter where
  | Message (Text : Str)
  | ErrorMessage (Text : Str)
  | AlertMessage (Hits : Int) (Time : Time)
  | ClearAlertMessage (Hits : Int) (Time : Time)
  | InfoMessage (Text : Str)
  deriving DecidableEq

/-- NewMessage gives a new instance of the simple verbose message. -/
def NewMessage (text : Str) : Formatter := Formatter.Message text

/-- NewErrorMessage gives a new instance of the error message. -/
def NewErrorMessage (text : Str) : Formatter := Formatter.ErrorMessage text

/-- NewAlertMessage gives a new instance of the alert message with the given
number of hits and the time at which it was triggered. -/
def NewAlertMessage (h : Int) (t : Time) : Formatter := Formatter.AlertMessage h t

/-- NewClearAlertMessage gives a new instance of the clearance message. -/
def NewClearAlertMessage (h : Int) (t : Time) : Formatter := Formatter.ClearAlertMessage h t

/-- NewInfoMessage gives a new instance of the information message. -/
def NewInfoMessage (text : Str) : Formatter := Formatter.InfoMessage text

/-- Verbose returns true if the message is only for the verbose mode. -/
def Formatter.Verbose : Formatter → Bool
  | Formatter.Message _ => true
  | Formatter.ErrorMessage _ => false
  | Formatter.AlertMessage _ _ => false
  | Formatter.ClearAlertMessage _ _ => false
  | Formatter.InfoMessage _ => false

end printer

/-! ## The type `float64` and package `math` -/

/-- A finite `float64` that is not negative, as the number
`mant * 2 ^ exp / 2 ^ frac`. The sign is kept apart, since the format is sign
and magnitude, and the range of the exponent is not modelled: the conversions
and quotients of 64-bit integers stay within it. -/
structure float64 where
  mant : Nat
  exp : Nat
  frac : Nat
  deriving DecidableEq

/-- The rounding of an operation on `float64`, to the nearest and to the even
one of two nearest, for the quotient `num / den` of two naturals. -/
def roundEven (num den : Nat) : Nat :=
  if 2 * (num % den) < den then num / den
  else if den < 2 * (num % den) then num / den + 1
  else if (num / den) % 2 = 0 then num / den
  else num / den + 1

/-- The least `s`, from `s` on, with `2 ^ 52 * den ≤ num * 2 ^ s`: the number of
binary places that a mantissa of 53 bits has for `num / den`. `fuel` counts the
values of `s` that are left to try. -/
def scaleUp (num den : Nat) : Nat → Nat → Nat
  | 0, s => s
  | fuel + 1, s => if 2 ^ 52 * den ≤ num * 2 ^ s then s else scaleUp num den fuel (s + 1)

/-- The least `t`, from `t` on, with `num < 2 ^ 53 * den * 2 ^ t`: the power of
two that a mantissa of 53 bits is multiplied with for `num / den`. `fuel`
counts the values of `t` that are left to try. -/
def scaleDown (num den : Nat) : Nat → Nat → Nat
  | 0, t => t
  | fuel + 1, t => if num < 2 ^ 53 * den * 2 ^ t then t else scaleDown num den fuel (t + 1)

/-- The `float64` nearest to the quotient `num / den` of two naturals, `den`
positive: a mantissa of 53 bits, rounded to the even one of two nearest. -/
def float64.quotient (num den : Nat) : float64 :=
  if num = 0 then { mant := 0, exp := 0, frac := 0 }
  else if num < 2 ^ 53 * den then
    { mant := roundEven (num * 2 ^ scaleUp num den (den + 52) 0) den
      exp := 0
      frac := scaleUp num den (den + 52) 0 }
  else
    { mant := roundEven num (den * 2 ^ scaleDown num den num 0)
      exp := scaleDown num den num 0
      frac := 0 }

/-- The conversion `float64(n)` of an integer that is not negative: the nearest
`float64`. -/
def float64.ofNat (n : Nat) : float64 :=
  float64.quotient n 1

/-- The quotient `x / y` of two `float64`: the `float64` nearest to the quotient
of the two numbers. -/
def float64.div (x y : float64) : float64 :=
  float64.quotient (x.mant * 2 ^ x.exp * 2 ^ y.frac) (y.mant * 2 ^ y.exp * 2 ^ x.frac)

namespace math

/-- Round returns the nearest integer, rounding half away from zero; here
followed by the conversion to `int`, which is exact. -/
def Round (x : float64) : Nat :=
  if x.frac = 0 then x.mant * 2 ^ x.exp
  else (x.mant * 2 ^ x.exp + 2 ^ (x.frac - 1)) / 2 ^ x.frac

end math

/-! ## Package `alertmanager` -/

namespace alertmanager

open printer

/-- The dynamic value behind `interface{}` returned by `Metric.Value`: an
`int`, or a value of some other type. -/
inductive Value where
  | int (n : Int)
  | other
  deriving DecidableEq

/-- Metric represents the generic metric type, given by what its two methods
return. -/
structure Metric where
  Time : Time
  Value : Value
  deriving DecidableEq

/-- NewCounterMetric returns a new instance of CounterMetric, seen through the
`Metric` interface. -/
def NewCounterMetric (cnt : Int) (time : Time) : Metric :=
  { Time := time, Value := Value.int cnt }

/-- AlertManager collects the traffic metrics. The slice `buf` is its
elements together with its capacity `cap`. -/
structure AlertManager where
  buf : List Int
  cap : Nat
  threshold : Int
  ptr : Int
  sum : Int
  alertTriggered : Bool
  deriving DecidableEq

/-- The constant `maxAlloc` of package `runtime`, the largest size of an
allocation in bytes, as it is on linux/amd64 with its 48 bits of heap
addresses. -/
def maxAlloc : Nat := 2 ^ 48

/-- New returns a new instance of AlertManager. The integer division panics on
a zero divisor, and `make([]int, 0, n)` panics on a negative capacity and on a
capacity whose 8 bytes per element exceed `maxAlloc`. Below that limit the
memory is taken to be there: whether the machine has it is not modelled. -/
def New (cfg : config.Config) : Option AlertManager :=
  if cfg.PollIntervalSec = 0 then none
  else
    let n := cfg.MonitorWindowSec.tdiv cfg.PollIntervalSec
    if n < 0 ∨ (maxAlloc : Int) < 8 * n then none
    else some
      { buf := []
        cap := n.toNat
        threshold := cfg.AlertThreshold
        ptr := 0
        sum := 0
        alertTriggered := false }

/-- The expression `int(math.Round(float64(n) / float64(d)))` for `d > 0`: the
two conversions, the quotient of the two `float64` and its rounding, on the
magnitude of `n`, with the sign of `n`. -/
def roundDiv (n : Int) (d : Nat) : Int :=
  if n < 0 then
    -((math.Round ((float64.ofNat n.natAbs).div (float64.ofNat d)) : Nat) : Int)
  else ((math.Round ((float64.ofNat n.natAbs).div (float64.ofNat d)) : Nat) : Int)

/-- The slice read `s[i]`; `none` is the index-out-of-range panic. -/
def index (s : List Int) (i : Int) : Option Int :=
  if i < 0 then none else s.get? i.toNat

/-- bufFull returns true if the internal buffer is full. -/
def AlertManager.bufFull (a : AlertManager) : Bool :=
  a.buf.length == a.cap

/-- AlertOn returns true if the alerting is ready (enough data is collected). -/
def AlertManager.AlertOn (a : AlertManager) : Bool :=
  a.bufFull

/-- AvgTraffic average traffic (hits per second) for the monitoring window.
With an empty buffer and a non-zero sum the quotient is infinite and its
conversion to `int` is not defined by the language. -/
def AlertManager.AvgTraffic (a : AlertManager) : Option Int :=
  if a.sum = 0 ∧ a.buf.length = 0 then some 0
  else if a.buf.length = 0 then none
  else some (roundDiv a.sum a.buf.length)

/-- Alert returns 1 if the average traffic for the past monitoring window is
higher than the threshold, -1 if the average traffic has decreased below the
threshold, 0 if no alerts/clear alerts need to be sent; with the receiver as
left by the call. -/
def AlertManager.Alert (a : AlertManager) : Option (Int × AlertManager) :=
  if !a.AlertOn then some (0, a)
  else if !a.alertTriggered then
    match a.AvgTraffic with
    | none => none
    | some avg =>
      if avg ≥ a.threshold then some (1, { a with alertTriggered := true })
      else some (0, a)
  else
    match a.AvgTraffic with
    | none => none
    | some avg =>
      if avg < a.threshold then some (-1, { a with alertTriggered := false })
      else some (0, a)

/-- fill adds to the sum of all the hits; returns true if the window is
filled. An append below the capacity leaves the capacity as it is. -/
def AlertManager.fill (a : AlertManager) (cnt : Int) : AlertManager × Bool :=
  if !a.bufFull then
    ({ a with buf := a.buf ++ [cnt], sum := a.sum + cnt }, false)
  else (a, true)

/-- addCircular adds to the sum in the circular manner, that is, it overrides
the oldest items with the new ones. -/
def AlertManager.addCircular (a : AlertManager) (cnt : Int) : Option AlertManager :=
  match index a.buf a.ptr with
  | none => none
  | some prevCnt =>
    let a1 := { a with sum := a.sum - prevCnt }
    let a2 := { a1 with buf := a1.buf.set a1.ptr.toNat cnt }
    let a3 := { a2 with sum := a2.sum + cnt }
    if a3.ptr ≥ (a3.buf.length : Int) - 1 then some { a3 with ptr := 0 }
    else some { a3 with ptr := a3.ptr + 1 }

/-- The count read by `cnt, _ := m.Value().(int)`: the integer, or zero when
the value is not an `int`. -/
def cntOf (m : Metric) : Int :=
  match m.Value with
  | Value.int n => n
  | Value.other => 0

/-- add adds the given metric to the stats collected by the alertmanager. -/
def AlertManager.add (a : AlertManager) (m : Metric) : Option AlertManager :=
  let cnt := cntOf m
  match a.fill cnt with
  | (a1, false) => some a1
  | (a1, true) => a1.addCircular cnt

/-- The receiver after a sequence of calls to `add`, in order. -/
def addAll (a : AlertManager) : List Metric → Option AlertManager
  | [] => some a
  | m :: ms =>
    match a.add m with
    | none => none
    | some a1 => addAll a1 ms

/-- The text `fmt.Sprintf("\tAverage traffic: %d/s", n)`. -/
def avgText (n : Int) : Str :=
  "\tAverage traffic: ".toList ++ (toString n).toList ++ "/s".toList

/-- The text of the one-time information message of `Start`. -/
def alertOnText : Str :=
  "All needed metrics are collected. Alerting is on".toList

/-- The state of the loop of `Start`: the receiver and the local variable
`alertOnPrinted`. -/
structure Loop where
  a : AlertManager
  alertOnPrinted : Bool
  deriving DecidableEq

/-- One iteration of the loop of `Start` on the metric `m`: the loop state
after it and the messages sent to the print channel, in order. -/
def iteration (s : Loop) (m : Metric) : Option (Loop × List Formatter) :=
  match s.a.add m with
  | none => none
  | some a1 =>
    match a1.AvgTraffic with
    | none => none
    | some avg =>
      let out := [NewMessage (avgText avg)]
      let (out, printed) :=
        if a1.AlertOn && !s.alertOnPrinted then (out ++ [NewInfoMessage alertOnText], true)
        else (out, s.alertOnPrinted)
      match a1.Alert with
      | none => none
      | some (r, a2) =>
        if r = 1 then
          match a2.AvgTraffic with
          | none => none
          | some v => some (⟨a2, printed⟩, out ++ [NewAlertMessage v m.Time])
        else if r = -1 then
          match a2.AvgTraffic with
          | none => none
          | some v => some (⟨a2, printed⟩, out ++ [NewClearAlertMessage v m.Time])
        else some (⟨a2, printed⟩, out)

/-- The loop of `Start` from the loop state `s` over the metrics received:
the final loop state and, for each metric, the messages sent for it. -/
def loop (s : Loop) : List Metric → Option (Loop × List (List Formatter))
  | [] => some (s, [])
  | m :: ms =>
    match iteration s m with
    | none => none
    | some (s1, out) =>
      match loop s1 ms with
      | none => none
      | some (s2, outs) => some (s2, out :: outs)

/-- Start listens on the metric channel and sends the alert/clear alert/alerton
and regular avg traffic messages to the printer: the receiver once the
metrics `ms` are consumed and the messages sent for each of them. -/
def AlertManager.Start (a : AlertManager) (ms : List Metric) :
    Option (AlertManager × List (List Formatter)) :=
  match loop ⟨a, false⟩ ms with
  | none => none
  | some (s, outs) => some (s.a, outs)

/-- The alert events among the messages: true for an alert message (raise),
false for a clearance message. -/
def alertKinds (out : List Formatter) : List Bool :=
  out.filterMap fun f =>
    match f with
    | Formatter.AlertMessage _ _ => some true
    | Formatter.ClearAlertMessage _ _ => some false
    | _ => none

/-- Whether the message is an information message. -/
def isInfo : Formatter → Bool
  | Formatter.InfoMessage _ => true
  | _ => false

/-- The window invariant of a receiver `a` of capacity `W` after the counts
`xs` were pushed, oldest first: the buffer read from the write pointer round
is the last `W` counts, and the running sum is the sum of the buffer. -/
structure Window (W : Nat) (xs : List Int) (a : AlertManager) : Prop where
  cap_eq : a.cap = W
  len_eq : a.buf.length = min W xs.length
  ptr_nonneg : 0 ≤ a.ptr
  ptr_lt : a.ptr < W
  ptr_fill : xs.length < W → a.ptr = 0
  rot : a.buf.drop a.ptr.toNat ++ a.buf.take a.ptr.toNat = xs.drop (xs.length - W)
  sum_eq : a.sum = a.buf.sum

/-- The configuration of the nominal test: a window of 10 seconds polled every
2 seconds, threshold 10. -/
def nominalCfg : config.Config :=
  { config.NewDefault with PollIntervalSec := 2, MonitorWindowSec := 10 }

/-- The receiver that `New` returns for the nominal configuration. -/
def nominalManager : AlertManager :=
  { buf := [], cap := 5, threshold := 10, ptr := 0, sum := 0, alertTriggered := false }

/-- The metrics of the nominal test, sent at the instants 1 to 9. -/
def nominalMetrics : List Metric :=
  [NewCounterMetric 20 1, NewCounterMetric 20 2, NewCounterMetric 20 3,
    NewCounterMetric 20 4, NewCounterMetric 23 5, NewCounterMetric 20 6,
    NewCounterMetric 0 7, NewCounterMetric 0 8, NewCounterMetric 0 9]

/-- A receiver whose window of three counts is full, with a sum over
`2 ^ 52`. -/
def hugeManager : AlertManager :=
  { buf := [2251799813685248, 2251799813685248, 2251799813685249], cap := 3, threshold := 10,
    ptr := 0, sum := 6755399441055745, alertTriggered := false }

/-- The receiver of the nominal test once its window is full. -/
def fullManager : AlertManager :=
  { buf := [20, 20, 20, 20, 23], cap := 5, threshold := 10, ptr := 0, sum := 103,
    alertTriggered := false }

end alertmanager

/-! ## Packages `regexp`, `strconv`, `strings`, `net/http` and `collector` -/

namespace regexp

/-- The class `.`: any character but a newline. -/
def isDot (c : Char) : Bool := c != '\n'

/-- The class `\d`: an ASCII digit. -/
def isDigit (c : Char) : Bool := '0' ≤ c && c ≤ '9'

/-- The class `\w`: an ASCII letter, an ASCII digit or an underscore. -/
def isWord (c : Char) : Bool :=
  ('0' ≤ c && c ≤ '9') || ('A' ≤ c && c ≤ 'Z') || ('a' ≤ c && c ≤ 'z') || c == '_'

/-- A literal character followed by the rest `k` of the expression. -/
def lit {α : Type} (c : Char) (k : Str → Option α) : Str → Option α
  | [] => none
  | x :: xs => if x = c then k xs else none

/-- The lazy repetition `x*?` of a class, followed by the rest `k` of the
expression: the rest is tried first, one more character only when it fails.
`acc` is the text matched by the repetition so far. -/
def starLazy {α : Type} (p : Char → Bool) (k : Str → Str → Option α) (acc : Str) :
    Str → Option α
  | [] => k acc []
  | x :: xs =>
    match k acc (x :: xs) with
    | some r => some r
    | none => if p x then starLazy p k (acc ++ [x]) xs else none

/-- The lazy repetition `x+?`: one character of the class, then `x*?`. -/
def plusLazy {α : Type} (p : Char → Bool) (k : Str → Str → Option α) : Str → Option α
  | [] => none
  | x :: xs => if p x then starLazy p k [x] xs else none

/-- The greedy repetition `x*` of a class, followed by the rest `k` of the
expression: one more character is tried first, the rest only when that fails. -/
def starGreedy {α : Type} (p : Char → Bool) (k : Str → Str → Option α) (acc : Str) :
    Str → Option α
  | [] => k acc []
  | x :: xs =>
    if p x then
      match starGreedy p k (acc ++ [x]) xs with
      | some r => some r
      | none => k acc (x :: xs)
    else k acc (x :: xs)

/-- The greedy repetition `x+`: one character of the class, then `x*`. -/
def plusGreedy {α : Type} (p : Char → Bool) (k : Str → Str → Option α) : Str → Option α
  | [] => none
  | x :: xs => if p x then starGreedy p k [x] xs else none

/-- The end of the text, `$` without the multi-line flag. -/
def eot {α : Type} (r : α) : Str → Option α
  | [] => some r
  | _ :: _ => none

end regexp

/-- Go values of type `error`: the error made by `errors.New` with a text, or
the `*strconv.NumError` of a failed conversion. -/
inductive error where
  | New (text : Str)
  | NumError (Func : Str) (Num : Str) (Err : Str)
  deriving DecidableEq

namespace strconv

/-- The value of a string of decimal digits. -/
def digitsVal (s : Str) : Nat :=
  s.foldl (fun n c => 10 * n + (c.toNat - '0'.toNat)) 0

/-- Atoi is equivalent to ParseInt(s, 10, 0), converted to type int: an
optional sign, then one or more decimal digits, with a value that fits the
64-bit `int`. -/
def Atoi (s : Str) : Except error Int :=
  let neg := s.head? = some '-'
  let body := if s.head? = some '-' ∨ s.head? = some '+' then s.drop 1 else s
  if body = [] ∨ ¬ body.all regexp.isDigit then
    Except.error (error.NumError "Atoi".toList s "invalid syntax".toList)
  else if neg then
    if digitsVal body ≤ 2 ^ 63 then Except.ok (-(digitsVal body : Int))
    else Except.error (error.NumError "Atoi".toList s "value out of range".toList)
  else
    if digitsVal body < 2 ^ 63 then Except.ok (digitsVal body : Int)
    else Except.error (error.NumError "Atoi".toList s "value out of range".toList)

end strconv

namespace strings

/-- Index returns the index of the first instance of substr in s, or -1 if
substr is not present in s. -/
def Index (s substr : Str) : Int :=
  if substr.isPrefixOf s then 0
  else
    match s with
    | [] => -1
    | _ :: t => if Index t substr = -1 then -1 else Index t substr + 1

end strings

namespace http

/-- StatusText returns a text for the HTTP status code. It returns the empty
string if the code is unknown. The table of Go's `net/http`. -/
def StatusText (code : Int) : Str :=
  (match code with
  | 100 => "Continue"
  | 101 => "Switching Protocols"
  | 102 => "Processing"
  | 103 => "Early Hints"
  | 200 => "OK"
  | 201 => "Created"
  | 202 => "Accepted"
  | 203 => "Non-Authoritative Information"
  | 204 => "No Content"
  | 205 => "Reset Content"
  | 206 => "Partial Content"
  | 207 => "Multi-Status"
  | 208 => "Already Reported"
  | 226 => "IM Used"
  | 300 => "Multiple Choices"
  | 301 => "Moved Permanently"
  | 302 => "Found"
  | 303 => "See Other"
  | 304 => "Not Modified"
  | 305 => "Use Proxy"
  | 307 => "Temporary Redirect"
  | 308 => "Permanent Redirect"
  | 400 => "Bad Request"
  | 401 => "Unauthorized"
  | 402 => "Payment Required"
  | 403 => "Forbidden"
  | 404 => "Not Found"
  | 405 => "Method Not Allowed"
  | 406 => "Not Acceptable"
  | 407 => "Proxy Authentication Required"
  | 408 => "Request Timeout"
  | 409 => "Conflict"
  | 410 => "Gone"
  | 411 => "Length Required"
  | 412 => "Precondition Failed"
  | 413 => "Request Entity Too Large"
  | 414 => "Request URI Too Long"
  | 415 => "Unsupported Media Type"
  | 416 => "Requested Range Not Satisfiable"
  | 417 => "Expectation Failed"
  | 418 => "I\x27m a teapot"
  | 421 => "Misdirected Request"
  | 422 => "Unprocessable Entity"
  | 423 => "Locked"
  | 424 => "Failed Dependency"
  | 425 => "Too Early"
  | 426 => "Upgrade Required"
  | 428 => "Precondition Required"
  | 429 => "Too Many Requests"
  | 431 => "Request Header Fields Too Large"
  | 451 => "Unavailable For Legal Reasons"
  | 500 => "Internal Server Error"
  | 501 => "Not Implemented"
  | 502 => "Bad Gateway"
  | 503 => "Service Unavailable"
  | 504 => "Gateway Timeout"
  | 505 => "HTTP Version Not Supported"
  | 506 => "Variant Also Negotiates"
  | 507 => "Insufficient Storage"
  | 508 => "Loop Detected"
  | 510 => "Not Extended"
  | 511 => "Network Authentication Required"
  | _ => "").toList

end http

namespace collector

open regexp

/-- The submatches 1 and 2 of `w3cLogEntryRegExp.FindStringSubmatch(s)`, for
the expression `^.+? .+? .+? \[.+?\] "(.+?)" (\d+) \d+$`; `none` is the nil
result of no match. -/
def w3cLogEntryRegExp (s : Str) : Option (Str × Str) :=
  plusLazy isDot (fun _ => lit ' ' <|
  plusLazy isDot (fun _ => lit ' ' <|
  plusLazy isDot (fun _ => lit ' ' <| lit '[' <|
  plusLazy isDot (fun _ => lit ']' <| lit ' ' <| lit '"' <|
  plusLazy isDot (fun req => lit '"' <| lit ' ' <|
  plusGreedy isDigit (fun code => lit ' ' <|
  plusGreedy isDigit (fun _ => eot (req, code)))))))) s

/-- The submatches 1 and 2 of `methodPathRegExp.FindStringSubmatch(s)`, for
the expression `^(\w+) (/.*?) `. -/
def methodPathRegExp (s : Str) : Option (Str × Str) :=
  plusGreedy isWord (fun m => lit ' ' <| lit '/' <|
  starLazy isDot (fun p => lit ' ' (fun _ => some (m, '/' :: p))) []) s

/-- LogMessage represents the parsed log entry with only the data we are
interested in. -/
structure LogMessage where
  Section : Str
  Method : Str
  Code : Int
  deriving DecidableEq

/-- NewLogMessageFromLogEntry parses the raw log entry validating it therefore
and extracts only the interesting fields. `StatusText` is `http.StatusText`. -/
def NewLogMessageFromLogEntry (StatusText : Int → Str) (str : Str) :
    Option LogMessage × Option error :=
  match w3cLogEntryRegExp str with
  | some (m1_1, m1_2) =>
    match strconv.Atoi m1_2 with
    | Except.error err => (none, some err)
    | Except.ok code =>
      if (StatusText code).length = 0 then
        (none, some (error.New "unknown http code".toList))
      else
        match methodPathRegExp m1_1 with
        | some (m2_1, m2_2) =>
          let i := strings.Index (m2_2.drop 1) "/".toList
          if i = -1 then
            (some { Section := m2_2, Method := m2_1, Code := code }, none)
          else
            (some { Section := m2_2.take (i + 1).toNat, Method := m2_1, Code := code }, none)
        | none => (none, some (error.New "method and path format not matched".toList))
  | none => (none, some (error.New "w3c log entry format not matched".toList))

/-- The fields of a log line of the shape
`host ident authuser [timestamp] "METHOD path protocol" status bytes`. -/
structure Entry where
  host : Str
  ident : Str
  authuser : Str
  timestamp : Str
  method : Str
  path : Str
  protocol : Str
  status : Str
  bytes : Str
  deriving DecidableEq

/-- The quoted request `METHOD path protocol` of an entry. -/
def Entry.request (e : Entry) : Str :=
  e.method ++ [' '] ++ e.path ++ [' '] ++ e.protocol

/-- The log line written with the fields of an entry. -/
def Entry.line (e : Entry) : Str :=
  e.host ++ [' '] ++ e.ident ++ [' '] ++ e.authuser ++ [' ', '['] ++ e.timestamp
    ++ [']', ' ', '"'] ++ e.request ++ ['"', ' '] ++ e.status ++ [' '] ++ e.bytes

/-- The conditions on the fields of a line of the shape: host, ident and
authuser non-empty without spaces; timestamp non-empty; the method non-empty
word characters; the path starting with a slash and without spaces; the status
the decimal digits of an `int` code with a status text; bytes non-empty
digits. -/
def Entry.Fields (StatusText : Int → Str) (e : Entry) : Prop :=
  (e.host ≠ [] ∧ ∀ c ∈ e.host, c ≠ ' ') ∧
  (e.ident ≠ [] ∧ ∀ c ∈ e.ident, c ≠ ' ') ∧
  (e.authuser ≠ [] ∧ ∀ c ∈ e.authuser, c ≠ ' ') ∧
  e.timestamp ≠ [] ∧
  (e.method ≠ [] ∧ ∀ c ∈ e.method, isWord c = true) ∧
  (e.path.head? = some '/' ∧ ∀ c ∈ e.path, c ≠ ' ') ∧
  (e.status ≠ [] ∧ (∀ c ∈ e.status, isDigit c = true) ∧
    strconv.digitsVal e.status < 2 ^ 63 ∧
    StatusText (strconv.digitsVal e.status) ≠ []) ∧
  (e.bytes ≠ [] ∧ ∀ c ∈ e.bytes, isDigit c = true)

/-- The first path segment: the path up to but excluding its second slash, or
the whole path when it has no slash after its first character. -/
def Entry.firstSegment (e : Entry) : Str :=
  e.path.take 1 ++ (e.path.drop 1).takeWhile (fun c => c != '/')

/-- The entry of the second nominal line of the parser's test. -/
def nominalEntry : Entry :=
  { host := "127.0.0.1".toList
    ident := "-".toList
    authuser := "jill".toList
    timestamp := "09/May/2018:16:00:41 +0000".toList
    method := "GET".toList
    path := "/api/user".toList
    protocol := "HTTP/1.0".toList
    status := "200".toList
    bytes := "234".toList }

/-- The entry of the first nominal line of the parser's test. -/
def reportEntry : Entry :=
  { host := "127.0.0.1".toList
    ident := "-".toList
    authuser := "james".toList
    timestamp := "09/May/2018:16:00:39 +0000".toList
    method := "GET".toList
    path := "/report".toList
    protocol := "HTTP/1.0".toList
    status := "200".toList
    bytes := "123".toList }

/-- The entry of the third nominal line of the parser's test. -/
def rootEntry : Entry :=
  { host := "127.0.0.1".toList
    ident := "-".toList
    authuser := "frank".toList
    timestamp := "09/May/2018:16:00:42 +0000".toList
    method := "POST".toList
    path := "/".toList
    protocol := "HTTP/1.0".toList
    status := "200".toList
    bytes := "34".toList }

/-- An entry whose timestamp holds a closing bracket, a space and a quote. -/
def bracketEntry : Entry :=
  { host := "h".toList
    ident := "i".toList
    authuser := "u".toList
    timestamp := "a] \"b".toList
    method := "GET".toList
    path := "/x".toList
    protocol := "HTTP/1.0".toList
    status := "200".toList
    bytes := "5".toList }

/-- An entry whose timestamp holds a newline. -/
def newlineEntry : Entry :=
  { host := "h".toList
    ident := "i".toList
    authuser := "u".toList
    timestamp := "a\nb".toList
    method := "GET".toList
    path := "/x".toList
    protocol := "HTTP/1.0".toList
    status := "200".toList
    bytes := "5".toList }

/-- The line of the parser's test with the status 999, up to the space before
its status. -/
def wrongCodePrefix : Str :=
  "127.0.0.1 - mary [09/May/2018:16:00:42 +0000] \"GET /api/user HTTP/1.0\"".toList

/-- The line of the parser's test with the status 999, which no status text
is registered for. -/
def wrongCodeLine : Str :=
  wrongCodePrefix ++ [' '] ++ "999".toList ++ [' '] ++ "12".toList

end collector

/-! ## Built-in `len` and more of packages `unicode`, `strings`, `strconv`, `sort` -/

/-- The built-in `len` of a string: the number of bytes of its UTF-8 text. -/
def len (s : Str) : Int :=
  ((s.map Char.utf8Size).sum : Nat)

/-- Go maps of type `map[string]int`, as the list of their entries; the keys of
the entries are distinct and the order of the list has no meaning. -/
abbrev Map := List (Str × Int)

/-- The map read `m[k]`: the value of the entry, the zero value without one. -/
def Map.get (m : Map) (k : Str) : Int :=
  match m.lookup k with
  | some v => v
  | none => 0

/-- The map write `m[k] = v`: the entry is replaced, or added when there is
none. -/
def Map.set (m : Map) (k : Str) (v : Int) : Map :=
  if m.any (fun p => p.1 == k) then m.map (fun p => if p.1 = k then (k, v) else p)
  else m ++ [(k, v)]

/-- The statement `m[k]++`. -/
def Map.inc (m : Map) (k : Str) : Map :=
  m.set k (m.get k + 1)

namespace unicode

/-- IsSpace reports whether the rune is a space character as defined by
Unicode's White Space property. -/
def IsSpace (c : Char) : Bool :=
  let n := c.toNat
  (0x09 ≤ n && n ≤ 0x0D) || n == 0x20 || n == 0x85 || n == 0xA0 || n == 0x1680 ||
    (0x2000 ≤ n && n ≤ 0x200A) || n == 0x2028 || n == 0x2029 || n == 0x202F ||
    n == 0x205F || n == 0x3000

end unicode

namespace strings

/-- Repeat returns a new string consisting of count copies of the string s. It
panics if count is negative. -/
def Repeat (s : Str) (count : Int) : Option Str :=
  if count < 0 then none else some (List.replicate count.toNat s).flatten

/-- TrimSpace returns a slice of the string s, with all leading and trailing
white space removed, as defined by Unicode. -/
def TrimSpace (s : Str) : Str :=
  ((s.dropWhile unicode.IsSpace).reverse.dropWhile unicode.IsSpace).reverse

end strings

namespace strconv

/-- Itoa is equivalent to FormatInt(int64(i), 10). -/
def Itoa (i : Int) : Str :=
  (toString i).toList

end strconv

namespace sort

/-- Slice sorts the slice given the provided less function. The order of equal
elements is not specified by the package; here they keep their order (an
insertion sort), and the order in which the elements come in is left free
wherever it is not specified either. -/
def Slice {α : Type} (less : α → α → Bool) (x : List α) : List α :=
  x.insertionSort (fun a b => less b a = false)

end sort

/-! ## More of package `printer`: the two-column table -/

namespace printer

/-- The string key/value pair. -/
structure strPair where
  Key : Str
  Value : Str
  deriving DecidableEq

/-- Table2dMessage helper struct to construct primitive 2D tables for
printing. -/
structure Table2dMessage where
  Name : Str
  Titles : Str × Str
  Rows : List strPair
  max : Int × Int
  colSep : Str
  deriving DecidableEq

/-- NewTable2dMessage gives a new instance of 2d table with given name and 2
titles. -/
def NewTable2dMessage (n t1 t2 : Str) : Table2dMessage :=
  { Name := n, Titles := (t1, t2), Rows := [], max := (len t1, len t2),
    colSep := "    ".toList }

/-- AddRow adds a non title row into 2d table. -/
def Table2dMessage.AddRow (t : Table2dMessage) (k v : Str) : Table2dMessage :=
  let t1 := { t with Rows := t.Rows ++ [{ Key := k, Value := v }] }
  let t2 := if len k > t1.max.1 then { t1 with max := (len k, t1.max.2) } else t1
  if len v > t2.max.2 then { t2 with max := (t2.max.1, len v) } else t2

/-- Length gives the width of 2d table where the width is the sum of the max
lengths of the columns. -/
def Table2dMessage.Length (t : Table2dMessage) : Int :=
  t.max.1 + t.max.2 + len t.colSep

/-- Enlarge resize the table to the given new width. -/
def Table2dMessage.Enlarge (t : Table2dMessage) (newLen : Int) : Table2dMessage :=
  if newLen ≤ t.Length then t
  else
    let allSize := newLen - len t.colSep
    let colSize := allSize.tdiv 2
    if t.max.1 > colSize then { t with max := (t.max.1, allSize - t.max.1) }
    else if t.max.2 > colSize then { t with max := (allSize - t.max.2, t.max.2) }
    else { t with max := (colSize, colSize) }

/-- The function `center`: pad from left and right putting the given string to
the center. -/
def center (str filler : Str) (max : Int) : Option Str :=
  let padLeft := (max - len str).tdiv 2
  let padRight := if (max - len str).tmod 2 ≠ 0 then padLeft + 1 else padLeft
  match strings.Repeat filler padLeft, strings.Repeat filler padRight with
  | some l, some r => some (l ++ str ++ r)
  | _, _ => none

/-- The function `padRight`: pad right up to the given max. -/
def padRight (str : Str) (max : Int) : Option Str :=
  match strings.Repeat [' '] (max - len str) with
  | some p => some (str ++ p)
  | none => none

/-- The function `padLeft`: pad left up to the given max. -/
def padLeft (str : Str) (max : Int) : Option Str :=
  match strings.Repeat [' '] (max - len str) with
  | some p => some (p ++ str)
  | none => none

/-- The rows part of the text of a table: one line for each row. -/
def formatRows (t : Table2dMessage) : List strPair → Option Str
  | [] => some []
  | r :: rs =>
    match padRight r.Key t.max.1, padLeft r.Value t.max.2, formatRows t rs with
    | some k, some v, some rest => some (k ++ t.colSep ++ v ++ ['\n'] ++ rest)
    | _, _, _ => none

/-- Format returns 2d table ready to be displayed. -/
def Table2dMessage.Format (t : Table2dMessage) : Option Str :=
  match center t.Name ['-'] t.Length, center t.Titles.1 [' '] t.max.1,
    center t.Titles.2 [' '] t.max.2, strings.Repeat ['-'] t.max.1,
    strings.Repeat ['-'] t.max.2, formatRows t t.Rows with
  | some name, some t1, some t2, some o1, some o2, some rows =>
    some (['\n'] ++ name ++ ['\n'] ++ t1 ++ t.colSep ++ t2 ++ ['\n'] ++ o1 ++ t.colSep ++ o2
      ++ ['\n'] ++ rows)
  | _, _, _, _, _, _ => none

end printer

/-! ## More of package `collector`: the summary -/

namespace collector

open printer

/-- The key of the total number of hits in `Summary.Sum`. -/
def hitsKey : Str := "hits".toList

/-- The key of the number of successes in `Summary.Sum`. -/
def successKey : Str := "success".toList

/-- The key of the number of redirects in `Summary.Sum`. -/
def redirectKey : Str := "redirect".toList

/-- The key of the number of errors in `Summary.Sum`. -/
def errorsKey : Str := "errors".toList

/-- The key of the traffic in `Summary.Sum`. -/
def trafficKey : Str := "traffic".toList

/-- Summary represents the whole summary to be displayed every summary
interval. -/
structure Summary where
  Sections : Map
  Sum : Map
  topNum : Int
  deriving DecidableEq

/-- NewSummary returns a new instance of Summary with given limit for most
hitted sections. -/
def NewSummary (top : Int) : Summary :=
  { Sections := [], Sum := [], topNum := top }

/-- Add adds the stats of the given log message to the summary. The case 5 of
the switch falls through to the case 4. -/
def Summary.Add (s : Summary) (m : LogMessage) : Summary :=
  let s1 := { s with Sum := s.Sum.inc hitsKey }
  let s2 := { s1 with Sections := s1.Sections.inc m.Section }
  if m.Code.tdiv 100 = 5 then { s2 with Sum := s2.Sum.inc errorsKey }
  else if m.Code.tdiv 100 = 4 then { s2 with Sum := s2.Sum.inc errorsKey }
  else if m.Code.tdiv 100 = 3 then { s2 with Sum := s2.Sum.inc redirectKey }
  else if m.Code.tdiv 100 = 2 then { s2 with Sum := s2.Sum.inc successKey }
  else s2

/-- The summary after a sequence of calls to `Add`, in order. -/
def Summary.addAll (s : Summary) : List LogMessage → Summary
  | [] => s
  | m :: ms => (s.Add m).addAll ms

/-- The expression `int(math.Round(float64(n) / float64(d)))` for two integers:
the quotient of the magnitudes with the sign of the quotient. With a zero
divisor the quotient is infinite or not a number and its conversion to `int` is not defined by the language. -/
def roundQuot (n d : Int) : Option Int :=
  if d = 0 then none
  else if 0 < d then some (alertmanager.roundDiv n d.toNat)
  else some (alertmanager.roundDiv (-n) (-d).toNat)

/-- CalcTraffic calculates the traffic for the one summary. -/
def Summary.CalcTraffic (s : Summary) (win : Int) : Option Summary :=
  match roundQuot (s.Sum.get hitsKey) win with
  | some v => some { s with Sum := s.Sum.set trafficKey v }
  | none => none

/-- The loop `for i := 0; i < len(om) || i == s.topNum; i++` of `Format`, which
adds the row of `om[i]`, from the index `i` on. It tests its guard at most
`len(om) + 1` times, and `fuel` counts the tests that are left; `none` is the
index-out-of-range panic of `om[i]`. -/
def rowsLoop (om : List (Str × Int)) (topNum : Int) :
    Nat → Nat → Table2dMessage → Option Table2dMessage
  | 0, _, _ => none
  | fuel + 1, i, tblT =>
    if i < om.length ∨ (i : Int) = topNum then
      match om.get? i with
      | none => none
      | some p => rowsLoop om topNum fuel (i + 1) (tblT.AddRow p.1 (strconv.Itoa p.2))
    else some tblT

/-- The top sections table that `Format` fills, before the two tables are
aligned. `order` is the entries of `s.Sections` in the order in which the
`range` statement yields them, which the language leaves free. -/
def Summary.topSections (s : Summary) (order : Map) : Option Table2dMessage :=
  let tblT := NewTable2dMessage "TOP SECTIONS".toList "Section".toList "Number of hits".toList
  if s.Sections.length = 0 then some (tblT.AddRow "<no section data>".toList [])
  else
    let om := sort.Slice (fun a b => decide (a.2 > b.2)) order
    rowsLoop om s.topNum (om.length + 1) 0 tblT

/-- The summary table that `Format` fills, before the two tables are
aligned. -/
def Summary.summaryTable (s : Summary) : Table2dMessage :=
  let tblS := NewTable2dMessage "SUMMARY".toList "Detail".toList "Value".toList
  let tblS := tblS.AddRow "Total hits".toList (strconv.Itoa (s.Sum.get hitsKey))
  let tblS := tblS.AddRow "Traffic (per second)".toList (strconv.Itoa (s.Sum.get trafficKey))
  let tblS := tblS.AddRow "Total success".toList (strconv.Itoa (s.Sum.get successKey))
  let tblS := tblS.AddRow "Total redirects".toList (strconv.Itoa (s.Sum.get redirectKey))
  tblS.AddRow "Total errors".toList (strconv.Itoa (s.Sum.get errorsKey))

/-- The two tables of `Format` once aligned: the narrower one is enlarged to
the width of the other. -/
def align (tblT tblS : Table2dMessage) : Table2dMessage × Table2dMessage :=
  if tblS.Length > tblT.Length then (tblT.Enlarge tblS.Length, tblS)
  else if tblT.Length > tblS.Length then (tblT, tblS.Enlarge tblT.Length)
  else (tblT, tblS)

/-- Format formats the summary structure as two 2d tables ready to be
printed. -/
def Summary.Format (s : Summary) (order : Map) : Option Str :=
  match s.topSections order with
  | none => none
  | some tblT =>
    match (align tblT s.summaryTable).1.Format, (align tblT s.summaryTable).2.Format with
    | some a, some b => some (a ++ b)
    | _, _ => none

/-- The ten records of the summary test. -/
def testRecords : List LogMessage :=
  [{ Section := "/here".toList, Method := "GET".toList, Code := 200 },
   { Section := "/here".toList, Method := "PUT".toList, Code := 200 },
   { Section := "/here".toList, Method := "GET".toList, Code := 202 },
   { Section := "/here".toList, Method := "POST".toList, Code := 202 },
   { Section := "/".toList, Method := "POST".toList, Code := 404 },
   { Section := "/".toList, Method := "POST".toList, Code := 500 },
   { Section := "/".toList, Method := "GET".toList, Code := 200 },
   { Section := "/there".toList, Method := "GET".toList, Code := 200 },
   { Section := "/there".toList, Method := "PUT".toList, Code := 202 },
   { Section := "/redirect".toList, Method := "POST".toList, Code := 302 }]

/-- The summary of the summary test, with the limit 5. -/
def testSummary : Summary :=
  (NewSummary 5).addAll testRecords

end collector

namespace printer

/-- The columns of a table are wide enough: each title and each cell is no
longer than the width of its column, and the name no longer than the table. -/
def Table2dMessage.fits (t : Table2dMessage) : Prop :=
  len t.Titles.1 ≤ t.max.1 ∧ len t.Titles.2 ≤ t.max.2 ∧ len t.Name ≤ t.Length ∧
    ∀ r ∈ t.Rows, len r.Key ≤ t.max.1 ∧ len r.Value ≤ t.max.2

instance (t : Table2dMessage) : Decidable t.fits := by
  unfold Table2dMessage.fits
  infer_instance

end printer

namespace collector

/-- The row of the top sections table for an entry of `Sections`. -/
def sectionRow (p : Str × Int) : printer.strPair :=
  { Key := p.1, Value := strconv.Itoa p.2 }

/-- The table after the rows of the entries are added to it in order, as the
loop of `Format` does with `om`. -/
def addRows (tblT : printer.Table2dMessage) (om : List (Str × Int)) : printer.Table2dMessage :=
  om.foldl (fun t p => t.AddRow p.1 (strconv.Itoa p.2)) tblT

/-- The top sections table of `Format` when it is made, without a row. -/
def topTable : printer.Table2dMessage :=
  printer.NewTable2dMessage "TOP SECTIONS".toList "Section".toList "Number of hits".toList

/-- The row that `Format` shows when no section was collected. -/
def noSectionRow : printer.strPair :=
  { Key := "<no section data>".toList, Value := [] }

/-- The text that the test of the summary expects from `Format`. -/
def expectedFormat : Str :=
  ("\n--------TOP SECTIONS---------\n" ++
   "  Section      Number of hits\n" ++
   "-----------    --------------\n" ++
   "/here                       4\n" ++
   "/                           3\n" ++
   "/there                      2\n" ++
   "/redirect                   1\n" ++
   "\n-----------SUMMARY-----------\n" ++
   "       Detail           Value\n" ++
   "--------------------    -----\n" ++
   "Total hits                 10\n" ++
   "Traffic (per second)        2\n" ++
   "Total success               7\n" ++
   "Total redirects             1\n" ++
   "Total errors                2\n").toList

end collector

/-! ## Package `reader` -/

namespace reader

open printer alertmanager

/-- What a send of `Reader.Start` is: a raw line on the log channel, a metric
on the metric channel or a message on the print channel. -/
inductive Send where
  | log (l : Str)
  | met (m : Metric)
  | print (f : Formatter)
  deriving DecidableEq

/-- The method `ReadBytes` of the buffered reader, with the delimiter `delim`,
over the bytes `buf` that can be read before the reading ends with the error
`err` (`none` for `io.EOF`, the end of the file): it reads until the first
occurrence of the delimiter, returning the data up to and including the
delimiter; when it meets the error before finding a delimiter, it returns the
data read before the error and the error itself. The result is the data, the
error when there is one, and the bytes left to read. -/
def ReadBytes (buf : Str) (err : Option Str) (delim : Char) :
    Str × Option (Option Str) × Str :=
  match buf.span (fun c => c != delim) with
  | (line, d :: rest) => (line ++ [d], none, rest)
  | (line, []) => (line, some err, [])

/-- The text `fmt.Sprintf("Error reading log file: %s", err.Error())`. -/
def readErrorText (e : Str) : Str :=
  "Error reading log file: ".toList ++ e

/-- The inner loop of a tick of `Start`, which reads the lines: the sends it
makes, in order, and the number of lines counted. Each turn but the last reads
at least one byte, and `fuel` counts the turns that are left. -/
def readLoop (err : Option Str) : Nat → Str → Int → List Send × Int
  | 0, _, logCnt => ([], logCnt)
  | fuel + 1, buf, logCnt =>
    match ReadBytes buf err '\n' with
    | (_, some none, _) => ([], logCnt)
    | (_, some (some e), _) => ([Send.print (NewErrorMessage (readErrorText e))], logCnt)
    | (msg, none, rest) =>
      let (out, cnt) := readLoop err fuel rest (logCnt + 1)
      (Send.log (strings.TrimSpace msg) :: out, cnt)

/-- A tick of the poll timer, with what the file gives at that tick: the time
of the tick, the bytes appended to the file since the tick before, and, when
the reading fails at this tick with an error that is not `io.EOF`, the number
of bytes read before the failure and the text of the error. -/
structure Tick where
  t : Time
  appended : Str
  fault : Option (Nat × Str)
  deriving DecidableEq

/-- The bytes that the reading of a tick gets from the unread bytes of the
file, the error that ends it (`none` for `io.EOF`) and the bytes that stay
unread. -/
def Tick.reading (tk : Tick) (unread : Str) : Str × Option Str × Str :=
  match tk.fault with
  | none => (unread ++ tk.appended, none, [])
  | some (k, e) => ((unread ++ tk.appended).take k, some e, (unread ++ tk.appended).drop k)

/-- The case `t := <-tick.C` of the loop of `Start`: the sends of the tick, in
order, and the bytes of the file that stay unread. -/
def tick (unread : Str) (tk : Tick) : List Send × Str :=
  match tk.reading unread with
  | (buf, err, left) =>
    let (out, logCnt) := readLoop err (buf.length + 1) buf 0
    (out ++ [Send.met (NewCounterMetric logCnt tk.t)], left)

/-- The loop of `Start`, from a state of the file in which the bytes `unread`
are not read yet: the sends of each tick that fires before the context is
done, in order. -/
def run (unread : Str) : List Tick → List (List Send)
  | [] => []
  | tk :: tks => (tick unread tk).1 :: run (tick unread tk).2 tks

/-- The bytes of the file that are not read yet when the tick of index `i`
fires, in the loop of `Start` from a state of the file in which the bytes
`unread` are not read yet: what the ticks before it have left. -/
def unreadAt (unread : Str) : List Tick → Nat → Str
  | [], _ => unread
  | _ :: _, 0 => unread
  | tk :: tks, i + 1 => unreadAt (tick unread tk).2 tks i

/-- Start sends raw log entries to logCh, counter metric to metCh and errors to
printCh, from the offset that it puts to the end of the file, where nothing is
unread. -/
def Start (ticks : List Tick) : List (List Send) :=
  run [] ticks

end reader

/-! ## More of packages `strconv` and `config`, and the loop of package `collector` -/

namespace strconv

/-- IsPrint reports whether the rune is printable by Go's definition: letters,
numbers, punctuation, symbols and ASCII space. The runes up to `0xFF` are
decided by the fast check of the function, the others by the tables of the
package, which are the parameter `tables`. -/
def IsPrint (tables : Char → Bool) (r : Char) : Bool :=
  if r.toNat ≤ 0xFF then
    if 0x20 ≤ r.toNat ∧ r.toNat ≤ 0x7E then true
    else if 0xA1 ≤ r.toNat ∧ r.toNat ≤ 0xFF then r.toNat != 0xAD
    else false
  else tables r

/-- The digit of `lowerhex` for the four low bits of a number. -/
def lowerhex (n : Nat) : Char :=
  "0123456789abcdef".toList.getD (n % 16) '0'

/-- The function `appendEscapedRune` for the quote `"`, neither ASCII only nor
graphic only: the text that stands for one rune in a quoted string. -/
def escapedRune (tables : Char → Bool) (r : Char) : Str :=
  if r = '"' ∨ r = '\\' then ['\\', r]
  else if IsPrint tables r then [r]
  else if r = '\x07' then ['\\', 'a']
  else if r = '\x08' then ['\\', 'b']
  else if r = '\x0c' then ['\\', 'f']
  else if r = '\n' then ['\\', 'n']
  else if r = '\r' then ['\\', 'r']
  else if r = '\t' then ['\\', 't']
  else if r = '\x0b' then ['\\', 'v']
  else if r.toNat < 0x20 ∨ r.toNat = 0x7F then
    ['\\', 'x', lowerhex (r.toNat / 16), lowerhex r.toNat]
  else if r.toNat < 0x10000 then
    ['\\', 'u', lowerhex (r.toNat / 4096), lowerhex (r.toNat / 256), lowerhex (r.toNat / 16),
      lowerhex r.toNat]
  else
    ['\\', 'U', lowerhex (r.toNat / 268435456), lowerhex (r.toNat / 16777216),
      lowerhex (r.toNat / 1048576), lowerhex (r.toNat / 65536), lowerhex (r.toNat / 4096),
      lowerhex (r.toNat / 256), lowerhex (r.toNat / 16), lowerhex r.toNat]

/-- Quote returns a double-quoted Go string literal representing s. The
returned string uses Go escape sequences for control characters and
non-printable characters as defined by IsPrint. It is what the verb `%q`
prints for a string. -/
def Quote (tables : Char → Bool) (s : Str) : Str :=
  ['"'] ++ (s.map (escapedRune tables)).flatten ++ ['"']

end strconv

/-- The method `Error` of an error: the text given to `errors.New`, or for a
`*strconv.NumError` the text
`"strconv." + e.Func + ": " + "parsing " + Quote(e.Num) + ": " + e.Err.Error()`. -/
def error.Error (tables : Char → Bool) : error → Str
  | error.New text => text
  | error.NumError Func Num Err =>
    "strconv.".toList ++ Func ++ ": ".toList ++ "parsing ".toList ++ strconv.Quote tables Num
      ++ ": ".toList ++ Err

namespace strings

end strings

namespace config

/-- The remainder `a % b` of two integers, truncated as the language does;
`none` is the run-time panic of the division by zero. -/
def rem (a b : Int) : Option Int :=
  if b = 0 then none else some (a.tmod b)

/-- Validate validates the important fields of the configuration: the error
returned, `none` for `nil`; the outer `none` is a run-time panic. -/
def Config.Validate (c : Config) : Option (Option error) :=
  if len (strings.TrimSpace c.LogFilePath) = 0 then
    some (some (error.New "No log file provided".toList))
  else if c.PollIntervalSec ≤ 0 then
    some (some (error.New "polling interval cannot be less than 1 second".toList))
  else if c.SummaryIntervalSec ≤ 0 then
    some (some (error.New
      "interval between summary displays cannot be less than 1 second".toList))
  else if c.PollIntervalSec ≥ c.SummaryIntervalSec then
    some (some (error.New "summary interval must be greater than polling interval".toList))
  else if c.MonitorWindowSec ≤ 0 then
    some (some (error.New "monitoring window cannot less than 1 second".toList))
  else
    match rem c.MonitorWindowSec c.PollIntervalSec with
    | none => none
    | some r =>
      if r ≠ 0 then
        some (some (error.New ("polling interval must be a divisor of monitoring window " ++
          "value. Try 1s for the polling interval, it's a good divisor ;)").toList))
      else if c.AlertThreshold ≤ 0 then
        some (some (error.New "alert threshold cannot be less than 1 hit per second".toList))
      else if c.TopSectionNum ≤ 0 then
        some (some (error.New "number of most hitted sections cannot be less than 1".toList))
      else some none

/-- The configurations of the test of `Validate` that must be refused. -/
def refusedConfigs : List Config :=
  [{ NewDefault with LogFilePath := "\t   \n".toList },
   { NewDefault with PollIntervalSec := 0 },
   { NewDefault with SummaryIntervalSec := 0 },
   { NewDefault with PollIntervalSec := 5, SummaryIntervalSec := 5 },
   { NewDefault with MonitorWindowSec := 0 },
   { NewDefault with PollIntervalSec := 3, MonitorWindowSec := 10 },
   { NewDefault with AlertThreshold := 0 },
   { NewDefault with TopSectionNum := 0 }]

end config

namespace collector

/-- What `Start` sends on the print channel, as values of the interface
`Formatter`: the summary, which implements the interface in this package, or a
message of package `printer`. -/
inductive Print where
  | summary (s : Summary)
  | message (f : printer.Formatter)
  deriving DecidableEq

/-- Verbose of what is sent: the method of `Summary` returns false as the
summary is to be always displayed. -/
def Print.Verbose : Print → Bool
  | Print.summary _ => false
  | Print.message f => f.Verbose

/-- Collector stores the summary stats for the given summary interval. -/
structure Collector where
  config : config.Config
  sum : Summary
  deriving DecidableEq

/-- New returns a new instance of Collector. -/
def New (cfg : config.Config) : Collector :=
  { config := cfg, sum := NewSummary cfg.TopSectionNum }

/-- What the `select` of the loop of `Start` receives: a tick of the summary
timer, or a raw line from the log channel. -/
inductive Event where
  | tick
  | log (l : Str)
  deriving DecidableEq

/-- The text
`fmt.Sprintf("Failed to parse log entry: %q. Error: %s", l, err)`. -/
def parseErrorText (tables : Char → Bool) (l : Str) (err : error) : Str :=
  "Failed to parse log entry: ".toList ++ strconv.Quote tables l ++ ". Error: ".toList
    ++ err.Error tables

/-- One turn of the loop of `Start`: the collector after it and what it sends
on the print channel, in order. On a tick the summary sent shares its maps
with no summary that the collector writes to later, since the collector goes
on with the fresh maps of `NewSummary`; so the summary sent is a value. The
result `none` is a run-time panic, or a traffic that the language leaves
undefined. -/
def Collector.step (StatusText : Int → Str) (tables : Char → Bool) (c : Collector) :
    Event → Option (Collector × List Print)
  | Event.tick =>
    match c.sum.CalcTraffic c.config.SummaryIntervalSec with
    | none => none
    | some s => some ({ c with sum := NewSummary c.config.TopSectionNum }, [Print.summary s])
  | Event.log l =>
    match NewLogMessageFromLogEntry StatusText l with
    | (_, some err) =>
      some (c, [Print.message (printer.NewErrorMessage (parseErrorText tables l err))])
    | (some msg, none) => some ({ c with sum := c.sum.Add msg }, [])
    | (none, none) => none

/-- The loop of `Start` over what it receives, in order: the collector at the
end and everything sent on the print channel. -/
def Collector.run (StatusText : Int → Str) (tables : Char → Bool) (c : Collector) :
    List Event → Option (Collector × List Print)
  | [] => some (c, [])
  | e :: es =>
    match c.step StatusText tables e with
    | none => none
    | some (c1, out) =>
      match Collector.run StatusText tables c1 es with
      | none => none
      | some (c2, outs) => some (c2, out ++ outs)

/-- Start collects the log message statistics and sends it to the printer
every summary interval. `time.NewTicker` panics when the interval is not
positive. -/
def Collector.Start (StatusText : Int → Str) (tables : Char → Bool) (c : Collector)
    (events : List Event) : Option (Collector × List Print) :=
  if c.config.SummaryIntervalSec ≤ 0 then none else c.run StatusText tables events

/-- The records of the lines that `NewLogMessageFromLogEntry` accepts, in
order. -/
def parsed (StatusText : Int → Str) (ls : List Str) : List LogMessage :=
  ls.filterMap fun l =>
    match NewLogMessageFromLogEntry StatusText l with
    | (some msg, none) => some msg
    | _ => none

/-- The error messages for the lines that `NewLogMessageFromLogEntry` refuses,
in order. -/
def refused (StatusText : Int → Str) (tables : Char → Bool) (ls : List Str) : List Print :=
  ls.filterMap fun l =>
    match NewLogMessageFromLogEntry StatusText l with
    | (_, some err) =>
      some (Print.message (printer.NewErrorMessage (parseErrorText tables l err)))
    | _ => none

/-- The configuration of the test of the collector: the default one with the
limit 2 and a summary every 2 seconds. -/
def testConfig : config.Config :=
  { config.NewDefault with TopSectionNum := 2, SummaryIntervalSec := 2 }

/-- The five lines of the test of the collector. -/
def testLines : List Str :=
  ["127.0.0.1 - james [09/May/2018:16:00:39 +0000] \"GET /report HTTP/1.0\" 200 123".toList,
   "127.0.0.1 - james [09/May/2018:16:01:39 +0000] \"POST /report HTTP/1.0\" 202 123".toList,
   "127.0.0.1 - james [09/May/2018:16:02:39 +0000] \"PUT /unknown HTTP/1.0\" 404 123".toList,
   "127.0.0.1 - james [09/May/2018:16:03:39 +0000] \"GET /report HTTP/1.0\" 200 123".toList,
   "127.0.0.1 - james [09/May/2018:16:04:39 +0000] \"PUT /unknown HTTP/1.0\" 500 123".toList]

/-- The summary that the test of the collector expects. -/
def expectedSummary : Summary :=
  { Sections := [("/report".toList, 3), ("/unknown".toList, 2)]
    Sum := [(hitsKey, 5), (successKey, 3), (errorsKey, 2), (trafficKey, 3)]
    topNum := 2 }

end collector

/-! ## Tables and summaries of the examples -/

namespace printer

/-- The table of the test of the two-column table, with its two rows. -/
def testTable : Table2dMessage :=
  ((NewTable2dMessage "TEST".toList "Column 1".toList "Other Column".toList).AddRow
    "here is my text".toList "not that long line but still".toList).AddRow
    "veeeeeeeery looooooooong liiiiiiiineeee".toList "here is other text".toList

/-- A table with two titles of one character and no row, of width 6. -/
def smallTable : Table2dMessage :=
  NewTable2dMessage "T".toList "a".toList "b".toList

end printer

namespace collector

/-- A summary made by hand, not by `Add`, with a negative number of hits. -/
def negativeSummary : Summary :=
  { Sections := [], Sum := [(hitsKey, -5)], topNum := 5 }

/-- A summary with more than `2 ^ 52` hits. -/
def hugeSummary : Summary :=
  { Sections := [], Sum := [(hitsKey, 6755399441055745)], topNum := 5 }

/-- A summary with the limit 10 and one record, whose section has 27
characters. -/
def longSectionSummary : Summary :=
  (NewSummary 10).Add
    { Section := "/abcdefghijklmnopqrstuvwxyz".toList, Method := "GET".toList, Code := 200 }

/-- The text of `longSectionSummary`: a top sections table of width 45 over a
summary table of width 44. -/
def longSectionFormat : Str :=
  ("\n----------------TOP SECTIONS-----------------\n" ++
   "          Section              Number of hits\n" ++
   "---------------------------    --------------\n" ++
   "/abcdefghijklmnopqrstuvwxyz                 1\n" ++
   "\n------------------SUMMARY-------------------\n" ++
   "       Detail                  Value        \n" ++
   "--------------------    --------------------\n" ++
   "Total hits                                 1\n" ++
   "Traffic (per second)                       0\n" ++
   "Total success                              1\n" ++
   "Total redirects                            0\n" ++
   "Total errors                               0\n").toList

end collector

/-! ## Theorems on `float64` -/

theorem roundEven_near (num den : Nat) (hd : 0 < den) :
    2 * num ≤ 2 * (den * roundEven num den) + den ∧
    2 * (den * roundEven num den) ≤ 2 * num + den := by
  have h1 := Nat.div_add_mod num den
  have h2 := Nat.mod_lt num hd
  unfold roundEven
  split
  · constructor <;> omega
  · split
    · rw [Nat.mul_add]; constructor <;> omega
    · split
      · constructor <;> omega
      · rw [Nat.mul_add]; constructor <;> omega

theorem roundEven_scale (a b K : Nat) (hK : 0 < K) :
    roundEven (a * K) (b * K) = roundEven a b := by
  have e1 : a * K / (b * K) = a / b := Nat.mul_div_mul_right a b hK
  have e2 : a * K % (b * K) = a % b * K := Nat.mul_mod_mul_right K a b
  have c1 : 2 * (a % b * K) < b * K ↔ 2 * (a % b) < b := by
    rw [← Nat.mul_assoc]
    exact Nat.mul_lt_mul_right hK
  have c2 : b * K < 2 * (a % b * K) ↔ b < 2 * (a % b) := by
    rw [← Nat.mul_assoc]
    exact Nat.mul_lt_mul_right hK
  simp only [roundEven, e1, e2, c1, c2]

theorem roundEven_one (a : Nat) : roundEven a 1 = a := by
  simp [roundEven, Nat.mod_one]

theorem scaleUp_spec (num den : Nat) : ∀ (fuel s : Nat),
    2 ^ 52 * den ≤ num * 2 ^ (s + fuel) →
    2 ^ 52 * den ≤ num * 2 ^ scaleUp num den fuel s := by
  intro fuel
  induction fuel with
  | zero => intro s h; simpa [scaleUp] using h
  | succ fuel ih =>
    intro s h
    unfold scaleUp
    split
    · assumption
    · apply ih
      have : s + 1 + fuel = s + (fuel + 1) := by omega
      rw [this]; exact h

theorem scaleUp_reach (num den : Nat) (hn : 0 < num) :
    2 ^ 52 * den ≤ num * 2 ^ scaleUp num den (den + 52) 0 := by
  apply scaleUp_spec
  have h1 : den < 2 ^ den := Nat.lt_two_pow den
  have h2 : 2 ^ (0 + (den + 52)) = 2 ^ den * 2 ^ 52 := by
    rw [Nat.zero_add, Nat.pow_add]
  rw [h2]
  calc 2 ^ 52 * den ≤ 2 ^ 52 * 2 ^ den := Nat.mul_le_mul_left _ (le_of_lt h1)
    _ = 1 * (2 ^ den * 2 ^ 52) := by ring
    _ ≤ num * (2 ^ den * 2 ^ 52) := Nat.mul_le_mul_right _ hn

theorem round_quotient (n d K : Nat) (hn0 : 0 < n) (hn : n < 2 ^ 52) (hd : 0 < d)
    (hK : 0 < K) :
    math.Round (float64.quotient (n * K) (d * K)) = (2 * n + d) / (2 * d) := by
  have hne : n * K ≠ 0 := Nat.pos_iff_ne_zero.mp (Nat.mul_pos hn0 hK)
  have hlt : n * K < 2 ^ 53 * (d * K) := by
    have : n < 2 ^ 53 * d := by
      calc n < 2 ^ 52 := hn
        _ ≤ 2 ^ 53 * 1 := by norm_num
        _ ≤ 2 ^ 53 * d := Nat.mul_le_mul_left _ hd
    calc n * K < 2 ^ 53 * d * K := Nat.mul_lt_mul_of_pos_right this hK
      _ = 2 ^ 53 * (d * K) := by ring
  have hs := scaleUp_reach (n * K) (d * K) (Nat.mul_pos hn0 hK)
  simp only [float64.quotient, hne, if_false, hlt, if_true]
  generalize scaleUp (n * K) (d * K) (d * K + 52) 0 = s at hs ⊢
  have hs1 : 2 ^ 52 * d ≤ n * 2 ^ s := by
    have : 2 ^ 52 * d * K ≤ n * 2 ^ s * K := by
      calc 2 ^ 52 * d * K = 2 ^ 52 * (d * K) := by ring
        _ ≤ n * K * 2 ^ s := hs
        _ = n * 2 ^ s * K := by ring
    exact Nat.le_of_mul_le_mul_right this hK
  have h2s : d < 2 ^ s := by
    by_contra hc
    have hc1 : 2 ^ s ≤ d := not_lt.mp hc
    have : n * 2 ^ s < 2 ^ 52 * d := by
      calc n * 2 ^ s ≤ n * d := Nat.mul_le_mul_left _ hc1
        _ < 2 ^ 52 * d := Nat.mul_lt_mul_of_pos_right hn hd
    omega
  have hs0 : s ≠ 0 := by
    intro h0
    rw [h0] at h2s
    simp at h2s
    omega
  obtain ⟨s1, hs1e⟩ := Nat.exists_eq_succ_of_ne_zero hs0
  have hs1f : s = s1 + 1 := hs1e
  subst hs1f
  have hm : roundEven (n * K * 2 ^ (s1 + 1)) (d * K) = roundEven (n * 2 ^ (s1 + 1)) d := by
    have : n * K * 2 ^ (s1 + 1) = n * 2 ^ (s1 + 1) * K := by ring
    rw [this, roundEven_scale _ _ _ hK]
  obtain ⟨b1, b2⟩ := roundEven_near (n * 2 ^ (s1 + 1)) d hd
  have hpow : 2 ^ (s1 + 1) = 2 * 2 ^ s1 := by rw [Nat.pow_succ]; ring
  have hsub : s1 + 1 - 1 = s1 := rfl
  simp only [math.Round, Nat.succ_ne_zero, if_false, Nat.pow_zero, Nat.mul_one, hsub, hm]
  generalize roundEven (n * 2 ^ (s1 + 1)) d = m at b1 b2 ⊢
  rw [hpow] at b1 b2 h2s ⊢
  generalize 2 ^ s1 = h at b1 b2 h2s ⊢
  have hdm := Nat.div_add_mod (2 * n + d) (2 * d)
  have hmod := Nat.mod_lt (2 * n + d) (by omega : 0 < 2 * d)
  generalize (2 * n + d) / (2 * d) = k at hdm ⊢
  generalize (2 * n + d) % (2 * d) = r at hdm hmod
  apply Nat.div_eq_of_lt_le
  · by_contra hc
    have hc1 : m + h + 1 ≤ k * (2 * h) := by omega
    have p1 := Nat.mul_le_mul_left d hc1
    have p2 : 2 * d * k * h + r * h = (2 * n + d) * h := by rw [← hdm]; ring
    have p0 := Nat.zero_le (r * h)
    linarith
  · by_contra hc
    have hc1 : (k + 1) * (2 * h) ≤ m + h := not_lt.mp hc
    have p1 := Nat.mul_le_mul_left d hc1
    have p2 : 2 * d * k * h + r * h = (2 * n + d) * h := by rw [← hdm]; ring
    have p3 : r * h + h ≤ 2 * d * h := by
      have : (r + 1) * h ≤ 2 * d * h := Nat.mul_le_mul_right h (by omega)
      linarith
    linarith

theorem scaleUp_least (num den : Nat) : ∀ (fuel s k : Nat),
    s ≤ k → k < scaleUp num den fuel s → ¬ 2 ^ 52 * den ≤ num * 2 ^ k := by
  intro fuel
  induction fuel with
  | zero => intro s k h1 h2; simp only [scaleUp] at h2; omega
  | succ fuel ih =>
    intro s k h1 h2
    unfold scaleUp at h2
    split at h2
    · omega
    · rename_i hc
      rcases Nat.eq_or_lt_of_le h1 with e | l
      · subst e; exact hc
      · exact ih (s + 1) k l h2

theorem scaleDown_spec (num den : Nat) : ∀ (fuel t : Nat),
    num < 2 ^ 53 * den * 2 ^ (t + fuel) →
    num < 2 ^ 53 * den * 2 ^ scaleDown num den fuel t := by
  intro fuel
  induction fuel with
  | zero => intro t h; simpa [scaleDown] using h
  | succ fuel ih =>
    intro t h
    unfold scaleDown
    split
    · assumption
    · apply ih
      have : t + 1 + fuel = t + (fuel + 1) := by omega
      rw [this]; exact h

theorem scaleDown_reach (num den : Nat) (hd : 0 < den) :
    num < 2 ^ 53 * den * 2 ^ scaleDown num den num 0 := by
  apply scaleDown_spec
  have h1 : num < 2 ^ num := Nat.lt_two_pow num
  have h2 : 1 ≤ 2 ^ 53 * den := Nat.mul_pos (by positivity) hd
  calc num < 2 ^ num := h1
    _ = 1 * 2 ^ (0 + num) := by rw [Nat.zero_add, Nat.one_mul]
    _ ≤ 2 ^ 53 * den * 2 ^ (0 + num) := Nat.mul_le_mul_right _ h2

theorem scaleDown_least (num den : Nat) : ∀ (fuel t k : Nat),
    t ≤ k → k < scaleDown num den fuel t → ¬ num < 2 ^ 53 * den * 2 ^ k := by
  intro fuel
  induction fuel with
  | zero => intro t k h1 h2; simp only [scaleDown] at h2; omega
  | succ fuel ih =>
    intro t k h1 h2
    unfold scaleDown at h2
    split at h2
    · omega
    · rename_i hc
      rcases Nat.eq_or_lt_of_le h1 with e | l
      · subst e; exact hc
      · exact ih (t + 1) k l h2

theorem roundEven_range (a den : Nat) (hd : 0 < den) (h1 : 2 ^ 52 * den ≤ a)
    (h2 : a < 2 ^ 53 * den) : 2 ^ 52 ≤ roundEven a den ∧ roundEven a den ≤ 2 ^ 53 := by
  obtain ⟨n1, n2⟩ := roundEven_near a den hd
  generalize roundEven a den = m at n1 n2
  constructor
  · by_contra hc
    have hm : m + 1 ≤ 2 ^ 52 := by omega
    have := Nat.mul_le_mul_left den hm
    nlinarith
  · by_contra hc
    have hm : 2 ^ 53 + 1 ≤ m := by omega
    have := Nat.mul_le_mul_left den hm
    nlinarith

/-- The mantissa of a quotient that is not zero has 53 bits, or is `2 ^ 53` after
a rounding up. -/
theorem quotient_mant (num den : Nat) (hn : 0 < num) (hd : 0 < den) :
    2 ^ 52 ≤ (float64.quotient num den).mant ∧ (float64.quotient num den).mant ≤ 2 ^ 53 := by
  have hne : num ≠ 0 := by omega
  by_cases hlt : num < 2 ^ 53 * den
  · simp only [float64.quotient, hne, if_false, hlt, if_true]
    have hr := scaleUp_reach num den hn
    have hl := scaleUp_least num den (den + 52) 0
    generalize scaleUp num den (den + 52) 0 = s at hr hl
    apply roundEven_range _ _ hd hr
    cases s with
    | zero => simpa using hlt
    | succ k =>
      have := hl k (Nat.zero_le _) (Nat.lt_succ_self _)
      have e : num * 2 ^ (k + 1) = 2 * (num * 2 ^ k) := by ring
      rw [e]
      omega
  · simp only [float64.quotient, hne, if_false, hlt]
    have hr := scaleDown_reach num den hd
    have hl := scaleDown_least num den num 0
    generalize scaleDown num den num 0 = t at hr hl
    have hpos : 0 < den * 2 ^ t := Nat.mul_pos hd (by positivity)
    apply roundEven_range _ _ hpos
    · cases t with
      | zero => simp only [Nat.pow_zero, Nat.mul_one] at hr; exact absurd hr hlt
      | succ k =>
        have := hl k (Nat.zero_le _) (Nat.lt_succ_self _)
        have e : 2 ^ 52 * (den * 2 ^ (k + 1)) = 2 ^ 53 * den * 2 ^ k := by ring
        rw [e]
        omega
    · have e : 2 ^ 53 * (den * 2 ^ t) = 2 ^ 53 * den * 2 ^ t := by ring
      rw [e]; exact hr

theorem float64.ofNat_small (n : Nat) (hn : n < 2 ^ 53) :
    ∃ s, float64.ofNat n = { mant := n * 2 ^ s, exp := 0, frac := s } := by
  by_cases h0 : n = 0
  · refine ⟨0, ?_⟩
    subst h0
    rfl
  · refine ⟨scaleUp n 1 (1 + 52) 0, ?_⟩
    have hlt : n < 2 ^ 53 * 1 := by omega
    simp only [float64.ofNat, float64.quotient, h0, if_false, hlt, if_true, roundEven_one]

/-! ## Theorems on package `alertmanager` -/

namespace alertmanager

open printer

theorem split_at (buf : List Int) (p : Nat) (hp : p < buf.length) :
    ∃ A x B, buf = A ++ x :: B ∧ A.length = p ∧ buf.get? p = some x := by
  refine ⟨buf.take p, buf[p], buf.drop (p+1), ?_, ?_, ?_⟩
  · rw [← List.drop_eq_getElem_cons hp, List.take_append_drop]
  · simp; omega
  · simp [List.getElem?_eq_getElem hp]

theorem rot_step (A B : List Int) (x c : Int) :
    ((A ++ x :: B).set A.length c).drop (if A.length + 1 < (A ++ x :: B).length then A.length + 1 else 0)
      ++ ((A ++ x :: B).set A.length c).take (if A.length + 1 < (A ++ x :: B).length then A.length + 1 else 0)
      = ((A ++ x :: B).drop A.length ++ (A ++ x :: B).take A.length).tail ++ [c]
    ∧ ((A ++ x :: B).set A.length c).sum = (A ++ x :: B).sum - x + c := by
  have hb' : (A ++ x :: B).set A.length c = A ++ c :: B := by simp
  have h1 : (A ++ x :: B).drop A.length = x :: B := by simp
  have h2 : (A ++ x :: B).take A.length = A := by simp
  refine ⟨?_, ?_⟩
  · rw [h1, h2, hb']
    by_cases h : A.length + 1 < (A ++ x :: B).length
    · rw [if_pos h]
      have e : A ++ c :: B = (A ++ [c]) ++ B := by simp
      rw [e]
      have l : (A ++ [c]).length = A.length + 1 := by simp
      rw [← l, List.drop_left, List.take_left]; simp
    · rw [if_neg h]
      have hB : B = [] := by
        have : (A ++ x :: B).length = A.length + 1 + B.length := by simp; omega
        have : B.length = 0 := by omega
        exact List.length_eq_zero.mp this
      subst hB
      simp
  · rw [hb']; simp; ring

theorem window_New (cfg : config.Config) (a : AlertManager) (h : New cfg = some a) (hW : 1 ≤ a.cap) :
    Window a.cap [] a ∧ a.threshold = cfg.AlertThreshold ∧ a.alertTriggered = false := by
  unfold New at h
  split at h
  · simp at h
  · simp only at h
    split at h
    · simp at h
    · simp only [Option.some.injEq] at h
      subst h
      simp at hW
      refine ⟨⟨rfl, by simp, by simp, by simp; omega, by simp, by simp, by simp⟩, rfl, rfl⟩

theorem window_add (W : Nat) (xs : List Int) (a : AlertManager) (m : Metric)
    (hW : 1 ≤ W) (h : Window W xs a) :
    ∃ a1, a.add m = some a1 ∧ Window W (xs ++ [cntOf m]) a1 ∧
      a1.threshold = a.threshold ∧ a1.alertTriggered = a.alertTriggered := by
  obtain ⟨hcap, hlen, hp0, hpW, hpf, hrot, hsum⟩ := h
  by_cases hfull : a.buf.length = a.cap
  · -- circular
    have hn : W ≤ xs.length := by
      rw [hcap] at hfull; rw [hfull] at hlen; omega
    have hpl : a.ptr.toNat < a.buf.length := by omega
    obtain ⟨A, x, B, hbuf, hA, hget⟩ := split_at a.buf a.ptr.toNat hpl
    have hidx : index a.buf a.ptr = some x := by
      simp only [index]; rw [if_neg (by omega)]; exact hget
    have hrs := rot_step A B x (cntOf m)
    rw [← hbuf, hA] at hrs
    obtain ⟨hr1, hr2⟩ := hrs
    have hL : xs.drop (xs.length + 1 - W) = (xs.drop (xs.length - W)).tail := by
      rw [List.tail_drop]; congr 1; omega
    have hdrop : (xs ++ [cntOf m]).drop ((xs ++ [cntOf m]).length - W)
        = (a.buf.drop a.ptr.toNat ++ a.buf.take a.ptr.toNat).tail ++ [cntOf m] := by
      rw [hrot, ← hL]
      simp only [List.length_append, List.length_singleton]
      rw [List.drop_append_of_le_length (by omega)]
    simp only [AlertManager.add, AlertManager.fill, AlertManager.bufFull, hfull, beq_self_eq_true,
      Bool.not_true, Bool.false_eq_true, if_false, AlertManager.addCircular, hidx]
    by_cases hlast : a.ptr ≥ ((a.buf.set a.ptr.toNat (cntOf m)).length : Int) - 1
    · rw [if_pos hlast]
      refine ⟨_, rfl, ⟨hcap, ?_, ?_, ?_, ?_, ?_, ?_⟩, rfl, rfl⟩
      · simp; omega
      · simp
      · simp; omega
      · intro hlt; simp at hlt; omega
      · simp only [List.length_set] at hlast
        rw [if_neg (by omega)] at hr1
        rw [hdrop, ← hr1]; simp
      · simp only; rw [hr2, hsum]
    · rw [if_neg hlast]
      refine ⟨_, rfl, ⟨hcap, ?_, ?_, ?_, ?_, ?_, ?_⟩, rfl, rfl⟩
      · simp; omega
      · simp; omega
      · simp at hlast ⊢; omega
      · intro hlt; simp at hlt; omega
      · simp only [List.length_set] at hlast
        rw [if_pos (by omega)] at hr1
        rw [hdrop, ← hr1]
        have : (a.ptr + 1).toNat = a.ptr.toNat + 1 := by omega
        simp only [this]
      · simp only; rw [hr2, hsum]
  · -- filling
    have hn : xs.length < W := by
      rw [hcap] at hfull; omega
    have hptr := hpf hn
    have hbuf : a.buf = xs := by
      rw [hptr] at hrot
      have : xs.length - W = 0 := by omega
      simpa [this] using hrot
    have hb : (a.buf.length == a.cap) = false := by simpa using hfull
    simp only [AlertManager.add, AlertManager.fill, AlertManager.bufFull, hb, Bool.not_false,
      if_true]
    refine ⟨_, rfl, ⟨hcap, ?_, hp0, hpW, ?_, ?_, ?_⟩, rfl, rfl⟩
    · simp only [List.length_append, List.length_singleton, hbuf]; omega
    · intro _; exact hptr
    · have h0 : (xs ++ [cntOf m]).length - W = 0 := by
        simp only [List.length_append, List.length_singleton]; omega
      simp only [hptr, hbuf, h0]
      simp
    · simp [hsum]

theorem window_addAll (W : Nat) (hW : 1 ≤ W) (ms : List Metric) :
    ∀ (xs : List Int) (a : AlertManager), Window W xs a →
    ∃ a1, addAll a ms = some a1 ∧ Window W (xs ++ ms.map cntOf) a1 ∧
      a1.threshold = a.threshold ∧ a1.alertTriggered = a.alertTriggered := by
  induction ms with
  | nil => intro xs a h; exact ⟨a, rfl, by simpa using h, rfl, rfl⟩
  | cons m ms ih =>
    intro xs a h
    obtain ⟨a1, h1, hw1, ht1, hg1⟩ := window_add W xs a m hW h
    obtain ⟨a2, h2, hw2, ht2, hg2⟩ := ih _ a1 hw1
    refine ⟨a2, ?_, ?_, ht2.trans ht1, hg2.trans hg1⟩
    · simp [addAll, h1, h2]
    · simpa using hw2

theorem window_sum (W : Nat) (xs : List Int) (a : AlertManager) (h : Window W xs a) :
    a.sum = (xs.drop (xs.length - min W xs.length)).sum := by
  have h1 : xs.length - min W xs.length = xs.length - W := by omega
  rw [h1, ← h.rot, h.sum_eq, List.sum_append, add_comm, ← List.sum_append, List.take_append_drop]

/-- C1: for every configuration whose window capacity `W` (the capacity of the
buffer made by `New`) is at least 1 and every sequence of counts, each pushed
through `add` as the counter metric that `NewCounterMetric` makes of it and of
a time, from the receiver that `New` returns, every push returns and after the
`n` pushes the running sum `sum` equals the sum of the last `min W n` pushed
counts. -/
theorem add_running_sum (cfg : config.Config) (a0 : AlertManager) (cs : List (Int × Time))
    (hNew : New cfg = some a0) (hW : 1 ≤ a0.cap) :
    ∃ a, addAll a0 (cs.map (fun p => NewCounterMetric p.1 p.2)) = some a ∧
      a.sum = ((cs.map Prod.fst).drop (cs.length - min a0.cap cs.length)).sum := by
  obtain ⟨hw, _, _⟩ := window_New cfg a0 hNew hW
  obtain ⟨a, ha, hwa, _, _⟩ :=
    window_addAll a0.cap hW (cs.map (fun p => NewCounterMetric p.1 p.2)) [] a0 hw
  refine ⟨a, ha, ?_⟩
  have hc : (cs.map (fun p => NewCounterMetric p.1 p.2)).map cntOf = cs.map Prod.fst := by
    rw [List.map_map]
    rfl
  have := window_sum _ _ _ hwa
  rw [List.nil_append, hc, List.length_map] at this
  exact this

theorem window_full (W : Nat) (xs : List Int) (a : AlertManager) (h : Window W xs a) :
    a.AlertOn = decide (W ≤ xs.length) := by
  have h1 := h.cap_eq
  have h2 := h.len_eq
  simp only [AlertManager.AlertOn, AlertManager.bufFull]
  by_cases hle : W ≤ xs.length
  · simp only [hle, decide_True, beq_iff_eq]; omega
  · simp only [hle, decide_False, beq_eq_false_iff_ne, ne_eq]; omega

theorem window_avg (W : Nat) (xs : List Int) (a : AlertManager) (hW : 1 ≤ W)
    (hx : xs ≠ []) (h : Window W xs a) :
    a.AvgTraffic = some (roundDiv a.sum a.buf.length) := by
  have h2 := h.len_eq
  have hx1 : 1 ≤ xs.length := by
    cases xs with
    | nil => exact absurd rfl hx
    | cons x t => simp
  have hne : a.buf.length ≠ 0 := by omega
  simp [AlertManager.AvgTraffic, hne]

theorem set_trig_self (a : AlertManager) (b : Bool) (h : a.alertTriggered = b) :
    { a with alertTriggered := b } = a := by
  subst h; rfl

theorem alert_frame (a : AlertManager) (r : Int) (a2 : AlertManager) (h : a.Alert = some (r, a2)) :
    a2.buf = a.buf ∧ a2.cap = a.cap ∧ a2.threshold = a.threshold ∧ a2.ptr = a.ptr ∧
      a2.sum = a.sum := by
  unfold AlertManager.Alert at h
  split at h
  · simp at h; obtain ⟨_, rfl⟩ := h; simp
  · split at h
    · split at h
      · simp at h
      · split at h <;> (simp at h; obtain ⟨_, rfl⟩ := h; simp)
    · split at h
      · simp at h
      · split at h <;> (simp at h; obtain ⟨_, rfl⟩ := h; simp)

theorem iteration_eq (W : Nat) (xs : List Int) (s : Loop) (m : Metric) (hW : 1 ≤ W)
    (h : Window W xs s.a) :
    ∃ a1 avg, s.a.add m = some a1 ∧ Window W (xs ++ [cntOf m]) a1 ∧
      a1.threshold = s.a.threshold ∧ a1.alertTriggered = s.a.alertTriggered ∧
      a1.AvgTraffic = some avg ∧
      iteration s m = some
        (⟨{ a1 with alertTriggered :=
              if W ≤ xs.length + 1 then decide (a1.threshold ≤ avg) else a1.alertTriggered },
          s.alertOnPrinted || decide (W ≤ xs.length + 1)⟩,
         NewMessage (avgText avg) ::
          ((if W ≤ xs.length + 1 ∧ s.alertOnPrinted = false then [NewInfoMessage alertOnText] else [])
            ++ (if W ≤ xs.length + 1 then
                  (if a1.alertTriggered = false ∧ a1.threshold ≤ avg then
                      [NewAlertMessage avg m.Time]
                   else if a1.alertTriggered = true ∧ avg < a1.threshold then
                      [NewClearAlertMessage avg m.Time]
                   else [])
                else []))) := by
  obtain ⟨a1, hadd, hw1, hthr, htrig⟩ := window_add W xs s.a m hW h
  have havg := window_avg W _ a1 hW (by simp) hw1
  have hon := window_full W _ a1 hw1
  simp only [List.length_append, List.length_singleton] at hon
  refine ⟨a1, _, hadd, hw1, hthr, htrig, havg, ?_⟩
  have havg2 : ∀ b, ({ a1 with alertTriggered := b } : AlertManager).AvgTraffic
      = some (roundDiv a1.sum a1.buf.length) := by
    intro b; simpa [AlertManager.AvgTraffic] using havg
  simp only [iteration, hadd, havg]
  by_cases hfull : W ≤ xs.length + 1
  · simp only [hfull, decide_True, if_true, true_and] at hon ⊢
    have hal : a1.Alert = some (if a1.alertTriggered = false then
        (if a1.threshold ≤ roundDiv a1.sum a1.buf.length then (1, { a1 with alertTriggered := true }) else (0, a1))
        else (if roundDiv a1.sum a1.buf.length < a1.threshold then (-1, { a1 with alertTriggered := false }) else (0, a1))) := by
      simp only [AlertManager.Alert, hon, havg]
      cases a1.alertTriggered <;> simp <;> split <;> simp
    rw [hal]
    rcases lt_or_le (roundDiv a1.sum a1.buf.length) a1.threshold with hl | hc
    · have hn : ¬ a1.threshold ≤ roundDiv a1.sum a1.buf.length := not_le.mpr hl
      cases hp : s.alertOnPrinted <;> cases ht : a1.alertTriggered <;>
        simp [hl, hn, hon, havg2, ht] <;> exact (set_trig_self _ _ ht).symm
    · have hn : ¬ roundDiv a1.sum a1.buf.length < a1.threshold := not_lt.mpr hc
      cases hp : s.alertOnPrinted <;> cases ht : a1.alertTriggered <;>
        simp [hc, hn, hon, havg2, ht] <;> exact (set_trig_self _ _ ht).symm
  · simp only [hfull, decide_False, if_false, false_and] at hon ⊢
    have hal : a1.Alert = some (0, a1) := by
      simp [AlertManager.Alert, hon]
    rw [hal]
    simp [hon]

theorem window_set_trig (W : Nat) (xs : List Int) (a : AlertManager) (b : Bool)
    (h : Window W xs a) : Window W xs { a with alertTriggered := b } :=
  ⟨h.cap_eq, h.len_eq, h.ptr_nonneg, h.ptr_lt, h.ptr_fill, h.rot, h.sum_eq⟩

theorem loop_length (ms : List Metric) :
    ∀ (s s1 : Loop) (outs : List (List Formatter)), loop s ms = some (s1, outs) →
      outs.length = ms.length := by
  induction ms with
  | nil => intro s s1 outs h; simp [loop] at h; simp [h.2.symm]
  | cons m ms ih =>
    intro s s1 outs h
    simp only [loop] at h
    cases hi : iteration s m with
    | none => simp [hi] at h
    | some p =>
      obtain ⟨s2, out⟩ := p
      simp only [hi] at h
      cases hl : loop s2 ms with
      | none => simp [hl] at h
      | some q =>
        obtain ⟨s3, outs1⟩ := q
        simp only [hl, Option.some.injEq, Prod.mk.injEq] at h
        obtain ⟨_, rfl⟩ := h
        simp [ih _ _ _ hl]

theorem loop_take (ms : List Metric) :
    ∀ (s s1 : Loop) (outs : List (List Formatter)), loop s ms = some (s1, outs) →
      ∀ (i : Nat) (m : Metric), ms[i]? = some m →
        ∃ si o1 so out, loop s (ms.take i) = some (si, o1) ∧
          iteration si m = some (so, out) ∧ outs[i]? = some out := by
  induction ms with
  | nil => intro s s1 outs _ i m hm; simp at hm
  | cons m0 ms ih =>
    intro s s1 outs h i m hm
    simp only [loop] at h
    cases hi : iteration s m0 with
    | none => simp [hi] at h
    | some p =>
      obtain ⟨s2, out⟩ := p
      simp only [hi] at h
      cases hl : loop s2 ms with
      | none => simp [hl] at h
      | some q =>
        obtain ⟨s3, outs1⟩ := q
        simp only [hl, Option.some.injEq, Prod.mk.injEq] at h
        obtain ⟨_, rfl⟩ := h
        cases i with
        | zero =>
          simp only [List.getElem?_cons_zero, Option.some.injEq] at hm
          subst hm
          exact ⟨s, [], s2, out, by simp [loop], hi, by simp⟩
        | succ j =>
          simp only [List.getElem?_cons_succ] at hm
          obtain ⟨si, o1, so, out1, h1, h2, h3⟩ := ih s2 s3 outs1 hl j m hm
          refine ⟨si, out :: o1, so, out1, ?_, h2, ?_⟩
          · simp [loop, hi, h1]
          · simpa using h3

theorem loop_window (W : Nat) (hW : 1 ≤ W) (ms : List Metric) :
    ∀ (xs : List Int) (s : Loop), Window W xs s.a →
      s.alertOnPrinted = decide (W ≤ xs.length) →
      ∃ s1 outs, loop s ms = some (s1, outs) ∧ Window W (xs ++ ms.map cntOf) s1.a ∧
        s1.alertOnPrinted = decide (W ≤ xs.length + ms.length) ∧
        s1.a.threshold = s.a.threshold := by
  induction ms with
  | nil => intro xs s h hp; exact ⟨s, [], rfl, by simpa using h, by simpa using hp, rfl⟩
  | cons m ms ih =>
    intro xs s h hp
    obtain ⟨a1, avg, _, hw1, hthr, _, _, hit⟩ := iteration_eq W xs s m hW h
    have hw2 := window_set_trig W _ a1
      (if W ≤ xs.length + 1 then decide (a1.threshold ≤ avg) else a1.alertTriggered) hw1
    have hp2 : (s.alertOnPrinted || decide (W ≤ xs.length + 1))
        = decide (W ≤ (xs ++ [cntOf m]).length) := by
      rw [hp]
      simp only [List.length_append, List.length_singleton]
      by_cases h1 : W ≤ xs.length
      · have h2 : W ≤ xs.length + 1 := by omega
        simp [h1, h2]
      · simp [h1]
    obtain ⟨s1, outs, hl, hw3, hp3, ht3⟩ := ih (xs ++ [cntOf m])
      ⟨{ a1 with alertTriggered :=
            if W ≤ xs.length + 1 then decide (a1.threshold ≤ avg) else a1.alertTriggered },
        s.alertOnPrinted || decide (W ≤ xs.length + 1)⟩ hw2 hp2
    simp only [loop, hit, hl]
    refine ⟨s1, _, rfl, ?_, ?_, ?_⟩
    · simpa using hw3
    · rw [hp3]; simp only [List.length_append, List.length_singleton, List.length_cons, List.length_nil]
      congr 1; apply propext; constructor <;> intro <;> omega
    · rw [ht3]; exact hthr

/-- The messages sent for one metric once the window invariant holds. -/
theorem start_step (cfg : config.Config) (a0 : AlertManager) (ms : List Metric)
    (hNew : New cfg = some a0) (hW : 1 ≤ a0.cap) :
    ∃ a outs, a0.Start ms = some (a, outs) ∧ outs.length = ms.length ∧
      ∀ (i : Nat) (m : Metric), ms[i]? = some m →
        ∃ si o1 a1 avg, loop ⟨a0, false⟩ (ms.take i) = some (si, o1) ∧
          si.a.add m = some a1 ∧ a1.AvgTraffic = some avg ∧
          a1.buf.length = min a0.cap (i + 1) ∧
          a1.threshold = cfg.AlertThreshold ∧
          outs[i]? = some (NewMessage (avgText avg) ::
            ((if i + 1 = a0.cap then [NewInfoMessage alertOnText] else [])
              ++ (if a0.cap ≤ i + 1 then
                    (if a1.alertTriggered = false ∧ a1.threshold ≤ avg then
                        [NewAlertMessage avg m.Time]
                     else if a1.alertTriggered = true ∧ avg < a1.threshold then
                        [NewClearAlertMessage avg m.Time]
                     else [])
                  else []))) := by
  obtain ⟨hw, hthr0, _⟩ := window_New cfg a0 hNew hW
  have hp0 : (⟨a0, false⟩ : Loop).alertOnPrinted = decide (a0.cap ≤ ([] : List Int).length) := by
    simp; omega
  obtain ⟨s1, outs, hl, _, _, _⟩ := loop_window a0.cap hW ms [] ⟨a0, false⟩ hw hp0
  refine ⟨s1.a, outs, by simp [AlertManager.Start, hl], loop_length ms _ _ _ hl, ?_⟩
  intro i m hm
  obtain ⟨si, o1, so, out, h1, h2, h3⟩ := loop_take ms _ _ _ hl i m hm
  obtain ⟨si', o1', h1', hwi, hpi, hti⟩ := loop_window a0.cap hW (ms.take i) [] ⟨a0, false⟩ hw hp0
  rw [h1] at h1'
  simp only [Option.some.injEq, Prod.mk.injEq] at h1'
  obtain ⟨rfl, rfl⟩ := h1'
  have hi : i < ms.length := by
    by_contra hc
    rw [List.getElem?_eq_none (by omega)] at hm
    simp at hm
  have hlen : (([] : List Int) ++ (ms.take i).map cntOf).length = i := by
    simp; omega
  obtain ⟨a1, avg, hadd, hw1, hthr, _, havg, hit⟩ := iteration_eq a0.cap _ si m hW hwi
  rw [hlen] at hit
  rw [h2] at hit
  simp only [Option.some.injEq, Prod.mk.injEq] at hit
  refine ⟨si, o1, a1, avg, h1, hadd, havg, ?_, ?_, ?_⟩
  · have := hw1.len_eq
    simp only [List.length_append, hlen, List.length_singleton] at this
    exact this
  · rw [hthr, hti]; exact hthr0
  · rw [h3, hit.2]
    have hpi' : si.alertOnPrinted = decide (a0.cap ≤ i) := by
      rw [hpi]; simp only [List.length_nil, List.length_take]; congr 1
      apply propext; constructor <;> intro <;> omega
    have hc : (a0.cap ≤ i + 1 ∧ si.alertOnPrinted = false) ↔ i + 1 = a0.cap := by
      rw [hpi']; simp only [decide_eq_false_iff_not]; omega
    simp only [hc]

theorem add_frame (a : AlertManager) (m : Metric) (a1 : AlertManager) (h : a.add m = some a1) :
    a1.alertTriggered = a.alertTriggered ∧ a1.threshold = a.threshold ∧ a1.cap = a.cap := by
  cases hb : a.bufFull
  · simp only [AlertManager.add, AlertManager.fill, hb, Bool.not_false, if_true,
      Option.some.injEq] at h
    subst h; exact ⟨rfl, rfl, rfl⟩
  · simp only [AlertManager.add, AlertManager.fill, hb, Bool.not_true, Bool.false_eq_true,
      if_false, AlertManager.addCircular] at h
    split at h
    · simp at h
    · split at h <;> (simp only [Option.some.injEq] at h; subst h; exact ⟨rfl, rfl, rfl⟩)

theorem alert_cases (a : AlertManager) (r : Int) (a2 : AlertManager)
    (h : a.Alert = some (r, a2)) :
    (r = 0 ∧ a2 = a) ∨
    (r = 1 ∧ a.alertTriggered = false ∧ a2 = { a with alertTriggered := true }) ∨
    (r = -1 ∧ a.alertTriggered = true ∧ a2 = { a with alertTriggered := false }) := by
  unfold AlertManager.Alert at h
  split at h
  · simp only [Option.some.injEq, Prod.mk.injEq] at h
    exact Or.inl ⟨h.1.symm, h.2.symm⟩
  · rename_i hon
    split at h
    · rename_i ht
      split at h
      · simp at h
      · split at h
        · simp only [Option.some.injEq, Prod.mk.injEq] at h
          exact Or.inr (Or.inl ⟨h.1.symm, by simpa using ht, h.2.symm⟩)
        · simp only [Option.some.injEq, Prod.mk.injEq] at h
          exact Or.inl ⟨h.1.symm, h.2.symm⟩
    · rename_i ht
      split at h
      · simp at h
      · split at h
        · simp only [Option.some.injEq, Prod.mk.injEq] at h
          exact Or.inr (Or.inr ⟨h.1.symm, by simpa using ht, h.2.symm⟩)
        · simp only [Option.some.injEq, Prod.mk.injEq] at h
          exact Or.inl ⟨h.1.symm, h.2.symm⟩

theorem alert_avg (a : AlertManager) (r : Int) (a2 : AlertManager)
    (h : a.Alert = some (r, a2)) : a2.AvgTraffic = a.AvgTraffic := by
  obtain ⟨h1, _, _, _, h5⟩ := alert_frame a r a2 h
  simp only [AlertManager.AvgTraffic, h1, h5]

theorem iteration_of_alert (s : Loop) (m : Metric) (a1 : AlertManager) (avg r : Int)
    (a2 : AlertManager) (hadd : s.a.add m = some a1) (havg : a1.AvgTraffic = some avg)
    (hal : a1.Alert = some (r, a2)) :
    iteration s m = some (⟨a2, s.alertOnPrinted || a1.AlertOn⟩,
      NewMessage (avgText avg) ::
        ((if a1.AlertOn = true ∧ s.alertOnPrinted = false then [NewInfoMessage alertOnText]
          else [])
          ++ (if r = 1 then [NewAlertMessage avg m.Time]
              else if r = -1 then [NewClearAlertMessage avg m.Time] else []))) := by
  have havg2 : a2.AvgTraffic = some avg := by rw [alert_avg a1 r a2 hal]; exact havg
  have hr := alert_cases a1 r a2 hal
  obtain ⟨a, p⟩ := s
  simp only at hadd
  simp only [iteration, hadd, havg, hal, havg2]
  rcases hr with ⟨rfl, _⟩ | ⟨rfl, _⟩ | ⟨rfl, _⟩ <;> cases p <;> cases a1.AlertOn <;> simp

theorem iteration_inv (s : Loop) (m : Metric) (s1 : Loop) (out : List Formatter)
    (h : iteration s m = some (s1, out)) :
    ∃ a1 avg r, s.a.add m = some a1 ∧ a1.AvgTraffic = some avg ∧
      a1.Alert = some (r, s1.a) ∧
      out = NewMessage (avgText avg) ::
        ((if a1.AlertOn = true ∧ s.alertOnPrinted = false then [NewInfoMessage alertOnText]
          else [])
          ++ (if r = 1 then [NewAlertMessage avg m.Time]
              else if r = -1 then [NewClearAlertMessage avg m.Time] else [])) := by
  cases hadd : s.a.add m with
  | none => simp [iteration, hadd] at h
  | some a1 =>
    cases havg : a1.AvgTraffic with
    | none => simp [iteration, hadd, havg] at h
    | some avg =>
      cases hal : a1.Alert with
      | none => simp [iteration, hadd, havg, hal] at h
      | some p =>
        obtain ⟨r, a2⟩ := p
        rw [iteration_of_alert s m a1 avg r a2 hadd havg hal] at h
        simp only [Option.some.injEq, Prod.mk.injEq] at h
        obtain ⟨h1, h2⟩ := h
        subst h1
        exact ⟨a1, avg, r, rfl, havg, hal, h2.symm⟩

theorem iteration_kinds (s : Loop) (m : Metric) (s1 : Loop) (out : List Formatter)
    (h : iteration s m = some (s1, out)) :
    (alertKinds out = [] ∧ s1.a.alertTriggered = s.a.alertTriggered) ∨
    (alertKinds out = [true] ∧ s.a.alertTriggered = false ∧ s1.a.alertTriggered = true) ∨
    (alertKinds out = [false] ∧ s.a.alertTriggered = true ∧ s1.a.alertTriggered = false) := by
  obtain ⟨a1, avg, r, hadd, _, hal, hout⟩ := iteration_inv s m s1 out h
  obtain ⟨htr, _, _⟩ := add_frame s.a m a1 hadd
  have hk : alertKinds out = if r = 1 then [true] else if r = -1 then [false] else [] := by
    rw [hout]
    by_cases h1 : r = 1
    · by_cases hi : a1.AlertOn = true ∧ s.alertOnPrinted = false <;>
        simp [alertKinds, h1, hi, NewMessage, NewInfoMessage, NewAlertMessage]
    · by_cases h2 : r = -1
      · by_cases hi : a1.AlertOn = true ∧ s.alertOnPrinted = false <;>
          simp [alertKinds, h2, hi, NewMessage, NewInfoMessage, NewClearAlertMessage]
      · by_cases hi : a1.AlertOn = true ∧ s.alertOnPrinted = false <;>
          simp [alertKinds, h1, h2, hi, NewMessage, NewInfoMessage]
  rcases alert_cases a1 r s1.a hal with ⟨hr, ha⟩ | ⟨hr, ht, ha⟩ | ⟨hr, ht, ha⟩
  · left; subst hr; rw [hk, ha, htr]; simp
  · right; left; subst hr; rw [hk, ha, ← htr, ht]; simp
  · right; right; subst hr; rw [hk, ha, ← htr, ht]; simp

theorem loop_alternates (ms : List Metric) :
    ∀ (s s1 : Loop) (outs : List (List Formatter)), loop s ms = some (s1, outs) →
      List.Chain' (fun x y => x ≠ y) (alertKinds outs.flatten) ∧
        (alertKinds outs.flatten).head? ≠ some s.a.alertTriggered := by
  induction ms with
  | nil =>
    intro s s1 outs h
    simp only [loop, Option.some.injEq, Prod.mk.injEq] at h
    rw [← h.2]; simp [alertKinds]
  | cons m ms ih =>
    intro s s1 outs h
    simp only [loop] at h
    cases hi : iteration s m with
    | none => simp [hi] at h
    | some p =>
      obtain ⟨s2, out⟩ := p
      simp only [hi] at h
      cases hl : loop s2 ms with
      | none => simp [hl] at h
      | some q =>
        obtain ⟨s3, outs1⟩ := q
        simp only [hl, Option.some.injEq, Prod.mk.injEq] at h
        obtain ⟨_, rfl⟩ := h
        obtain ⟨ih1, ih2⟩ := ih s2 s3 outs1 hl
        have happ : alertKinds (out :: outs1).flatten = alertKinds out ++ alertKinds outs1.flatten := by
          simp [alertKinds, List.filterMap_append]
        rw [happ]
        rcases iteration_kinds s m s2 out hi with ⟨hk, ht⟩ | ⟨hk, ht, ht2⟩ | ⟨hk, ht, ht2⟩
        · rw [hk, ← ht]; exact ⟨ih1, ih2⟩
        · rw [hk, ht]
          rw [ht2] at ih2
          refine ⟨?_, by simp⟩
          simp only [List.singleton_append]
          rw [List.chain'_cons']
          refine ⟨?_, ih1⟩
          intro y hy
          simp only [Option.mem_def] at hy
          intro hxy; subst hxy; exact ih2 hy
        · rw [hk, ht]
          rw [ht2] at ih2
          refine ⟨?_, by simp⟩
          simp only [List.singleton_append]
          rw [List.chain'_cons']
          refine ⟨?_, ih1⟩
          intro y hy
          simp only [Option.mem_def] at hy
          intro hxy; subst hxy; exact ih2 hy

/-- C3: for every sequence of metrics consumed by `Start` from the receiver
that `New` returns, the alert events sent, raises (`true`) and clears (`false`)
in the order of sending, alternate: no two neighbours are of the same kind, and
the first one, when there is one, is a raise. With a capacity of at least 1
`Start` does consume every sequence of metrics. -/
theorem alerts_alternate (cfg : config.Config) (a0 : AlertManager) (ms : List Metric)
    (hNew : New cfg = some a0) :
    (∀ a outs, a0.Start ms = some (a, outs) →
      List.Chain' (fun x y => x ≠ y) (alertKinds outs.flatten) ∧
        (alertKinds outs.flatten).head? ≠ some false) ∧
    (1 ≤ a0.cap → ∃ a outs, a0.Start ms = some (a, outs)) := by
  have htr : a0.alertTriggered = false := by
    unfold New at hNew
    split at hNew
    · simp at hNew
    · simp only at hNew
      split at hNew
      · simp at hNew
      · simp only [Option.some.injEq] at hNew
        subst hNew; rfl
  refine ⟨?_, ?_⟩
  · intro a outs h
    simp only [AlertManager.Start] at h
    cases hl : loop ⟨a0, false⟩ ms with
    | none => simp [hl] at h
    | some q =>
      obtain ⟨s3, outs1⟩ := q
      simp only [hl, Option.some.injEq, Prod.mk.injEq] at h
      obtain ⟨_, rfl⟩ := h
      have := loop_alternates ms _ _ _ hl
      simpa [htr] using this
  · intro hW
    obtain ⟨a, outs, h, _⟩ := start_step cfg a0 ms hNew hW
    exact ⟨a, outs, h⟩

theorem count_flatten (p : Formatter → Bool) (outs : List (List Formatter)) :
    (outs.flatten.filter p).length = (outs.map fun o => (o.filter p).length).sum := by
  induction outs with
  | nil => simp
  | cons o os ih => simp [List.filter_append, ih, Function.comp_def]

theorem sum_single (W : Nat) (f : List Formatter → Nat) (outs : List (List Formatter)) :
    ∀ k : Nat,
      (∀ (i : Nat) (out : List Formatter), outs[i]? = some out →
        f out = if k + i + 1 = W then 1 else 0) →
      (outs.map f).sum = if k < W ∧ W ≤ k + outs.length then 1 else 0 := by
  induction outs with
  | nil =>
    intro k _
    simp only [List.map_nil, List.sum_nil, List.length_nil]
    rw [if_neg (by omega)]
  | cons o os ih =>
    intro k h
    have h0 := h 0 o (by simp)
    have h1 : ∀ (i : Nat) (out : List Formatter), os[i]? = some out →
        f out = if (k + 1) + i + 1 = W then 1 else 0 := by
      intro i out hi
      have := h (i + 1) out (by simpa using hi)
      rw [this]; congr 1; apply propext; constructor <;> intro <;> omega
    simp only [List.map_cons, List.sum_cons, ih (k + 1) h1, h0, List.length_cons]
    by_cases hk : k + 0 + 1 = W
    · rw [if_pos hk, if_neg (by omega), if_pos (by omega)]
    · rw [if_neg hk]
      by_cases hk2 : k + 1 < W ∧ W ≤ k + 1 + os.length
      · rw [if_pos hk2, if_pos (by omega)]
      · rw [if_neg hk2, if_neg (by omega)]

theorem getElem?_of_length (ms : List Metric) (outs : List (List Formatter))
    (hlen : outs.length = ms.length) (i : Nat) (out : List Formatter)
    (h : outs[i]? = some out) : ∃ m, ms[i]? = some m := by
  have hi : i < outs.length := by
    by_contra hc
    rw [List.getElem?_eq_none (by omega)] at h
    simp at h
  exact ⟨ms[i], List.getElem?_eq_getElem (by omega)⟩

/-- C4: for every window capacity `W ≥ 1` and every sequence of metrics,
`Start` consumes them, sends one group of messages per metric, and the group of
the metric of index `i` (from 0) holds exactly one information message when
`i + 1 = W` and none otherwise; so over the whole run the alerting-is-on
message is sent once when at least `W` metrics are processed and never
otherwise. -/
theorem alerting_on_once (cfg : config.Config) (a0 : AlertManager) (ms : List Metric)
    (hNew : New cfg = some a0) (hW : 1 ≤ a0.cap) :
    ∃ a outs, a0.Start ms = some (a, outs) ∧ outs.length = ms.length ∧
      (∀ (i : Nat) (out : List Formatter), outs[i]? = some out →
        (out.filter isInfo).length = if i + 1 = a0.cap then 1 else 0) ∧
      (outs.flatten.filter isInfo).length = if a0.cap ≤ ms.length then 1 else 0 := by
  obtain ⟨a, outs, hs, hlen, hstep⟩ := start_step cfg a0 ms hNew hW
  have hper : ∀ (i : Nat) (out : List Formatter), outs[i]? = some out →
      (out.filter isInfo).length = if i + 1 = a0.cap then 1 else 0 := by
    intro i out ho
    obtain ⟨m, hm⟩ := getElem?_of_length ms outs hlen i out ho
    obtain ⟨si, o1, a1, avg, _, _, _, _, _, hout⟩ := hstep i m hm
    rw [ho] at hout
    simp only [Option.some.injEq] at hout
    rw [hout]
    by_cases h1 : i + 1 = a0.cap <;> by_cases h2 : a0.cap ≤ i + 1 <;>
      by_cases h3 : (a1.alertTriggered = false ∧ a1.threshold ≤ avg) <;>
      by_cases h4 : (a1.alertTriggered = true ∧ avg < a1.threshold) <;>
      simp only [h1, h2, h3, h4, if_true, if_false] <;>
      simp [isInfo, NewMessage, NewInfoMessage, NewAlertMessage, NewClearAlertMessage]
  refine ⟨a, outs, hs, hlen, hper, ?_⟩
  rw [count_flatten, sum_single a0.cap _ outs 0 (by simpa using hper), hlen]
  congr 1; apply propext; constructor <;> intro <;> omega

/-- C5: while fewer than `W` metrics have been processed (the metric of index
`i` with `i + 1 < W`), every message that `Start` sends is verbose: no
alert, no clearance and no information message, whatever the counts and the
threshold are. -/
theorem filling_silent (cfg : config.Config) (a0 : AlertManager) (ms : List Metric)
    (hNew : New cfg = some a0) (hW : 1 ≤ a0.cap) :
    ∃ a outs, a0.Start ms = some (a, outs) ∧ outs.length = ms.length ∧
      ∀ (i : Nat) (out : List Formatter), outs[i]? = some out → i + 1 < a0.cap →
        ∀ f ∈ out, f.Verbose = true := by
  obtain ⟨a, outs, hs, hlen, hstep⟩ := start_step cfg a0 ms hNew hW
  refine ⟨a, outs, hs, hlen, ?_⟩
  intro i out ho hi f hf
  obtain ⟨m, hm⟩ := getElem?_of_length ms outs hlen i out ho
  obtain ⟨si, o1, a1, avg, _, _, _, _, _, hout⟩ := hstep i m hm
  rw [ho] at hout
  simp only [Option.some.injEq] at hout
  rw [hout, if_neg (by omega), if_neg (by omega)] at hf
  simp only [List.append_nil, List.mem_singleton] at hf
  rw [hf]; rfl

/-- C8: for every metric that `Start` processes, the messages sent for it
start with the verbose average-traffic message, whose text is
`\tAverage traffic: `, the decimal digits of `AvgTraffic` of the receiver just
after the metric was pushed by `add`, and `/s`, and every other message sent
for that metric is not verbose; in the filling state as well as once the
window is full. -/
theorem average_message_first (cfg : config.Config) (a0 : AlertManager) (ms : List Metric)
    (hNew : New cfg = some a0) (hW : 1 ≤ a0.cap) :
    ∃ a outs, a0.Start ms = some (a, outs) ∧ outs.length = ms.length ∧
      ∀ (i : Nat) (m : Metric), ms[i]? = some m →
        ∃ ai o1 a1 avg rest, a0.Start (ms.take i) = some (ai, o1) ∧
          ai.add m = some a1 ∧ a1.AvgTraffic = some avg ∧
          outs[i]? = some (Formatter.Message
            ("\tAverage traffic: ".toList ++ (toString avg).toList ++ "/s".toList) :: rest) ∧
          (Formatter.Message
            ("\tAverage traffic: ".toList ++ (toString avg).toList ++ "/s".toList)).Verbose
              = true ∧
          ∀ f ∈ rest, f.Verbose = false := by
  obtain ⟨a, outs, hs, hlen, hstep⟩ := start_step cfg a0 ms hNew hW
  refine ⟨a, outs, hs, hlen, ?_⟩
  intro i m hm
  obtain ⟨si, o1, a1, avg, hl, hadd, havg, _, _, hout⟩ := hstep i m hm
  refine ⟨si.a, o1, a1, avg, _, by simp [AlertManager.Start, hl], hadd, havg, hout, rfl, ?_⟩
  intro f hf
  simp only [List.mem_append] at hf
  rcases hf with hf | hf
  · split at hf
    · simp only [List.mem_singleton] at hf; rw [hf]; rfl
    · simp at hf
  · split at hf
    · split at hf
      · simp only [List.mem_singleton] at hf; rw [hf]; rfl
      · split at hf
        · simp only [List.mem_singleton] at hf; rw [hf]; rfl
        · simp at hf
    · simp at hf

theorem New_eq (cfg : config.Config) (a0 : AlertManager) (hNew : New cfg = some a0) :
    a0 = ⟨[], a0.cap, cfg.AlertThreshold, 0, 0, false⟩ := by
  unfold New at hNew
  split at hNew
  · simp at hNew
  · simp only at hNew
    split at hNew
    · simp at hNew
    · simp only [Option.some.injEq] at hNew
      subst hNew; rfl

theorem iteration_of (s : Loop) (m : Metric) (a1 a2 : AlertManager) (avg r v : Int)
    (hadd : s.a.add m = some a1) (havg : a1.AvgTraffic = some avg)
    (hal : a1.Alert = some (r, a2)) (hv : a2.AvgTraffic = some v) :
    iteration s m = some
      (⟨a2, (a1.AlertOn && !s.alertOnPrinted) || s.alertOnPrinted⟩,
        NewMessage (avgText avg) ::
          ((if (a1.AlertOn && !s.alertOnPrinted) = true then [NewInfoMessage alertOnText]
            else [])
            ++ (if r = 1 then [NewAlertMessage v m.Time]
                else if r = -1 then [NewClearAlertMessage v m.Time] else []))) := by
  simp only [iteration, hadd, havg, hal, hv]
  by_cases h1 : (a1.AlertOn && !s.alertOnPrinted) = true
  · by_cases h2 : r = 1
    · simp [h1, h2]
    · by_cases h3 : r = -1
      · simp [h1, h3]
      · simp [h1, h2, h3]
  · have h1f : (a1.AlertOn && !s.alertOnPrinted) = false := by
      cases hb : (a1.AlertOn && !s.alertOnPrinted)
      · rfl
      · exact absurd hb h1
    by_cases h2 : r = 1
    · simp [h1f, h2]
    · by_cases h3 : r = -1
      · simp [h1f, h3]
      · simp [h1f, h2, h3]

theorem loop_step (s s1 : Loop) (m : Metric) (ms : List Metric) (out : List Formatter)
    (h : iteration s m = some (s1, out)) :
    loop s (m :: ms) = (loop s1 ms).map (fun p => (p.1, out :: p.2)) := by
  simp only [loop, h]
  cases loop s1 ms with
  | none => rfl
  | some p => rfl

theorem Start_of_loop (a : AlertManager) (ms : List Metric) (s : Loop)
    (outs : List (List Formatter)) (h : loop ⟨a, false⟩ ms = some (s, outs)) :
    a.Start ms = some (s.a, outs) := by
  simp only [AlertManager.Start, h]

/-- The run of `Start` on the nine counts of the nominal test, with the texts
of the messages as `avgText` and `alertOnText` make them. -/
theorem nominal_run (cfg : config.Config) (a0 : AlertManager)
    (t1 t2 t3 t4 t5 t6 t7 t8 t9 : Time)
    (hNew : New cfg = some a0) (hW : a0.cap = 5) (hthr : cfg.AlertThreshold = 10) :
    (a0.Start [NewCounterMetric 20 t1, NewCounterMetric 20 t2, NewCounterMetric 20 t3,
        NewCounterMetric 20 t4, NewCounterMetric 23 t5, NewCounterMetric 20 t6,
        NewCounterMetric 0 t7, NewCounterMetric 0 t8, NewCounterMetric 0 t9]).map Prod.snd
      = some [[NewMessage (avgText 20)], [NewMessage (avgText 20)], [NewMessage (avgText 20)],
          [NewMessage (avgText 20)],
          [NewMessage (avgText 21), NewInfoMessage alertOnText, NewAlertMessage 21 t5],
          [NewMessage (avgText 21)], [NewMessage (avgText 17)], [NewMessage (avgText 13)],
          [NewMessage (avgText 9), NewClearAlertMessage 9 t9]] := by
  rw [New_eq cfg a0 hNew, hW, hthr]
  have h1 : (⟨[], 5, 10, 0, 0, false⟩ : AlertManager).add (NewCounterMetric 20 t1)
      = some ⟨[20], 5, 10, 0, 20, false⟩ := rfl
  have h2 : (⟨[20], 5, 10, 0, 20, false⟩ : AlertManager).add (NewCounterMetric 20 t2)
      = some ⟨[20, 20], 5, 10, 0, 40, false⟩ := rfl
  have h3 : (⟨[20, 20], 5, 10, 0, 40, false⟩ : AlertManager).add (NewCounterMetric 20 t3)
      = some ⟨[20, 20, 20], 5, 10, 0, 60, false⟩ := rfl
  have h4 : (⟨[20, 20, 20], 5, 10, 0, 60, false⟩ : AlertManager).add (NewCounterMetric 20 t4)
      = some ⟨[20, 20, 20, 20], 5, 10, 0, 80, false⟩ := rfl
  have h5 : (⟨[20, 20, 20, 20], 5, 10, 0, 80, false⟩ : AlertManager).add (NewCounterMetric 23 t5)
      = some ⟨[20, 20, 20, 20, 23], 5, 10, 0, 103, false⟩ := rfl
  have h6 : (⟨[20, 20, 20, 20, 23], 5, 10, 0, 103, true⟩ : AlertManager).add
      (NewCounterMetric 20 t6) = some ⟨[20, 20, 20, 20, 23], 5, 10, 1, 103, true⟩ := rfl
  have h7 : (⟨[20, 20, 20, 20, 23], 5, 10, 1, 103, true⟩ : AlertManager).add
      (NewCounterMetric 0 t7) = some ⟨[20, 0, 20, 20, 23], 5, 10, 2, 83, true⟩ := rfl
  have h8 : (⟨[20, 0, 20, 20, 23], 5, 10, 2, 83, true⟩ : AlertManager).add
      (NewCounterMetric 0 t8) = some ⟨[20, 0, 0, 20, 23], 5, 10, 3, 63, true⟩ := rfl
  have h9 : (⟨[20, 0, 0, 20, 23], 5, 10, 3, 63, true⟩ : AlertManager).add
      (NewCounterMetric 0 t9) = some ⟨[20, 0, 0, 0, 23], 5, 10, 4, 43, true⟩ := rfl
  have v1 : (⟨[20], 5, 10, 0, 20, false⟩ : AlertManager).AvgTraffic = some 20 := by decide
  have r1 : (⟨[20], 5, 10, 0, 20, false⟩ : AlertManager).Alert
      = some (0, ⟨[20], 5, 10, 0, 20, false⟩) := by decide
  have v2 : (⟨[20, 20], 5, 10, 0, 40, false⟩ : AlertManager).AvgTraffic = some 20 := by decide
  have r2 : (⟨[20, 20], 5, 10, 0, 40, false⟩ : AlertManager).Alert
      = some (0, ⟨[20, 20], 5, 10, 0, 40, false⟩) := by decide
  have v3 : (⟨[20, 20, 20], 5, 10, 0, 60, false⟩ : AlertManager).AvgTraffic = some 20 := by decide
  have r3 : (⟨[20, 20, 20], 5, 10, 0, 60, false⟩ : AlertManager).Alert
      = some (0, ⟨[20, 20, 20], 5, 10, 0, 60, false⟩) := by decide
  have v4 : (⟨[20, 20, 20, 20], 5, 10, 0, 80, false⟩ : AlertManager).AvgTraffic
      = some 20 := by decide
  have r4 : (⟨[20, 20, 20, 20], 5, 10, 0, 80, false⟩ : AlertManager).Alert
      = some (0, ⟨[20, 20, 20, 20], 5, 10, 0, 80, false⟩) := by decide
  have v5 : (⟨[20, 20, 20, 20, 23], 5, 10, 0, 103, false⟩ : AlertManager).AvgTraffic
      = some 21 := by decide
  have r5 : (⟨[20, 20, 20, 20, 23], 5, 10, 0, 103, false⟩ : AlertManager).Alert
      = some (1, ⟨[20, 20, 20, 20, 23], 5, 10, 0, 103, true⟩) := by decide
  have w5 : (⟨[20, 20, 20, 20, 23], 5, 10, 0, 103, true⟩ : AlertManager).AvgTraffic
      = some 21 := by decide
  have v6 : (⟨[20, 20, 20, 20, 23], 5, 10, 1, 103, true⟩ : AlertManager).AvgTraffic
      = some 21 := by decide
  have r6 : (⟨[20, 20, 20, 20, 23], 5, 10, 1, 103, true⟩ : AlertManager).Alert
      = some (0, ⟨[20, 20, 20, 20, 23], 5, 10, 1, 103, true⟩) := by decide
  have v7 : (⟨[20, 0, 20, 20, 23], 5, 10, 2, 83, true⟩ : AlertManager).AvgTraffic
      = some 17 := by decide
  have r7 : (⟨[20, 0, 20, 20, 23], 5, 10, 2, 83, true⟩ : AlertManager).Alert
      = some (0, ⟨[20, 0, 20, 20, 23], 5, 10, 2, 83, true⟩) := by decide
  have v8 : (⟨[20, 0, 0, 20, 23], 5, 10, 3, 63, true⟩ : AlertManager).AvgTraffic
      = some 13 := by decide
  have r8 : (⟨[20, 0, 0, 20, 23], 5, 10, 3, 63, true⟩ : AlertManager).Alert
      = some (0, ⟨[20, 0, 0, 20, 23], 5, 10, 3, 63, true⟩) := by decide
  have v9 : (⟨[20, 0, 0, 0, 23], 5, 10, 4, 43, true⟩ : AlertManager).AvgTraffic
      = some 9 := by decide
  have r9 : (⟨[20, 0, 0, 0, 23], 5, 10, 4, 43, true⟩ : AlertManager).Alert
      = some (-1, ⟨[20, 0, 0, 0, 23], 5, 10, 4, 43, false⟩) := by decide
  have w9 : (⟨[20, 0, 0, 0, 23], 5, 10, 4, 43, false⟩ : AlertManager).AvgTraffic
      = some 9 := by decide
  have e1 : iteration ⟨⟨[], 5, 10, 0, 0, false⟩, false⟩ (NewCounterMetric 20 t1)
      = some (⟨⟨[20], 5, 10, 0, 20, false⟩, false⟩, [NewMessage (avgText 20)]) := by
    rw [iteration_of _ _ _ _ _ _ _ h1 v1 r1 v1]; rfl
  have e2 : iteration ⟨⟨[20], 5, 10, 0, 20, false⟩, false⟩ (NewCounterMetric 20 t2)
      = some (⟨⟨[20, 20], 5, 10, 0, 40, false⟩, false⟩, [NewMessage (avgText 20)]) := by
    rw [iteration_of _ _ _ _ _ _ _ h2 v2 r2 v2]; rfl
  have e3 : iteration ⟨⟨[20, 20], 5, 10, 0, 40, false⟩, false⟩ (NewCounterMetric 20 t3)
      = some (⟨⟨[20, 20, 20], 5, 10, 0, 60, false⟩, false⟩, [NewMessage (avgText 20)]) := by
    rw [iteration_of _ _ _ _ _ _ _ h3 v3 r3 v3]; rfl
  have e4 : iteration ⟨⟨[20, 20, 20], 5, 10, 0, 60, false⟩, false⟩ (NewCounterMetric 20 t4)
      = some (⟨⟨[20, 20, 20, 20], 5, 10, 0, 80, false⟩, false⟩, [NewMessage (avgText 20)]) := by
    rw [iteration_of _ _ _ _ _ _ _ h4 v4 r4 v4]; rfl
  have e5 : iteration ⟨⟨[20, 20, 20, 20], 5, 10, 0, 80, false⟩, false⟩ (NewCounterMetric 23 t5)
      = some (⟨⟨[20, 20, 20, 20, 23], 5, 10, 0, 103, true⟩, true⟩,
          [NewMessage (avgText 21), NewInfoMessage alertOnText, NewAlertMessage 21 t5]) := by
    rw [iteration_of _ _ _ _ _ _ _ h5 v5 r5 w5]; rfl
  have e6 : iteration ⟨⟨[20, 20, 20, 20, 23], 5, 10, 0, 103, true⟩, true⟩
      (NewCounterMetric 20 t6)
      = some (⟨⟨[20, 20, 20, 20, 23], 5, 10, 1, 103, true⟩, true⟩,
          [NewMessage (avgText 21)]) := by
    rw [iteration_of _ _ _ _ _ _ _ h6 v6 r6 v6]; rfl
  have e7 : iteration ⟨⟨[20, 20, 20, 20, 23], 5, 10, 1, 103, true⟩, true⟩
      (NewCounterMetric 0 t7)
      = some (⟨⟨[20, 0, 20, 20, 23], 5, 10, 2, 83, true⟩, true⟩,
          [NewMessage (avgText 17)]) := by
    rw [iteration_of _ _ _ _ _ _ _ h7 v7 r7 v7]; rfl
  have e8 : iteration ⟨⟨[20, 0, 20, 20, 23], 5, 10, 2, 83, true⟩, true⟩
      (NewCounterMetric 0 t8)
      = some (⟨⟨[20, 0, 0, 20, 23], 5, 10, 3, 63, true⟩, true⟩,
          [NewMessage (avgText 13)]) := by
    rw [iteration_of _ _ _ _ _ _ _ h8 v8 r8 v8]; rfl
  have e9 : iteration ⟨⟨[20, 0, 0, 20, 23], 5, 10, 3, 63, true⟩, true⟩
      (NewCounterMetric 0 t9)
      = some (⟨⟨[20, 0, 0, 0, 23], 5, 10, 4, 43, false⟩, true⟩,
          [NewMessage (avgText 9), NewClearAlertMessage 9 t9]) := by
    rw [iteration_of _ _ _ _ _ _ _ h9 v9 r9 w9]; rfl
  have hl := loop_step _ _ _ [] _ e9
  rw [show loop _ [] = some _ from rfl, Option.map_some'] at hl
  have hl8 := loop_step _ _ _ [NewCounterMetric 0 t9] _ e8
  rw [hl, Option.map_some'] at hl8
  have hl7 := loop_step _ _ _ [NewCounterMetric 0 t8, NewCounterMetric 0 t9] _ e7
  rw [hl8, Option.map_some'] at hl7
  have hl6 := loop_step _ _ _ [NewCounterMetric 0 t7, NewCounterMetric 0 t8,
    NewCounterMetric 0 t9] _ e6
  rw [hl7, Option.map_some'] at hl6
  have hl5 := loop_step _ _ _ [NewCounterMetric 20 t6, NewCounterMetric 0 t7,
    NewCounterMetric 0 t8, NewCounterMetric 0 t9] _ e5
  rw [hl6, Option.map_some'] at hl5
  have hl4 := loop_step _ _ _ [NewCounterMetric 23 t5, NewCounterMetric 20 t6,
    NewCounterMetric 0 t7, NewCounterMetric 0 t8, NewCounterMetric 0 t9] _ e4
  rw [hl5, Option.map_some'] at hl4
  have hl3 := loop_step _ _ _ [NewCounterMetric 20 t4, NewCounterMetric 23 t5,
    NewCounterMetric 20 t6, NewCounterMetric 0 t7, NewCounterMetric 0 t8,
    NewCounterMetric 0 t9] _ e3
  rw [hl4, Option.map_some'] at hl3
  have hl2 := loop_step _ _ _ [NewCounterMetric 20 t3, NewCounterMetric 20 t4,
    NewCounterMetric 23 t5, NewCounterMetric 20 t6, NewCounterMetric 0 t7,
    NewCounterMetric 0 t8, NewCounterMetric 0 t9] _ e2
  rw [hl3, Option.map_some'] at hl2
  have hl1 := loop_step _ _ _ [NewCounterMetric 20 t2, NewCounterMetric 20 t3,
    NewCounterMetric 20 t4, NewCounterMetric 23 t5, NewCounterMetric 20 t6,
    NewCounterMetric 0 t7, NewCounterMetric 0 t8, NewCounterMetric 0 t9] _ e1
  rw [hl2, Option.map_some'] at hl1
  rw [Start_of_loop _ _ _ _ hl1, Option.map_some']

set_option maxRecDepth 100000 in
theorem avgText_nominal :
    avgText 20 = "\tAverage traffic: 20/s".toList ∧
    avgText 21 = "\tAverage traffic: 21/s".toList ∧
    avgText 17 = "\tAverage traffic: 17/s".toList ∧
    avgText 13 = "\tAverage traffic: 13/s".toList ∧
    avgText 9 = "\tAverage traffic: 9/s".toList := by
  decide

/-- C6: with `W = 5` and threshold 10, the counts 20, 20, 20, 20, 23, 20, 0, 0, 0
sent at the instants `t1` to `t9` make `Start` send, metric by metric, the
verbose messages of the averages 20, 20, 20, 20, 21, 21, 17, 13, 9, each with
the text of its average; the fifth metric also gives the information message
followed by one alert message with average 21 and time `t5`; the sixth to
eighth give no alert event; the ninth gives exactly one clearance message with
average 9 and time `t9`. -/
theorem nominal_scenario (cfg : config.Config) (a0 : AlertManager)
    (t1 t2 t3 t4 t5 t6 t7 t8 t9 : Time)
    (hNew : New cfg = some a0) (hW : a0.cap = 5) (hthr : cfg.AlertThreshold = 10) :
    (a0.Start [NewCounterMetric 20 t1, NewCounterMetric 20 t2, NewCounterMetric 20 t3,
        NewCounterMetric 20 t4, NewCounterMetric 23 t5, NewCounterMetric 20 t6,
        NewCounterMetric 0 t7, NewCounterMetric 0 t8, NewCounterMetric 0 t9]).map Prod.snd
      = some [[Formatter.Message "\tAverage traffic: 20/s".toList],
          [Formatter.Message "\tAverage traffic: 20/s".toList],
          [Formatter.Message "\tAverage traffic: 20/s".toList],
          [Formatter.Message "\tAverage traffic: 20/s".toList],
          [Formatter.Message "\tAverage traffic: 21/s".toList,
            Formatter.InfoMessage "All needed metrics are collected. Alerting is on".toList,
            Formatter.AlertMessage 21 t5],
          [Formatter.Message "\tAverage traffic: 21/s".toList],
          [Formatter.Message "\tAverage traffic: 17/s".toList],
          [Formatter.Message "\tAverage traffic: 13/s".toList],
          [Formatter.Message "\tAverage traffic: 9/s".toList,
            Formatter.ClearAlertMessage 9 t9]] := by
  rw [nominal_run cfg a0 t1 t2 t3 t4 t5 t6 t7 t8 t9 hNew hW hthr]
  obtain ⟨e20, e21, e17, e13, e9⟩ := avgText_nominal
  rw [e20, e21, e17, e13, e9]
  rfl

theorem roundDiv_nonneg (n : Int) (d : Nat) (hn : 0 ≤ n) (hd : 0 < d)
    (hn2 : n < 2 ^ 52) (hd2 : d < 2 ^ 53) :
    roundDiv n d = (2 * n + d) / (2 * d) := by
  obtain ⟨m, rfl⟩ := Int.eq_ofNat_of_zero_le hn
  have hm : m < 2 ^ 52 := by exact_mod_cast hn2
  have hneg : ¬ ((m : Int) < 0) := by omega
  obtain ⟨s, hs⟩ := float64.ofNat_small m (by omega)
  obtain ⟨t, ht⟩ := float64.ofNat_small d hd2
  have hq : (float64.ofNat m).div (float64.ofNat d)
      = float64.quotient (m * (2 ^ s * 2 ^ t)) (d * (2 ^ s * 2 ^ t)) := by
    rw [hs, ht]
    simp only [float64.div, Nat.pow_zero, Nat.mul_one]
    congr 1 <;> ring
  simp only [roundDiv, hneg, if_false, Int.natAbs_ofNat, hq]
  have hK : 0 < 2 ^ s * 2 ^ t := by positivity
  by_cases h0 : m = 0
  · subst h0
    have e : float64.quotient (0 * (2 ^ s * 2 ^ t)) (d * (2 ^ s * 2 ^ t))
        = { mant := 0, exp := 0, frac := 0 } := by
      simp [float64.quotient]
    rw [e]
    simp only [math.Round, if_true, Nat.zero_mul]
    symm
    apply Int.ediv_eq_zero_of_lt <;> omega
  · rw [round_quotient m d _ (Nat.pos_of_ne_zero h0) hm hd hK]
    push_cast
    rfl

theorem roundDiv_neg (n : Int) (d : Nat) : roundDiv (-n) d = -roundDiv n d := by
  rcases lt_trichotomy n 0 with h | h | h
  · have h1 : ¬ (-n < 0) := by omega
    simp only [roundDiv, h, h1, if_true, if_false, Int.natAbs_neg, neg_neg]
  · subst h
    have hz : roundDiv 0 d = 0 := by
      have e : (float64.ofNat (0 : Int).natAbs).div (float64.ofNat d)
          = { mant := 0, exp := 0, frac := 0 } := by
        simp [float64.ofNat, float64.div, float64.quotient]
      simp only [roundDiv, e, math.Round]
      rfl
    rw [neg_zero, hz]
    rfl
  · have h1 : -n < 0 := by omega
    have h2 : ¬ (n < 0) := by omega
    simp only [roundDiv, h1, h2, if_true, if_false, Int.natAbs_neg]

theorem roundDiv_near_nonneg (n : Int) (d : Nat) (hn : 0 ≤ n) (hd : 0 < d)
    (hn2 : n < 2 ^ 52) (hd2 : d < 2 ^ 53) :
    |((roundDiv n d : Int) : ℚ) - (n : ℚ) / (d : ℚ)| ≤ 1 / 2 ∧
    (|((roundDiv n d : Int) : ℚ) - (n : ℚ) / (d : ℚ)| = 1 / 2 →
      |(n : ℚ) / (d : ℚ)| < |((roundDiv n d : Int) : ℚ)|) := by
  have hd' : (0 : Int) < d := by exact_mod_cast hd
  have h2d : (0 : Int) < 2 * d := by omega
  rw [roundDiv_nonneg n d hn hd hn2 hd2]
  set k : Int := (2 * n + d) / (2 * d) with hk
  have h1 : k * (2 * d) ≤ 2 * n + d := Int.ediv_mul_le _ (ne_of_gt h2d)
  have h2 : 2 * n + d < (k + 1) * (2 * d) := Int.lt_ediv_add_one_mul_self _ h2d
  have hdq : (0 : ℚ) < (d : ℚ) := by exact_mod_cast hd
  have h1q : (k : ℚ) * (2 * d) ≤ 2 * n + d := by exact_mod_cast h1
  have h2q : (2 * n + d : ℚ) < (k + 1) * (2 * d) := by exact_mod_cast h2
  have hnq : (0 : ℚ) ≤ (n : ℚ) := by exact_mod_cast hn
  set q : ℚ := (n : ℚ) / (d : ℚ) with hq
  have hqd : q * d = n := by rw [hq]; field_simp
  have hq0 : 0 ≤ q := div_nonneg hnq (le_of_lt hdq)
  have hup : (k : ℚ) - q ≤ 1 / 2 := by
    by_contra hc
    push_neg at hc
    have : (1 / 2 : ℚ) * d < ((k : ℚ) - q) * d := mul_lt_mul_of_pos_right hc hdq
    nlinarith
  have hlo : -(1 / 2 : ℚ) < (k : ℚ) - q := by
    by_contra hc
    push_neg at hc
    have : ((k : ℚ) - q) * d ≤ -(1 / 2 : ℚ) * d := mul_le_mul_of_nonneg_right hc (le_of_lt hdq)
    nlinarith
  refine ⟨abs_le.mpr ⟨le_of_lt hlo, hup⟩, ?_⟩
  intro htie
  have hpos : (k : ℚ) - q = 1 / 2 := by
    rcases abs_eq (by norm_num : (0 : ℚ) ≤ 1 / 2) |>.mp htie with h | h
    · exact h
    · rw [h] at hlo; exact absurd hlo (lt_irrefl _)
  have hkq : (k : ℚ) = q + 1 / 2 := by linarith
  rw [abs_of_nonneg hq0, hkq, abs_of_nonneg (by linarith)]
  linarith

theorem roundDiv_near (n : Int) (d : Nat) (hd : 0 < d)
    (hn2 : n.natAbs < 2 ^ 52) (hd2 : d < 2 ^ 53) :
    |((roundDiv n d : Int) : ℚ) - (n : ℚ) / (d : ℚ)| ≤ 1 / 2 ∧
    (|((roundDiv n d : Int) : ℚ) - (n : ℚ) / (d : ℚ)| = 1 / 2 →
      |(n : ℚ) / (d : ℚ)| < |((roundDiv n d : Int) : ℚ)|) := by
  rcases le_total 0 n with hn | hn
  · exact roundDiv_near_nonneg n d hn hd (by omega) hd2
  · have h := roundDiv_near_nonneg (-n) d (by omega) hd (by omega) hd2
    rw [roundDiv_neg] at h
    have e1 : ((-roundDiv n d : Int) : ℚ) - ((-n : Int) : ℚ) / (d : ℚ)
        = -(((roundDiv n d : Int) : ℚ) - (n : ℚ) / (d : ℚ)) := by
      push_cast; ring
    have e2 : ((-n : Int) : ℚ) / (d : ℚ) = -((n : ℚ) / (d : ℚ)) := by
      push_cast; ring
    have e3 : ((-roundDiv n d : Int) : ℚ) = -((roundDiv n d : Int) : ℚ) := by push_cast; ring
    rw [e1, e2, e3, abs_neg, abs_neg, abs_neg] at h
    exact h

/-- C7, amended: in a state whose running sum is the sum of its buffer,
`AvgTraffic` returns 0 on an empty buffer; on a non-empty buffer of fewer than
`2 ^ 53` counts whose running sum is below `2 ^ 52` in absolute value, where
the quotient of the two `float64` is near enough, it returns an integer `r`
within one half of the quotient of the running sum by the current length of
the buffer, and when `r` is exactly one half away from the quotient it is the
farther from zero of the two nearest integers; for non-negative counts `r` is
the floor of `(2 * sum + len) / (2 * len)`; the buffer 20, 20, 20, 20, 23 gives
21 and the quotient 41 / 2 = 20.5 gives 21. -/
theorem avg_traffic_rounding (a : AlertManager) (hsum : a.sum = a.buf.sum)
    (hs52 : a.sum.natAbs < 2 ^ 52) (hl53 : a.buf.length < 2 ^ 53) :
    (a.buf = [] → a.AvgTraffic = some 0) ∧
    (a.buf ≠ [] → ∃ r : Int, a.AvgTraffic = some r ∧
      |(r : ℚ) - (a.sum : ℚ) / (a.buf.length : ℚ)| ≤ 1 / 2 ∧
      (|(r : ℚ) - (a.sum : ℚ) / (a.buf.length : ℚ)| = 1 / 2 →
        |(a.sum : ℚ) / (a.buf.length : ℚ)| < |(r : ℚ)|) ∧
      ((∀ c ∈ a.buf, 0 ≤ c) → r = (2 * a.sum + a.buf.length) / (2 * a.buf.length))) ∧
    (a.buf = [20, 20, 20, 20, 23] → a.AvgTraffic = some 21) ∧
    (a.buf.length = 2 → a.sum = 41 → a.AvgTraffic = some 21) := by
  refine ⟨?_, ?_, ?_, ?_⟩
  · intro hb
    rw [hb] at hsum
    simp [AlertManager.AvgTraffic, hsum, hb]
  · intro hb
    have hlen : 0 < a.buf.length := List.length_pos.mpr hb
    have hne : a.buf.length ≠ 0 := by omega
    refine ⟨roundDiv a.sum a.buf.length, by simp [AlertManager.AvgTraffic, hne], ?_⟩
    obtain ⟨h1, h2⟩ := roundDiv_near a.sum a.buf.length hlen hs52 hl53
    refine ⟨h1, h2, ?_⟩
    intro hpos
    have hs : 0 ≤ a.sum := by rw [hsum]; exact List.sum_nonneg hpos
    exact roundDiv_nonneg a.sum a.buf.length hs hlen (by omega) hl53
  · intro hb
    rw [hb] at hsum
    simp only [AlertManager.AvgTraffic, hsum, hb]
    decide
  · intro hl hs
    simp only [AlertManager.AvgTraffic, hs, hl]
    decide

/-- C7 as it stands fails from sums of about `2 ^ 52` on, where the quotient of
the two `float64` is not exact: the three counts 2251799813685248,
2251799813685248 and 2251799813685249, none of them negative, pushed into a
window of capacity 3 have the sum 6755399441055745, whose quotient by 3 is
2251799813685248 and one third; `AvgTraffic` returns 2251799813685249, which
is two thirds away from the quotient, and the floor of
`(2 * sum + len) / (2 * len)` is 2251799813685248. -/
theorem avg_traffic_off_nearest :
    addAll { buf := [], cap := 3, threshold := 10, ptr := 0, sum := 0, alertTriggered := false }
      [NewCounterMetric 2251799813685248 1, NewCounterMetric 2251799813685248 2,
        NewCounterMetric 2251799813685249 3] = some hugeManager ∧
    hugeManager.sum = hugeManager.buf.sum ∧ (∀ c ∈ hugeManager.buf, 0 ≤ c) ∧
    hugeManager.AvgTraffic = some 2251799813685249 ∧
    (1 / 2 : ℚ) < |((2251799813685249 : Int) : ℚ)
      - (hugeManager.sum : ℚ) / (hugeManager.buf.length : ℚ)| ∧
    (2 * hugeManager.sum + hugeManager.buf.length) / (2 * hugeManager.buf.length)
      = 2251799813685248 := by
  refine ⟨by decide, by decide, by decide, by decide, ?_, by decide⟩
  have e : ((2251799813685249 : Int) : ℚ)
      - (hugeManager.sum : ℚ) / (hugeManager.buf.length : ℚ) = 2 / 3 := by
    simp only [hugeManager, List.length_cons, List.length_nil]
    norm_num
  rw [e]
  norm_num [abs_of_pos]

theorem window_mem (W : Nat) (xs : List Int) (a : AlertManager) (h : Window W xs a) :
    ∀ c ∈ a.buf, c ∈ xs := by
  intro c hc
  have h1 : c ∈ a.buf.drop a.ptr.toNat ++ a.buf.take a.ptr.toNat := by
    rw [← List.take_append_drop a.ptr.toNat a.buf] at hc
    rcases List.mem_append.mp hc with h | h
    · exact List.mem_append.mpr (Or.inr h)
    · exact List.mem_append.mpr (Or.inl h)
  rw [h.rot] at h1
  exact List.mem_of_mem_drop h1

/-- The integer model is adequate for bounded counts: when every count pushed
lies between 0 and `B`, the counts kept in the buffer lie between 0 and `B`,
none exceeds the running sum (so the subtraction of `addCircular` stays
non-negative), and the running sum lies between 0 and `W * B`; with
`W * B < 2^63` no 64-bit operation of `add` overflows. -/
theorem sum_in_range (cfg : config.Config) (a0 : AlertManager) (ms : List Metric) (B : Int)
    (hNew : New cfg = some a0) (hW : 1 ≤ a0.cap) (hB0 : 0 ≤ B)
    (hB : ∀ m ∈ ms, 0 ≤ cntOf m ∧ cntOf m ≤ B) :
    ∃ a, addAll a0 ms = some a ∧ (∀ c ∈ a.buf, 0 ≤ c ∧ c ≤ B ∧ c ≤ a.sum) ∧
      0 ≤ a.sum ∧ a.sum ≤ a0.cap * B := by
  obtain ⟨hw, _, _⟩ := window_New cfg a0 hNew hW
  obtain ⟨a, ha, hwa, _, _⟩ := window_addAll a0.cap hW ms [] a0 hw
  have hmem := window_mem _ _ a hwa
  have hb : ∀ c ∈ a.buf, 0 ≤ c ∧ c ≤ B := by
    intro c hc
    have := hmem c hc
    simp only [List.nil_append, List.mem_map] at this
    obtain ⟨m, hm, rfl⟩ := this
    exact hB m hm
  have hnn : ∀ c ∈ a.buf, 0 ≤ c := fun c hc => (hb c hc).1
  have hsum := hwa.sum_eq
  have hlen : a.buf.length ≤ a0.cap := by
    have := hwa.len_eq; omega
  refine ⟨a, ha, ?_, ?_, ?_⟩
  · intro c hc
    exact ⟨(hb c hc).1, (hb c hc).2, by rw [hsum]; exact List.single_le_sum hnn c hc⟩
  · rw [hsum]; exact List.sum_nonneg hnn
  · rw [hsum]
    have h1 : a.buf.sum ≤ a.buf.length • B :=
      List.sum_le_card_nsmul a.buf B (fun c hc => (hb c hc).2)
    have h2 : a.buf.length • B = (a.buf.length : Int) * B := by simp
    rw [h2] at h1
    calc a.buf.sum ≤ (a.buf.length : Int) * B := h1
      _ ≤ (a0.cap : Int) * B := by
        apply mul_le_mul_of_nonneg_right _ hB0
        exact_mod_cast hlen

/-- The adequacy of the integer model at the nominal test, whose counts lie
between 0 and 23. -/
theorem sum_in_range_witness :
    New nominalCfg = some nominalManager ∧ 1 ≤ nominalManager.cap ∧ (0 : Int) ≤ 23 ∧
    (∀ m ∈ nominalMetrics, 0 ≤ cntOf m ∧ cntOf m ≤ 23) ∧
    ∃ a, addAll nominalManager nominalMetrics = some a ∧
      (∀ c ∈ a.buf, 0 ≤ c ∧ c ≤ 23 ∧ c ≤ a.sum) ∧ 0 ≤ a.sum ∧
      a.sum ≤ nominalManager.cap * 23 :=
  ⟨by decide, by decide, by decide, by decide,
    sum_in_range nominalCfg nominalManager nominalMetrics 23 (by decide) (by decide)
      (by decide) (by decide)⟩

/-- C1 at the nominal test: nine pushes into a window of capacity five, whose
last five counts 23, 20, 0, 0, 0 have the sum 43. -/
theorem add_running_sum_witness :
    New nominalCfg = some nominalManager ∧ 1 ≤ nominalManager.cap ∧
      ∃ a, addAll nominalManager nominalMetrics = some a ∧ a.sum = 43 :=
  ⟨by decide, by decide,
    match add_running_sum nominalCfg nominalManager
      [(20, 1), (20, 2), (20, 3), (20, 4), (23, 5), (20, 6), (0, 7), (0, 8), (0, 9)]
      (by decide) (by decide) with
    | ⟨a, h1, h2⟩ => ⟨a, h1, by rw [h2]; decide⟩⟩

/-- C3 at the nominal test. -/
theorem alerts_alternate_witness :
    New nominalCfg = some nominalManager ∧
    (∀ a outs, nominalManager.Start nominalMetrics = some (a, outs) →
      List.Chain' (fun x y => x ≠ y) (alertKinds outs.flatten) ∧
        (alertKinds outs.flatten).head? ≠ some false) ∧
    (1 ≤ nominalManager.cap → ∃ a outs, nominalManager.Start nominalMetrics = some (a, outs)) :=
  ⟨by decide, alerts_alternate nominalCfg nominalManager nominalMetrics (by decide)⟩

/-- C4 at the nominal test. -/
theorem alerting_on_once_witness :
    New nominalCfg = some nominalManager ∧ 1 ≤ nominalManager.cap ∧
    ∃ a outs, nominalManager.Start nominalMetrics = some (a, outs) ∧
      outs.length = nominalMetrics.length ∧
      (∀ (i : Nat) (out : List Formatter), outs[i]? = some out →
        (out.filter isInfo).length = if i + 1 = nominalManager.cap then 1 else 0) ∧
      (outs.flatten.filter isInfo).length
        = if nominalManager.cap ≤ nominalMetrics.length then 1 else 0 :=
  ⟨by decide, by decide,
    alerting_on_once nominalCfg nominalManager nominalMetrics (by decide) (by decide)⟩

/-- C5 at the nominal test. -/
theorem filling_silent_witness :
    New nominalCfg = some nominalManager ∧ 1 ≤ nominalManager.cap ∧
    ∃ a outs, nominalManager.Start nominalMetrics = some (a, outs) ∧
      outs.length = nominalMetrics.length ∧
      ∀ (i : Nat) (out : List Formatter), outs[i]? = some out → i + 1 < nominalManager.cap →
        ∀ f ∈ out, f.Verbose = true :=
  ⟨by decide, by decide,
    filling_silent nominalCfg nominalManager nominalMetrics (by decide) (by decide)⟩

/-- C8 at the nominal test. -/
theorem average_message_first_witness :
    New nominalCfg = some nominalManager ∧ 1 ≤ nominalManager.cap ∧
    ∃ a outs, nominalManager.Start nominalMetrics = some (a, outs) ∧
      outs.length = nominalMetrics.length ∧
      ∀ (i : Nat) (m : Metric), nominalMetrics[i]? = some m →
        ∃ ai o1 a1 avg rest, nominalManager.Start (nominalMetrics.take i) = some (ai, o1) ∧
          ai.add m = some a1 ∧ a1.AvgTraffic = some avg ∧
          outs[i]? = some (Formatter.Message
            ("\tAverage traffic: ".toList ++ (toString avg).toList ++ "/s".toList) :: rest) ∧
          (Formatter.Message
            ("\tAverage traffic: ".toList ++ (toString avg).toList ++ "/s".toList)).Verbose
              = true ∧
          ∀ f ∈ rest, f.Verbose = false :=
  ⟨by decide, by decide,
    average_message_first nominalCfg nominalManager nominalMetrics (by decide) (by decide)⟩

/-- C6 with the nine metrics sent at the instants 1 to 9. -/
theorem nominal_scenario_witness :
    New nominalCfg = some nominalManager ∧ nominalManager.cap = 5 ∧
    nominalCfg.AlertThreshold = 10 ∧
    (nominalManager.Start [NewCounterMetric 20 1, NewCounterMetric 20 2, NewCounterMetric 20 3,
        NewCounterMetric 20 4, NewCounterMetric 23 5, NewCounterMetric 20 6,
        NewCounterMetric 0 7, NewCounterMetric 0 8, NewCounterMetric 0 9]).map Prod.snd
      = some [[Formatter.Message "\tAverage traffic: 20/s".toList],
          [Formatter.Message "\tAverage traffic: 20/s".toList],
          [Formatter.Message "\tAverage traffic: 20/s".toList],
          [Formatter.Message "\tAverage traffic: 20/s".toList],
          [Formatter.Message "\tAverage traffic: 21/s".toList,
            Formatter.InfoMessage "All needed metrics are collected. Alerting is on".toList,
            Formatter.AlertMessage 21 5],
          [Formatter.Message "\tAverage traffic: 21/s".toList],
          [Formatter.Message "\tAverage traffic: 17/s".toList],
          [Formatter.Message "\tAverage traffic: 13/s".toList],
          [Formatter.Message "\tAverage traffic: 9/s".toList,
            Formatter.ClearAlertMessage 9 9]] :=
  ⟨by decide, by decide, by decide,
    nominal_scenario nominalCfg nominalManager 1 2 3 4 5 6 7 8 9 (by decide) (by decide)
      (by decide)⟩

/-- C7 at the full window of the nominal test, of sum 103 over 5 counts. -/
theorem avg_traffic_rounding_witness :
    fullManager.sum = fullManager.buf.sum ∧ fullManager.sum.natAbs < 2 ^ 52 ∧
    fullManager.buf.length < 2 ^ 53 ∧
    (fullManager.buf = [] → fullManager.AvgTraffic = some 0) ∧
    (fullManager.buf ≠ [] → ∃ r : Int, fullManager.AvgTraffic = some r ∧
      |(r : ℚ) - (fullManager.sum : ℚ) / (fullManager.buf.length : ℚ)| ≤ 1 / 2 ∧
      (|(r : ℚ) - (fullManager.sum : ℚ) / (fullManager.buf.length : ℚ)| = 1 / 2 →
        |(fullManager.sum : ℚ) / (fullManager.buf.length : ℚ)| < |(r : ℚ)|) ∧
      ((∀ c ∈ fullManager.buf, 0 ≤ c) →
        r = (2 * fullManager.sum + fullManager.buf.length) / (2 * fullManager.buf.length))) ∧
    (fullManager.buf = [20, 20, 20, 20, 23] → fullManager.AvgTraffic = some 21) ∧
    (fullManager.buf.length = 2 → fullManager.sum = 41 → fullManager.AvgTraffic = some 21) :=
  ⟨by decide, by decide, by decide,
    avg_traffic_rounding fullManager (by decide) (by decide) (by decide)⟩

end alertmanager

/-! ## Theorems on the matchers of package `regexp` -/

namespace regexp

theorem lit_cons {α : Type} (c : Char) (k : Str → Option α) (xs : Str) :
    lit c k (c :: xs) = k xs := by
  simp [lit]

theorem lit_ne {α : Type} (c x : Char) (k : Str → Option α) (xs : Str) (h : x ≠ c) :
    lit c k (x :: xs) = none := by
  simp [lit, h]

theorem lit_sound {α : Type} (c : Char) (k : Str → Option α) (s : Str) (r : α)
    (h : lit c k s = some r) : ∃ xs, s = c :: xs ∧ k xs = some r := by
  cases s with
  | nil => simp [lit] at h
  | cons x xs =>
    by_cases hx : x = c
    · subst hx; exact ⟨xs, rfl, by simpa [lit] using h⟩
    · simp [lit, hx] at h

theorem eot_sound {α : Type} (r0 : α) (s : Str) (r : α) (h : eot r0 s = some r) :
    s = [] ∧ r = r0 := by
  cases s with
  | nil => simp only [eot, Option.some.injEq] at h; exact ⟨rfl, h.symm⟩
  | cons x xs => simp [eot] at h

theorem starLazy_hit {α : Type} (p : Char → Bool) (k : Str → Str → Option α) (acc s : Str)
    (r : α) (h : k acc s = some r) : starLazy p k acc s = some r := by
  cases s with
  | nil => simpa [starLazy] using h
  | cons x xs => simp [starLazy, h]

theorem starLazy_cons {α : Type} (p : Char → Bool) (k : Str → Str → Option α) (acc : Str)
    (x : Char) (xs : Str) :
    starLazy p k acc (x :: xs) =
      match k acc (x :: xs) with
      | some r => some r
      | none => if p x then starLazy p k (acc ++ [x]) xs else none := rfl

theorem starGreedy_cons {α : Type} (p : Char → Bool) (k : Str → Str → Option α) (acc : Str)
    (x : Char) (xs : Str) :
    starGreedy p k acc (x :: xs) =
      if p x then
        match starGreedy p k (acc ++ [x]) xs with
        | some r => some r
        | none => k acc (x :: xs)
      else k acc (x :: xs) := rfl

theorem starLazy_skip {α : Type} (p : Char → Bool) (k : Str → Str → Option α) (u : Str) :
    ∀ (acc rest : Str), (∀ c ∈ u, p c = true) →
      (∀ u1 u2, u = u1 ++ u2 → u2 ≠ [] → k (acc ++ u1) (u2 ++ rest) = none) →
      starLazy p k acc (u ++ rest) = starLazy p k (acc ++ u) rest := by
  induction u with
  | nil => intro acc rest _ _; simp
  | cons x u ih =>
    intro acc rest hp hk
    have h0 : k acc (x :: (u ++ rest)) = none := by
      have := hk [] (x :: u) rfl (by simp)
      simpa using this
    have hx : p x = true := hp x (by simp)
    rw [List.cons_append, starLazy_cons, h0]
    simp only [hx, if_true]
    rw [ih (acc ++ [x]) rest (fun c hc => hp c (by simp [hc]))]
    · simp
    · intro u1 u2 hu hne
      have := hk (x :: u1) u2 (by simp [hu]) hne
      simpa using this

theorem starLazy_sound {α : Type} (p : Char → Bool) (k : Str → Str → Option α) (s : Str) :
    ∀ (acc : Str) (r : α), starLazy p k acc s = some r →
      ∃ u rest, s = u ++ rest ∧ (∀ c ∈ u, p c = true) ∧ k (acc ++ u) rest = some r := by
  induction s with
  | nil => intro acc r h; exact ⟨[], [], rfl, by simp, by simpa [starLazy] using h⟩
  | cons x xs ih =>
    intro acc r h
    rw [starLazy_cons] at h
    cases hk : k acc (x :: xs) with
    | some r1 =>
      simp only [hk, Option.some.injEq] at h
      subst h
      exact ⟨[], x :: xs, rfl, by simp, by simpa using hk⟩
    | none =>
      simp only [hk] at h
      by_cases hx : p x = true
      · simp only [hx, if_true] at h
        obtain ⟨u, rest, hs, hp, hr⟩ := ih _ _ h
        refine ⟨x :: u, rest, by simp [hs], ?_, by simpa using hr⟩
        intro c hc
        rcases List.mem_cons.mp hc with rfl | hc
        · exact hx
        · exact hp c hc
      · simp [hx] at h

theorem plusLazy_sound {α : Type} (p : Char → Bool) (k : Str → Str → Option α) (s : Str)
    (r : α) (h : plusLazy p k s = some r) :
    ∃ u rest, s = u ++ rest ∧ u ≠ [] ∧ (∀ c ∈ u, p c = true) ∧ k u rest = some r := by
  cases s with
  | nil => simp [plusLazy] at h
  | cons x xs =>
    by_cases hx : p x = true
    · simp only [plusLazy, hx, if_true] at h
      obtain ⟨u, rest, hs, hp, hr⟩ := starLazy_sound p k xs _ _ h
      refine ⟨x :: u, rest, by simp [hs], by simp, ?_, by simpa using hr⟩
      intro c hc
      rcases List.mem_cons.mp hc with rfl | hc
      · exact hx
      · exact hp c hc
    · simp [plusLazy, hx] at h

theorem plusLazy_eq {α : Type} (p : Char → Bool) (k : Str → Str → Option α) (u rest : Str)
    (r : α) (hne : u ≠ []) (hp : ∀ c ∈ u, p c = true)
    (hk : ∀ u1 u2, u = u1 ++ u2 → u1 ≠ [] → u2 ≠ [] → k u1 (u2 ++ rest) = none)
    (hr : k u rest = some r) : plusLazy p k (u ++ rest) = some r := by
  cases u with
  | nil => exact absurd rfl hne
  | cons x u =>
    have hx : p x = true := hp x (by simp)
    simp only [List.cons_append, plusLazy, hx, if_true]
    rw [starLazy_skip p k u [x] rest (fun c hc => hp c (by simp [hc]))]
    · exact starLazy_hit p k _ _ r (by simpa using hr)
    · intro u1 u2 hu h2
      have := hk (x :: u1) u2 (by simp [hu]) (by simp) h2
      simpa using this

theorem plusLazy_field {α : Type} (p : Char → Bool) (k : Str → Option α) (u rest : Str)
    (r : α) (hne : u ≠ []) (hp : ∀ c ∈ u, p c = true) (hsp : ∀ c ∈ u, c ≠ ' ')
    (hr : k rest = some r) : plusLazy p (fun _ => lit ' ' k) (u ++ ' ' :: rest) = some r := by
  apply plusLazy_eq p _ u (' ' :: rest) r hne hp
  · intro u1 u2 hu _ h2
    cases u2 with
    | nil => exact absurd rfl h2
    | cons y ys =>
      have hy : y ≠ ' ' := hsp y (by simp [hu])
      simp [lit, hy]
  · simpa [lit] using hr

theorem starGreedy_all {α : Type} (p : Char → Bool) (k : Str → Str → Option α) (u : Str) :
    ∀ (acc rest : Str) (r : α), (∀ c ∈ u, p c = true) → (∀ y ∈ rest.head?, p y = false) →
      k (acc ++ u) rest = some r → starGreedy p k acc (u ++ rest) = some r := by
  induction u with
  | nil =>
    intro acc rest r _ hrest hk
    cases rest with
    | nil => simpa [starGreedy] using hk
    | cons y ys =>
      have hy : p y = false := hrest y (by simp)
      simpa [starGreedy, hy] using hk
  | cons x u ih =>
    intro acc rest r hp hrest hk
    have hx : p x = true := hp x (by simp)
    have := ih (acc ++ [x]) rest r (fun c hc => hp c (by simp [hc])) hrest (by simpa using hk)
    rw [List.cons_append, starGreedy_cons, this]
    simp [hx]

theorem plusGreedy_all {α : Type} (p : Char → Bool) (k : Str → Str → Option α) (u rest : Str)
    (r : α) (hne : u ≠ []) (hp : ∀ c ∈ u, p c = true) (hrest : ∀ y ∈ rest.head?, p y = false)
    (hk : k u rest = some r) : plusGreedy p k (u ++ rest) = some r := by
  cases u with
  | nil => exact absurd rfl hne
  | cons x u =>
    have hx : p x = true := hp x (by simp)
    simp only [List.cons_append, plusGreedy, hx, if_true]
    exact starGreedy_all p k u [x] rest r (fun c hc => hp c (by simp [hc])) hrest
      (by simpa using hk)

theorem starGreedy_sound {α : Type} (p : Char → Bool) (k : Str → Str → Option α) (s : Str) :
    ∀ (acc : Str) (r : α), starGreedy p k acc s = some r →
      ∃ u rest, s = u ++ rest ∧ (∀ c ∈ u, p c = true) ∧ k (acc ++ u) rest = some r := by
  induction s with
  | nil => intro acc r h; exact ⟨[], [], rfl, by simp, by simpa [starGreedy] using h⟩
  | cons x xs ih =>
    intro acc r h
    rw [starGreedy_cons] at h
    by_cases hx : p x = true
    · simp only [hx, if_true] at h
      cases hg : starGreedy p k (acc ++ [x]) xs with
      | some r1 =>
        simp only [hg, Option.some.injEq] at h
        subst h
        obtain ⟨u, rest, hs, hp, hr⟩ := ih _ _ hg
        refine ⟨x :: u, rest, by simp [hs], ?_, by simpa using hr⟩
        intro c hc
        rcases List.mem_cons.mp hc with rfl | hc
        · exact hx
        · exact hp c hc
      | none =>
        simp only [hg] at h
        exact ⟨[], x :: xs, rfl, by simp, by simpa using h⟩
    · simp only [hx, Bool.false_eq_true, if_false] at h
      exact ⟨[], x :: xs, rfl, by simp, by simpa using h⟩

theorem plusGreedy_sound {α : Type} (p : Char → Bool) (k : Str → Str → Option α) (s : Str)
    (r : α) (h : plusGreedy p k s = some r) :
    ∃ u rest, s = u ++ rest ∧ u ≠ [] ∧ (∀ c ∈ u, p c = true) ∧ k u rest = some r := by
  cases s with
  | nil => simp [plusGreedy] at h
  | cons x xs =>
    by_cases hx : p x = true
    · simp only [plusGreedy, hx, if_true] at h
      obtain ⟨u, rest, hs, hp, hr⟩ := starGreedy_sound p k xs _ _ h
      refine ⟨x :: u, rest, by simp [hs], by simp, ?_, by simpa using hr⟩
      intro c hc
      rcases List.mem_cons.mp hc with rfl | hc
      · exact hx
      · exact hp c hc
    · simp [plusGreedy, hx] at h

end regexp

/-! ## Theorems on package `collector` -/

namespace collector

open regexp

theorem digit_ne_space (c : Char) (h : isDigit c = true) : c ≠ ' ' := by
  intro hc; subst hc; simp [isDigit] at h

theorem digit_ne_quote (c : Char) (h : isDigit c = true) : c ≠ '"' := by
  intro hc; subst hc; simp [isDigit] at h

theorem split_unique (a : Str) :
    ∀ (b x y : Str), (∀ c ∈ x, c ≠ ' ') → (∀ c ∈ y, c ≠ ' ') →
      a ++ ' ' :: x = b ++ ' ' :: y → a = b ∧ x = y := by
  induction a with
  | nil =>
    intro b x y hx hy h
    cases b with
    | nil => simp at h; exact ⟨rfl, h⟩
    | cons c b =>
      simp only [List.nil_append, List.cons_append, List.cons.injEq] at h
      exact absurd rfl (hx ' ' (by rw [h.2]; simp))
  | cons c a ih =>
    intro b x y hx hy h
    cases b with
    | nil =>
      simp only [List.nil_append, List.cons_append, List.cons.injEq] at h
      exact absurd rfl (hy ' ' (by rw [← h.2]; simp))
    | cons d b =>
      simp only [List.cons_append, List.cons.injEq] at h
      obtain ⟨rfl, h2⟩ := h
      obtain ⟨h3, h4⟩ := ih b x y hx hy h2
      exact ⟨by rw [h3], h4⟩

/-- What a match of `w3cLogEntryRegExp` says about the line. -/
theorem w3c_sound (s req code : Str) (h : w3cLogEntryRegExp s = some (req, code)) :
    ∃ a b c t n, s = a ++ ' ' :: (b ++ ' ' :: (c ++ ' ' :: '[' :: (t ++ ']' :: ' ' :: '"' ::
        (req ++ '"' :: ' ' :: (code ++ ' ' :: n))))) ∧
      (a ≠ [] ∧ ∀ x ∈ a, isDot x = true) ∧ (b ≠ [] ∧ ∀ x ∈ b, isDot x = true) ∧
      (c ≠ [] ∧ ∀ x ∈ c, isDot x = true) ∧ (t ≠ [] ∧ ∀ x ∈ t, isDot x = true) ∧
      (req ≠ [] ∧ ∀ x ∈ req, isDot x = true) ∧
      (code ≠ [] ∧ ∀ x ∈ code, isDigit x = true) ∧ (n ≠ [] ∧ ∀ x ∈ n, isDigit x = true) := by
  unfold w3cLogEntryRegExp at h
  obtain ⟨a, r1, rfl, ha, hpa, h1⟩ := plusLazy_sound _ _ _ _ h
  obtain ⟨r1a, rfl, h2⟩ := lit_sound _ _ _ _ h1
  obtain ⟨b, r2, rfl, hb, hpb, h3⟩ := plusLazy_sound _ _ _ _ h2
  obtain ⟨r2a, rfl, h4⟩ := lit_sound _ _ _ _ h3
  obtain ⟨c, r3, rfl, hc, hpc, h5⟩ := plusLazy_sound _ _ _ _ h4
  obtain ⟨r3a, rfl, h6⟩ := lit_sound _ _ _ _ h5
  obtain ⟨r3b, rfl, h7⟩ := lit_sound _ _ _ _ h6
  obtain ⟨t, r4, rfl, ht, hpt, h8⟩ := plusLazy_sound _ _ _ _ h7
  obtain ⟨r4a, rfl, h9⟩ := lit_sound _ _ _ _ h8
  obtain ⟨r4b, rfl, h10⟩ := lit_sound _ _ _ _ h9
  obtain ⟨r4c, rfl, h11⟩ := lit_sound _ _ _ _ h10
  obtain ⟨q, r5, rfl, hq, hpq, h12⟩ := plusLazy_sound _ _ _ _ h11
  obtain ⟨r5a, rfl, h13⟩ := lit_sound _ _ _ _ h12
  obtain ⟨r5b, rfl, h14⟩ := lit_sound _ _ _ _ h13
  obtain ⟨d, r6, rfl, hd, hpd, h15⟩ := plusGreedy_sound _ _ _ _ h14
  obtain ⟨r6a, rfl, h16⟩ := lit_sound _ _ _ _ h15
  obtain ⟨n, r7, rfl, hn, hpn, h17⟩ := plusGreedy_sound _ _ _ _ h16
  obtain ⟨rfl, h18⟩ := eot_sound _ _ _ h17
  simp only [Prod.mk.injEq] at h18
  obtain ⟨rfl, rfl⟩ := h18
  exact ⟨a, b, c, t, n, by simp, ⟨ha, hpa⟩, ⟨hb, hpb⟩, ⟨hc, hpc⟩, ⟨ht, hpt⟩, ⟨hq, hpq⟩,
    ⟨hd, hpd⟩, ⟨hn, hpn⟩⟩

theorem atoi_digits (s : Str) (hne : s ≠ []) (hd : ∀ c ∈ s, isDigit c = true) :
    strconv.Atoi s =
      if strconv.digitsVal s < 2 ^ 63 then Except.ok (strconv.digitsVal s : Int)
      else Except.error (error.NumError "Atoi".toList s "value out of range".toList) := by
  cases s with
  | nil => exact absurd rfl hne
  | cons x xs =>
    have hx : isDigit x = true := hd x (by simp)
    have h1 : x ≠ '-' := by intro hc; subst hc; simp [isDigit] at hx
    have h2 : x ≠ '+' := by intro hc; subst hc; simp [isDigit] at hx
    have hall : (x :: xs).all isDigit = true := by
      rw [List.all_eq_true]; exact hd
    simp only [strconv.Atoi, List.head?_cons, Option.some.injEq, h1, h2, or_self, if_false,
      hall, not_true_eq_false, or_false, reduceCtorEq]

theorem index_slash (s : Str) :
    (strings.Index s ['/'] = -1 ∧ s.takeWhile (fun c => c != '/') = s) ∨
    (strings.Index s ['/'] = ((s.takeWhile (fun c => c != '/')).length : Int)) := by
  induction s with
  | nil => left; simp [strings.Index, List.isPrefixOf]
  | cons x t ih =>
    by_cases hx : x = '/'
    · right; subst hx
      simp [strings.Index, List.isPrefixOf]
    · have hp : List.isPrefixOf ['/'] (x :: t) = false := by
        simp [List.isPrefixOf]; exact fun h => hx h.symm
      rcases ih with ⟨h1, h2⟩ | h1
      · left
        simp [strings.Index, hp, h1, h2, hx]
      · right
        have hne : strings.Index t ['/'] ≠ -1 := by rw [h1]; omega
        simp [strings.Index, hp, hne, hx, h1]

theorem line_eq (e : Entry) :
    e.line = e.host ++ ' ' :: (e.ident ++ ' ' :: (e.authuser ++ ' ' :: '[' ::
      (e.timestamp ++ ']' :: ' ' :: '"' :: (e.request ++ '"' :: ' ' ::
        (e.status ++ ' ' :: e.bytes))))) := by
  simp [Entry.line]

theorem tail_match (req status bytes : Str)
    (hs : status ≠ [] ∧ ∀ c ∈ status, isDigit c = true)
    (hb : bytes ≠ [] ∧ ∀ c ∈ bytes, isDigit c = true) :
    plusGreedy isDigit (fun code => lit ' ' <|
      plusGreedy isDigit (fun _ => eot (req, code))) (status ++ ' ' :: bytes)
      = some (req, status) := by
  apply plusGreedy_all isDigit _ status (' ' :: bytes) _ hs.1 hs.2
  · intro y hy
    simp only [List.head?_cons, Option.mem_def, Option.some.injEq] at hy
    subst hy; rfl
  · rw [lit_cons]
    have := plusGreedy_all isDigit (fun _ => eot (req, status)) bytes [] (req, status)
      hb.1 hb.2 (by simp) rfl
    simpa using this

theorem tail_sound (req s : Str) (r : Str × Str)
    (h : (lit '"' <| lit ' ' <| plusGreedy isDigit (fun code => lit ' ' <|
      plusGreedy isDigit (fun _ => eot (req, code)))) s = some r) :
    ∃ d n, s = '"' :: ' ' :: (d ++ ' ' :: n) ∧ (∀ c ∈ d, isDigit c = true) ∧
      (∀ c ∈ n, isDigit c = true) := by
  obtain ⟨r1, rfl, h1⟩ := lit_sound _ _ _ _ h
  obtain ⟨r2, rfl, h2⟩ := lit_sound _ _ _ _ h1
  obtain ⟨d, r3, rfl, _, hpd, h3⟩ := plusGreedy_sound _ _ _ _ h2
  obtain ⟨r4, rfl, h4⟩ := lit_sound _ _ _ _ h3
  obtain ⟨n, r5, rfl, _, hpn, h5⟩ := plusGreedy_sound _ _ _ _ h4
  obtain ⟨rfl, _⟩ := eot_sound _ _ _ h5
  exact ⟨d, n, by simp, hpd, hpn⟩

theorem request_match (req status bytes : Str)
    (hr : req ≠ [] ∧ ∀ c ∈ req, isDot c = true)
    (hs : status ≠ [] ∧ ∀ c ∈ status, isDigit c = true)
    (hb : bytes ≠ [] ∧ ∀ c ∈ bytes, isDigit c = true) :
    plusLazy isDot (fun req => lit '"' <| lit ' ' <|
      plusGreedy isDigit (fun code => lit ' ' <|
        plusGreedy isDigit (fun _ => eot (req, code))))
      (req ++ '"' :: ' ' :: (status ++ ' ' :: bytes)) = some (req, status) := by
  apply plusLazy_eq isDot _ req _ _ hr.1 hr.2
  · intro u1 u2 _ _ h2
    cases hk : (lit '"' <| lit ' ' <| plusGreedy isDigit (fun code => lit ' ' <|
        plusGreedy isDigit (fun _ => eot (u1, code))))
        (u2 ++ '"' :: ' ' :: (status ++ ' ' :: bytes)) with
    | none => rfl
    | some r =>
      exfalso
      obtain ⟨d, n, hsn, hd, hn⟩ := tail_sound u1 _ r hk
      cases u2 with
      | nil => exact h2 rfl
      | cons y ys =>
        simp only [List.cons_append, List.cons.injEq] at hsn
        have hmem : '"' ∈ ' ' :: (d ++ ' ' :: n) := by
          rw [← hsn.2]; simp
        simp only [List.mem_cons, List.mem_append] at hmem
        rcases hmem with h | h | h | h
        · exact absurd h (by decide)
        · exact digit_ne_quote _ (hd _ h) rfl
        · exact absurd h (by decide)
        · exact digit_ne_quote _ (hn _ h) rfl
  · rw [lit_cons, lit_cons]
    exact tail_match req status bytes hs hb

theorem timestamp_match {α : Type} (k : Str → Option α) (ts rest : Str) (r : α)
    (ht : ts ≠ [] ∧ ∀ c ∈ ts, isDot c = true)
    (hinf : ¬ ([']', ' ', '"'] <:+: ts)) (hk : k rest = some r) :
    plusLazy isDot (fun _ => lit ']' <| lit ' ' <| lit '"' <| k)
      (ts ++ ']' :: ' ' :: '"' :: rest) = some r := by
  apply plusLazy_eq isDot _ ts _ _ ht.1 ht.2
  · intro u1 u2 hu _ h2
    cases hc : (lit ']' <| lit ' ' <| lit '"' <| k) (u2 ++ ']' :: ' ' :: '"' :: rest) with
    | none => rfl
    | some r1 =>
      exfalso
      obtain ⟨r2, e1, h3⟩ := lit_sound _ _ _ _ hc
      obtain ⟨r3, e2, h4⟩ := lit_sound _ _ _ _ h3
      obtain ⟨r4, e3, _⟩ := lit_sound _ _ _ _ h4
      subst e2 e3
      match u2, h2, e1 with
      | [y], _, e1 =>
        simp only [List.cons_append, List.nil_append, List.cons.injEq] at e1
        exact absurd e1.2.1 (by decide)
      | [y, z], _, e1 =>
        simp only [List.cons_append, List.nil_append, List.cons.injEq] at e1
        exact absurd e1.2.2.1 (by decide)
      | y :: z :: w :: v, _, e1 =>
        simp only [List.cons_append, List.cons.injEq] at e1
        obtain ⟨rfl, rfl, rfl, _⟩ := e1
        exact hinf ⟨u1, v, by simp [hu]⟩
  · rw [lit_cons, lit_cons, lit_cons]
    exact hk

theorem w3c_complete (e : Entry)
    (hh : e.host ≠ [] ∧ ∀ c ∈ e.host, c ≠ ' ')
    (hi : e.ident ≠ [] ∧ ∀ c ∈ e.ident, c ≠ ' ')
    (ha : e.authuser ≠ [] ∧ ∀ c ∈ e.authuser, c ≠ ' ')
    (ht : e.timestamp ≠ [])
    (hinf : ¬ ([']', ' ', '"'] <:+: e.timestamp))
    (hr : e.request ≠ [])
    (hs : e.status ≠ [] ∧ ∀ c ∈ e.status, isDigit c = true)
    (hb : e.bytes ≠ [] ∧ ∀ c ∈ e.bytes, isDigit c = true)
    (hnl : ∀ c ∈ e.line, c ≠ '\n') :
    w3cLogEntryRegExp e.line = some (e.request, e.status) := by
  have hdot : ∀ (f : Str), (∀ c ∈ f, c ∈ e.line) → ∀ c ∈ f, isDot c = true := by
    intro f hf c hc
    have := hnl c (hf c hc)
    simp [isDot, this]
  have d1 := hdot e.host (by intro c hc; rw [line_eq]; simp [hc])
  have d2 := hdot e.ident (by intro c hc; rw [line_eq]; simp [hc])
  have d3 := hdot e.authuser (by intro c hc; rw [line_eq]; simp [hc])
  have d4 := hdot e.timestamp (by intro c hc; rw [line_eq]; simp [hc])
  have d5 := hdot e.request (by intro c hc; rw [line_eq]; simp [hc])
  rw [line_eq]
  unfold w3cLogEntryRegExp
  apply plusLazy_field isDot _ _ _ _ hh.1 d1 hh.2
  apply plusLazy_field isDot _ _ _ _ hi.1 d2 hi.2
  apply plusLazy_field isDot _ _ _ _ ha.1 d3 ha.2
  rw [lit_cons]
  apply timestamp_match _ _ _ _ ⟨ht, d4⟩ hinf
  exact request_match e.request e.status e.bytes ⟨hr, d5⟩ hs hb

theorem word_ne_space (c : Char) (h : isWord c = true) : c ≠ ' ' := by
  intro hc; subst hc; simp [isWord] at h

theorem methodPath_complete (method p proto : Str)
    (hm : method ≠ [] ∧ ∀ c ∈ method, isWord c = true)
    (hp : ∀ c ∈ p, c ≠ ' ' ∧ isDot c = true) :
    methodPathRegExp (method ++ ' ' :: ('/' :: p ++ ' ' :: proto))
      = some (method, '/' :: p) := by
  unfold methodPathRegExp
  apply plusGreedy_all isWord _ method _ _ hm.1 hm.2
  · intro y hy
    simp only [List.head?_cons, Option.mem_def, Option.some.injEq] at hy
    subst hy; rfl
  · rw [lit_cons, List.cons_append, lit_cons]
    rw [starLazy_skip isDot _ p [] (' ' :: proto) (fun c hc => (hp c hc).2)]
    · apply starLazy_hit
      rw [lit_cons]; simp
    · intro u1 u2 hu h2
      cases u2 with
      | nil => exact absurd rfl h2
      | cons y ys =>
        have hy : y ≠ ' ' := (hp y (by simp [hu])).1
        rw [List.cons_append, lit_ne _ _ _ _ hy]

theorem digitChar_val : ∀ k : Nat, k < 10 →
    isDigit (Nat.digitChar k) = true ∧ (Nat.digitChar k).toNat - '0'.toNat = k := by
  decide

theorem foldl_digits (ds : Str) :
    ∀ init : Nat, ds.foldl (fun n c => 10 * n + (c.toNat - '0'.toNat)) init
      = init * 10 ^ ds.length + strconv.digitsVal ds := by
  induction ds with
  | nil => intro init; simp [strconv.digitsVal]
  | cons d ds ih =>
    intro init
    simp only [List.foldl_cons, strconv.digitsVal, List.length_cons]
    rw [ih, ih (10 * 0 + (d.toNat - '0'.toNat))]
    ring

theorem toDigitsCore_val (fuel : Nat) :
    ∀ (n : Nat) (ds : Str), n < fuel → (∀ c ∈ ds, isDigit c = true) →
      (∀ c ∈ Nat.toDigitsCore 10 fuel n ds, isDigit c = true) ∧
      Nat.toDigitsCore 10 fuel n ds ≠ [] ∧
      strconv.digitsVal (Nat.toDigitsCore 10 fuel n ds)
        = n * 10 ^ ds.length + strconv.digitsVal ds := by
  induction fuel with
  | zero => intro n ds h; omega
  | succ fuel ih =>
    intro n ds hn hds
    obtain ⟨hd1, hd2⟩ := digitChar_val (n % 10) (Nat.mod_lt n (by decide))
    have hcons : ∀ c ∈ Nat.digitChar (n % 10) :: ds, isDigit c = true := by
      intro c hc
      rcases List.mem_cons.mp hc with rfl | hc
      · exact hd1
      · exact hds c hc
    have hval : strconv.digitsVal (Nat.digitChar (n % 10) :: ds)
        = (n % 10) * 10 ^ ds.length + strconv.digitsVal ds := by
      simp only [strconv.digitsVal, List.foldl_cons]
      rw [foldl_digits, hd2]
      simp [strconv.digitsVal]
    simp only [Nat.toDigitsCore]
    by_cases h0 : n / 10 = 0
    · simp only [h0, if_true]
      refine ⟨hcons, by simp, ?_⟩
      rw [hval]
      have : n % 10 = n := by omega
      rw [this]
    · simp only [h0, if_false]
      obtain ⟨i1, i2, i3⟩ := ih (n / 10) (Nat.digitChar (n % 10) :: ds) (by omega) hcons
      refine ⟨i1, i2, ?_⟩
      rw [i3, hval, List.length_cons, pow_succ]
      have : n = 10 * (n / 10) + n % 10 := by omega
      conv_rhs => rw [this]
      ring

/-- The decimal numeral of a code is a non-empty string of digits whose value
is the code. -/
theorem decimal_status (c : Nat) :
    Nat.toDigits 10 c ≠ [] ∧ (∀ x ∈ Nat.toDigits 10 c, isDigit x = true) ∧
      strconv.digitsVal (Nat.toDigits 10 c) = c := by
  obtain ⟨h1, h2, h3⟩ := toDigitsCore_val (c + 1) c [] (by omega) (by simp)
  refine ⟨h2, h1, ?_⟩
  simp only [Nat.toDigits]
  rw [h3]; simp [strconv.digitsVal]

theorem take_takeWhile_length (q : Char → Bool) (l : Str) :
    l.take (l.takeWhile q).length = l.takeWhile q := by
  induction l with
  | nil => simp
  | cons x t ih =>
    by_cases hx : q x = true
    · simp [List.takeWhile_cons, hx, ih]
    · simp [List.takeWhile_cons, hx]

theorem section_of_index (p : Str) :
    (if strings.Index p ['/'] = -1 then '/' :: p
      else ('/' :: p).take (strings.Index p ['/'] + 1).toNat)
      = '/' :: p.takeWhile (fun c => c != '/') := by
  rcases index_slash p with ⟨h1, h2⟩ | h1
  · rw [if_pos h1, h2]
  · have hne : strings.Index p ['/'] ≠ -1 := by rw [h1]; omega
    rw [if_neg hne, h1]
    have : (((p.takeWhile (fun c => c != '/')).length : Int) + 1).toNat
        = (p.takeWhile (fun c => c != '/')).length + 1 := by omega
    rw [this, List.take_succ_cons]
    congr 1
    exact take_takeWhile_length _ p

/-- C9, amended: for every line without a newline of the shape
`host ident authuser [timestamp] "METHOD path protocol" status bytes` (the
conditions `Fields` on its fields) whose timestamp does not hold the three
characters `] "` in a row, `NewLogMessageFromLogEntry` succeeds with the method
`METHOD`, the code written by `status` and, as section, the path up to but
excluding its second slash, or the whole path when it has no slash after its
first character: the three nominal lines of the test give `/api`, `/report`
and `/`. -/
theorem parse_shaped_line (StatusText : Int → Str) (e : Entry)
    (hf : e.Fields StatusText) (hnl : ∀ c ∈ e.line, c ≠ '\n')
    (hinf : ¬ ([']', ' ', '"'] <:+: e.timestamp)) :
    NewLogMessageFromLogEntry StatusText e.line
      = (some { Section := e.firstSegment, Method := e.method,
                Code := (strconv.digitsVal e.status : Int) }, none) ∧
    NewLogMessageFromLogEntry http.StatusText nominalEntry.line
      = (some { Section := "/api".toList, Method := "GET".toList, Code := 200 }, none) ∧
    NewLogMessageFromLogEntry http.StatusText reportEntry.line
      = (some { Section := "/report".toList, Method := "GET".toList, Code := 200 }, none) ∧
    NewLogMessageFromLogEntry http.StatusText rootEntry.line
      = (some { Section := "/".toList, Method := "POST".toList, Code := 200 }, none) := by
  refine ⟨?_, by decide, by decide, by decide⟩
  obtain ⟨hh, hi, ha, ht, hm, hp, hs, hb⟩ := hf
  obtain ⟨hs1, hs2, hs3, hs4⟩ := hs
  obtain ⟨p, hpath⟩ : ∃ p, e.path = '/' :: p := by
    cases hpe : e.path with
    | nil => rw [hpe] at hp; simp at hp
    | cons x xs =>
      rw [hpe] at hp
      simp only [List.head?_cons, Option.some.injEq] at hp
      exact ⟨xs, by rw [hp.1]⟩
  have hreq : e.request = e.method ++ ' ' :: ('/' :: p ++ ' ' :: e.protocol) := by
    simp [Entry.request, hpath]
  have hw := w3c_complete e hh hi ha ht hinf (by rw [hreq]; simp) ⟨hs1, hs2⟩ hb hnl
  have hpd : ∀ c ∈ p, c ≠ ' ' ∧ isDot c = true := by
    intro c hc
    refine ⟨hp.2 c (by rw [hpath]; simp [hc]), ?_⟩
    have := hnl c (by rw [line_eq, hreq]; simp [hc])
    simp [isDot, this]
  have hmp := methodPath_complete e.method p e.protocol hm hpd
  have hat := atoi_digits e.status hs1 hs2
  rw [if_pos hs3] at hat
  have hlen : (StatusText (strconv.digitsVal e.status : Int)).length ≠ 0 := by
    intro h0; exact hs4 (List.length_eq_zero.mp h0)
  have hsec : e.firstSegment = '/' :: p.takeWhile (fun c => c != '/') := by
    simp [Entry.firstSegment, hpath]
  have hstr : "/".toList = ['/'] := rfl
  simp only [NewLogMessageFromLogEntry, hw, hat, hlen, if_false, hreq ▸ hmp, hstr,
    List.drop_succ_cons, List.drop_zero]
  rw [hsec, ← section_of_index p]
  by_cases hi : strings.Index p ['/'] = -1
  · simp only [hi, if_true]
  · simp only [hi, if_false]

/-- C9 as stated fails: a line without a newline whose fields meet every
condition of the claim, with the timestamp `a] "b`, is rejected with the error
of the method and path expression; and so is, by the log entry expression, a
string of that shape with a newline inside its timestamp. -/
theorem parse_bracket_timestamp_fails :
    (bracketEntry.Fields http.StatusText ∧ (∀ c ∈ bracketEntry.line, c ≠ '\n') ∧
      NewLogMessageFromLogEntry http.StatusText bracketEntry.line
        = (none, some (error.New "method and path format not matched".toList))) ∧
    (newlineEntry.Fields http.StatusText ∧
      NewLogMessageFromLogEntry http.StatusText newlineEntry.line
        = (none, some (error.New "w3c log entry format not matched".toList))) := by
  refine ⟨⟨?_, ?_, ?_⟩, ?_, ?_⟩
  · unfold Entry.Fields; decide
  · decide
  · decide
  · unfold Entry.Fields; decide
  · decide

/-- C9, amended, at the second nominal line of the parser's test. -/
theorem parse_shaped_line_witness :
    nominalEntry.Fields http.StatusText ∧ (∀ c ∈ nominalEntry.line, c ≠ '\n') ∧
      ¬ ([']', ' ', '"'] <:+: nominalEntry.timestamp) ∧
      NewLogMessageFromLogEntry http.StatusText nominalEntry.line
        = (some { Section := nominalEntry.firstSegment, Method := nominalEntry.method,
                  Code := (strconv.digitsVal nominalEntry.status : Int) }, none) :=
  ⟨by unfold Entry.Fields; decide, by decide, by decide,
    (parse_shaped_line http.StatusText nominalEntry (by unfold Entry.Fields; decide)
      (by decide) (by decide)).1⟩

theorem newLog_ok (StatusText : Int → Str) (str : Str) (msg : LogMessage)
    (err : Option error) (h : NewLogMessageFromLogEntry StatusText str = (some msg, err)) :
    err = none ∧ StatusText msg.Code ≠ [] ∧
      ∃ req code, w3cLogEntryRegExp str = some (req, code) ∧
        strconv.Atoi code = Except.ok msg.Code := by
  unfold NewLogMessageFromLogEntry at h
  cases hw : w3cLogEntryRegExp str with
  | none => simp [hw] at h
  | some m1 =>
    obtain ⟨req, code⟩ := m1
    simp only [hw] at h
    cases hat : strconv.Atoi code with
    | error e => simp [hat] at h
    | ok c =>
      simp only [hat] at h
      by_cases hlen : (StatusText c).length = 0
      · simp [hlen] at h
      · simp only [hlen, if_false] at h
        cases hmp : methodPathRegExp req with
        | none => simp [hmp] at h
        | some m2 =>
          obtain ⟨m, p⟩ := m2
          simp only [hmp] at h
          have hc : msg.Code = c ∧ err = none := by
            split at h <;>
              (simp only [Prod.mk.injEq, Option.some.injEq] at h
               obtain ⟨h1, h2⟩ := h
               exact ⟨by rw [← h1], h2.symm⟩)
          refine ⟨hc.2, ?_, req, code, rfl, by rw [hc.1, hat]⟩
          rw [hc.1]
          intro h0; exact hlen (by rw [h0]; rfl)

theorem newLog_none_err (StatusText : Int → Str) (str : Str) :
    (NewLogMessageFromLogEntry StatusText str).1 = none →
      ∃ err, NewLogMessageFromLogEntry StatusText str = (none, some err) := by
  intro h
  unfold NewLogMessageFromLogEntry at h ⊢
  cases hw : w3cLogEntryRegExp str with
  | none => exact ⟨_, rfl⟩
  | some m1 =>
    obtain ⟨req, code⟩ := m1
    simp only [hw] at h ⊢
    cases hat : strconv.Atoi code with
    | error e => exact ⟨_, rfl⟩
    | ok c =>
      simp only [hat] at h ⊢
      by_cases hlen : (StatusText c).length = 0
      · simp only [hlen, if_true]; exact ⟨_, rfl⟩
      · simp only [hlen, if_false] at h ⊢
        cases hmp : methodPathRegExp req with
        | none => exact ⟨_, rfl⟩
        | some m2 =>
          obtain ⟨m, p⟩ := m2
          simp only [hmp] at h
          split at h <;> simp at h

/-- C10: every record that `NewLogMessageFromLogEntry` returns comes without an
error and carries a code with a non-empty status text, which is the value of
the digits of the status field of the line; every line whose status field,
the last but one of its fields between spaces, does not convert to a code with
a status text is rejected with an error; and the line of the test with the
status 999 is rejected as an unknown code. -/
theorem unregistered_status_rejected (StatusText : Int → Str) (str : Str) :
    (∀ (msg : LogMessage) (err : Option error),
      NewLogMessageFromLogEntry StatusText str = (some msg, err) →
        err = none ∧ StatusText msg.Code ≠ [] ∧
        ∃ pre status bytes, str = pre ++ [' '] ++ status ++ [' '] ++ bytes ∧
          (status ≠ [] ∧ ∀ c ∈ status, isDigit c = true) ∧
          (bytes ≠ [] ∧ ∀ c ∈ bytes, isDigit c = true) ∧
          strconv.Atoi status = Except.ok msg.Code) ∧
    (∀ (pre status bytes : Str), str = pre ++ [' '] ++ status ++ [' '] ++ bytes →
      (∀ c ∈ status, c ≠ ' ') → (∀ c ∈ bytes, c ≠ ' ') →
      (∀ code, strconv.Atoi status = Except.ok code → StatusText code = []) →
      ∃ err, NewLogMessageFromLogEntry StatusText str = (none, some err)) ∧
    NewLogMessageFromLogEntry http.StatusText wrongCodeLine
      = (none, some (error.New "unknown http code".toList)) := by
  have hpos : ∀ (msg : LogMessage) (err : Option error),
      NewLogMessageFromLogEntry StatusText str = (some msg, err) →
        err = none ∧ StatusText msg.Code ≠ [] ∧
        ∃ pre status bytes, str = pre ++ [' '] ++ status ++ [' '] ++ bytes ∧
          (status ≠ [] ∧ ∀ c ∈ status, isDigit c = true) ∧
          (bytes ≠ [] ∧ ∀ c ∈ bytes, isDigit c = true) ∧
          strconv.Atoi status = Except.ok msg.Code := by
    intro msg err h
    obtain ⟨h1, h2, req, code, hw, hat⟩ := newLog_ok StatusText str msg err h
    obtain ⟨a, b, c, t, n, hdec, _, _, _, _, _, hcode, hn⟩ := w3c_sound str req code hw
    refine ⟨h1, h2, a ++ ' ' :: (b ++ ' ' :: (c ++ ' ' :: '[' :: (t ++ ']' :: ' ' :: '"' ::
      (req ++ ['"'])))), code, n, ?_, hcode, hn, hat⟩
    rw [hdec]; simp
  refine ⟨hpos, ?_, by decide⟩
  intro pre status bytes hstr hs hb hreg
  apply newLog_none_err
  cases hres : (NewLogMessageFromLogEntry StatusText str).1 with
  | none => rfl
  | some msg =>
    exfalso
    have hfull : NewLogMessageFromLogEntry StatusText str
        = (some msg, (NewLogMessageFromLogEntry StatusText str).2) := by
      rw [← hres]
    obtain ⟨_, h2, pre1, status1, bytes1, hdec, hs1, hb1, hat⟩ := hpos msg _ hfull
    have e1 : (pre ++ ' ' :: status) ++ ' ' :: bytes
        = (pre1 ++ ' ' :: status1) ++ ' ' :: bytes1 := by
      have h3 : str = (pre ++ ' ' :: status) ++ ' ' :: bytes := by rw [hstr]; simp
      have h4 : str = (pre1 ++ ' ' :: status1) ++ ' ' :: bytes1 := by rw [hdec]; simp
      rw [← h3, ← h4]
    obtain ⟨e2, _⟩ := split_unique _ _ _ _ hb
      (fun c hc => digit_ne_space c (hb1.2 c hc)) e1
    obtain ⟨_, e4⟩ := split_unique _ _ _ _ hs
      (fun c hc => digit_ne_space c (hs1.2 c hc)) e2
    rw [← e4] at hat
    exact h2 (hreg _ hat)

/-- C10 at two lines of the parser's test: the nominal line, whose status 200
is registered, and the line with the status 999. -/
theorem unregistered_status_rejected_witness :
    (∃ msg, NewLogMessageFromLogEntry http.StatusText nominalEntry.line = (some msg, none) ∧
      http.StatusText msg.Code ≠ []) ∧
    (∃ err, NewLogMessageFromLogEntry http.StatusText wrongCodeLine = (none, some err)) :=
  ⟨⟨{ Section := "/api".toList, Method := "GET".toList, Code := 200 }, by decide,
      ((unregistered_status_rejected http.StatusText nominalEntry.line).1 _ none
        (by decide)).2.1⟩,
    (unregistered_status_rejected http.StatusText wrongCodeLine).2.1
      wrongCodePrefix "999".toList "12".toList (by decide) (by decide) (by decide)
      (fun code h => by
        have h1 : strconv.Atoi "999".toList = Except.ok 999 := rfl
        rw [h1] at h
        cases h
        decide)⟩

end collector

/-! ## Theorems on the request and the fields of a line -/

namespace regexp

theorem starLazy_first {α : Type} (p : Char → Bool) (k : Str → Str → Option α) (s : Str) :
    ∀ (acc : Str) (r : α), starLazy p k acc s = some r →
      ∃ u rest, s = u ++ rest ∧ (∀ c ∈ u, p c = true) ∧ k (acc ++ u) rest = some r ∧
        ∀ u1 u2, u = u1 ++ u2 → u2 ≠ [] → k (acc ++ u1) (u2 ++ rest) = none := by
  induction s with
  | nil =>
    intro acc r h
    refine ⟨[], [], rfl, by simp, by simpa [starLazy] using h, ?_⟩
    intro u1 u2 hu hne
    cases u1 with
    | nil => exact absurd (by simpa using hu.symm) hne
    | cons y ys => simp at hu
  | cons x xs ih =>
    intro acc r h
    rw [starLazy_cons] at h
    cases hk : k acc (x :: xs) with
    | some r1 =>
      simp only [hk, Option.some.injEq] at h
      subst h
      refine ⟨[], x :: xs, rfl, by simp, by simpa using hk, ?_⟩
      intro u1 u2 hu hne
      cases u1 with
      | nil => exact absurd (by simpa using hu.symm) hne
      | cons y ys => simp at hu
    | none =>
      simp only [hk] at h
      by_cases hx : p x = true
      · simp only [hx, if_true] at h
        obtain ⟨u, rest, hs, hp, hr, hmin⟩ := ih _ _ h
        refine ⟨x :: u, rest, by simp [hs], ?_, by simpa using hr, ?_⟩
        · intro c hc
          rcases List.mem_cons.mp hc with rfl | hc
          · exact hx
          · exact hp c hc
        · intro u1 u2 hu hne
          cases u1 with
          | nil =>
            simp only [List.nil_append] at hu
            subst hu
            simpa [hs] using hk
          | cons y ys =>
            simp only [List.cons_append, List.cons.injEq] at hu
            obtain ⟨hy, hu⟩ := hu
            subst hy
            have := hmin ys u2 hu hne
            simpa using this
      · simp [hx] at h

end regexp

namespace collector

open regexp

theorem methodPath_sound (r m path : Str) (h : methodPathRegExp r = some (m, path)) :
    ∃ p rest, r = m ++ ' ' :: '/' :: (p ++ ' ' :: rest) ∧ path = '/' :: p ∧
      (m ≠ [] ∧ ∀ c ∈ m, isWord c = true) ∧ ∀ c ∈ p, c ≠ ' ' ∧ isDot c = true := by
  unfold methodPathRegExp at h
  obtain ⟨u, r1, rfl, hu, hpu, h1⟩ := plusGreedy_sound _ _ _ _ h
  obtain ⟨r2, rfl, h2⟩ := lit_sound _ _ _ _ h1
  obtain ⟨r3, rfl, h3⟩ := lit_sound _ _ _ _ h2
  obtain ⟨p, r4, rfl, hpp, h4, hmin⟩ := starLazy_first _ _ _ _ _ h3
  obtain ⟨rest, rfl, h5⟩ := lit_sound _ _ _ _ h4
  simp only [List.nil_append, Option.some.injEq, Prod.mk.injEq] at h5
  obtain ⟨rfl, rfl⟩ := h5
  refine ⟨p, rest, rfl, rfl, ⟨hu, hpu⟩, ?_⟩
  intro c hc
  refine ⟨?_, hpp c hc⟩
  obtain ⟨u1, u2, rfl⟩ := List.append_of_mem hc
  intro hsp
  subst hsp
  have := hmin u1 (' ' :: u2) rfl (by simp)
  simp [lit] at this

theorem newLog_inv (StatusText : Int → Str) (str : Str) (msg : LogMessage)
    (err : Option error) (h : NewLogMessageFromLogEntry StatusText str = (some msg, err)) :
    ∃ req code path, w3cLogEntryRegExp str = some (req, code) ∧
      strconv.Atoi code = Except.ok msg.Code ∧
      methodPathRegExp req = some (msg.Method, path) ∧
      msg.Section = (if strings.Index (path.drop 1) "/".toList = -1 then path
        else path.take (strings.Index (path.drop 1) "/".toList + 1).toNat) := by
  unfold NewLogMessageFromLogEntry at h
  cases hw : w3cLogEntryRegExp str with
  | none => simp [hw] at h
  | some m1 =>
    obtain ⟨req, code⟩ := m1
    simp only [hw] at h
    cases hat : strconv.Atoi code with
    | error e => simp [hat] at h
    | ok c =>
      simp only [hat] at h
      by_cases hlen : (StatusText c).length = 0
      · simp [hlen] at h
      · simp only [hlen, if_false] at h
        cases hmp : methodPathRegExp req with
        | none => simp [hmp] at h
        | some m2 =>
          obtain ⟨m, p⟩ := m2
          simp only [hmp] at h
          refine ⟨req, code, p, rfl, ?_, ?_, ?_⟩
          · split at h <;>
              (simp only [Prod.mk.injEq, Option.some.injEq] at h
               rw [← h.1]; exact hat)
          · split at h <;>
              (simp only [Prod.mk.injEq, Option.some.injEq] at h
               rw [← h.1]; exact hmp)
          · split at h
            · rename_i hi
              simp only [Prod.mk.injEq, Option.some.injEq] at h
              rw [← h.1]; simp only [hi, if_true]
            · rename_i hi
              simp only [Prod.mk.injEq, Option.some.injEq] at h
              rw [← h.1]; simp only [hi, if_false]

theorem newLog_some (StatusText : Int → Str) (str : Str)
    (h : (NewLogMessageFromLogEntry StatusText str).1 ≠ none) :
    ∃ msg, NewLogMessageFromLogEntry StatusText str = (some msg, none) := by
  cases hres : (NewLogMessageFromLogEntry StatusText str).1 with
  | none => exact absurd hres h
  | some msg =>
    have hfull : NewLogMessageFromLogEntry StatusText str
        = (some msg, (NewLogMessageFromLogEntry StatusText str).2) := by
      rw [← hres]
    have h1 := (newLog_ok StatusText str msg _ hfull).1
    rw [h1] at hfull
    exact ⟨msg, hfull⟩

/-- C11: a record that `NewLogMessageFromLogEntry` returns comes without an
error, from a line whose quoted request is followed by the status and the byte
count and has the form of a non-empty method of word characters, a space, a
path that begins with a slash and has no space, a space and a rest; a call
that returns no record returns an error; hence the line is rejected with an
error when the expression of the line finds no request, when the request that
it finds has not that form, when the line has no quote, and when the request
between the quotes is empty; the lines of the test with an empty request and
with no request are rejected, and so is a line with the request
`GET /report`, which has no protocol part. -/
theorem request_malformed_rejected (StatusText : Int → Str) (str : Str) :
    (∀ (msg : LogMessage) (err : Option error),
      NewLogMessageFromLogEntry StatusText str = (some msg, err) →
        err = none ∧
        ∃ pre p rest status bytes,
          str = pre ++ ['"'] ++ (msg.Method ++ [' ', '/'] ++ p ++ [' '] ++ rest) ++ ['"', ' ']
            ++ status ++ [' '] ++ bytes ∧
          w3cLogEntryRegExp str = some (msg.Method ++ [' ', '/'] ++ p ++ [' '] ++ rest, status) ∧
          (msg.Method ≠ [] ∧ ∀ c ∈ msg.Method, isWord c = true) ∧
          (∀ c ∈ p, c ≠ ' ') ∧
          (status ≠ [] ∧ ∀ c ∈ status, isDigit c = true) ∧
          (bytes ≠ [] ∧ ∀ c ∈ bytes, isDigit c = true)) ∧
    ((NewLogMessageFromLogEntry StatusText str).1 = none →
      ∃ err, NewLogMessageFromLogEntry StatusText str = (none, some err)) ∧
    (w3cLogEntryRegExp str = none →
      NewLogMessageFromLogEntry StatusText str
        = (none, some (error.New "w3c log entry format not matched".toList))) ∧
    (∀ (req status : Str), w3cLogEntryRegExp str = some (req, status) →
      (¬ ∃ m p rest, req = m ++ [' ', '/'] ++ p ++ [' '] ++ rest ∧
        m ≠ [] ∧ (∀ c ∈ m, isWord c = true) ∧ ∀ c ∈ p, c ≠ ' ') →
      ∃ err, NewLogMessageFromLogEntry StatusText str = (none, some err)) ∧
    ((∀ c ∈ str, c ≠ '"') →
      ∃ err, NewLogMessageFromLogEntry StatusText str = (none, some err)) ∧
    (∀ (pre status bytes : Str), str = pre ++ ['"', '"', ' '] ++ status ++ [' '] ++ bytes →
      (∀ c ∈ pre, c ≠ '"') → (∀ c ∈ status, c ≠ ' ') → (∀ c ∈ bytes, c ≠ ' ') →
      ∃ err, NewLogMessageFromLogEntry StatusText str = (none, some err)) ∧
    NewLogMessageFromLogEntry http.StatusText
        "127.0.0.1 - - [09/May/2018:16:00:42 +0000] \"\" 200 12".toList
      = (none, some (error.New "w3c log entry format not matched".toList)) ∧
    NewLogMessageFromLogEntry http.StatusText
        "127.0.0.1 - mary [09/May/2018:16:00:42 +0000] 200 12".toList
      = (none, some (error.New "w3c log entry format not matched".toList)) ∧
    NewLogMessageFromLogEntry http.StatusText
        "127.0.0.1 - james [09/May/2018:16:00:39 +0000] \"GET /report\" 200 123".toList
      = (none, some (error.New "method and path format not matched".toList)) := by
  have hpos : ∀ (msg : LogMessage) (err : Option error),
      NewLogMessageFromLogEntry StatusText str = (some msg, err) →
        err = none ∧
        ∃ pre p rest status bytes,
          str = pre ++ ['"'] ++ (msg.Method ++ [' ', '/'] ++ p ++ [' '] ++ rest) ++ ['"', ' ']
            ++ status ++ [' '] ++ bytes ∧
          w3cLogEntryRegExp str = some (msg.Method ++ [' ', '/'] ++ p ++ [' '] ++ rest, status) ∧
          (msg.Method ≠ [] ∧ ∀ c ∈ msg.Method, isWord c = true) ∧
          (∀ c ∈ p, c ≠ ' ') ∧
          (status ≠ [] ∧ ∀ c ∈ status, isDigit c = true) ∧
          (bytes ≠ [] ∧ ∀ c ∈ bytes, isDigit c = true) := by
    intro msg err h
    obtain ⟨req, code, path, hw, _, hmp, _⟩ := newLog_inv StatusText str msg err h
    obtain ⟨p, rest, hreq, _, hm, hp⟩ := methodPath_sound req msg.Method path hmp
    obtain ⟨a, b, c, t, n, hdec, _, _, _, _, _, hcode, hn⟩ := w3c_sound str req code hw
    have hreq2 : req = msg.Method ++ [' ', '/'] ++ p ++ [' '] ++ rest := by
      rw [hreq]; simp
    refine ⟨(newLog_ok StatusText str msg err h).1,
      a ++ ' ' :: (b ++ ' ' :: (c ++ ' ' :: '[' :: (t ++ [']', ' ']))), p, rest, code, n,
      ?_, ?_, hm, fun x hx => (hp x hx).1, hcode, hn⟩
    · rw [← hreq2, hdec]; simp
    · rw [← hreq2, hw]
  have hneg : ∀ (P : Prop), (∀ (msg : LogMessage),
      NewLogMessageFromLogEntry StatusText str = (some msg, none) → P → False) → P →
      ∃ err, NewLogMessageFromLogEntry StatusText str = (none, some err) := by
    intro P hP hp
    apply newLog_none_err
    by_contra hne
    obtain ⟨msg, hmsg⟩ := newLog_some StatusText str hne
    exact hP msg hmsg hp
  refine ⟨hpos, newLog_none_err StatusText str, ?_, ?_, ?_, ?_, by decide, by decide,
    by decide⟩
  · intro hw
    unfold NewLogMessageFromLogEntry
    rw [hw]
  · intro req status hw hform
    refine hneg _ ?_ hform
    intro msg hmsg hf
    obtain ⟨_, pre, p, rest, st, n, _, hw2, hm, hp, _, _⟩ := hpos msg none hmsg
    rw [hw] at hw2
    simp only [Option.some.injEq, Prod.mk.injEq] at hw2
    exact hf ⟨msg.Method, p, rest, hw2.1, hm.1, hm.2, hp⟩
  · intro hq
    refine hneg _ ?_ hq
    intro msg hmsg hq2
    obtain ⟨_, pre, p, rest, st, n, hdec, _⟩ := hpos msg none hmsg
    exact hq2 '"' (by rw [hdec]; simp) rfl
  · intro pre status bytes hstr hpre hs hb
    refine hneg _ ?_ hpre
    intro msg hmsg hpre2
    obtain ⟨_, pre1, p, rest, st, n, hdec, _, _, _, hst, hn⟩ := hpos msg none hmsg
    have e1 : (pre ++ '"' :: '"' :: ' ' :: status) ++ ' ' :: bytes
        = (pre1 ++ '"' :: (msg.Method ++ ' ' :: '/' :: (p ++ ' ' :: (rest ++ '"' :: ' ' :: st))))
          ++ ' ' :: n := by
      have h3 : str = (pre ++ '"' :: '"' :: ' ' :: status) ++ ' ' :: bytes := by
        rw [hstr]; simp
      have h4 : str = (pre1 ++ '"' :: (msg.Method ++ ' ' :: '/' :: (p ++ ' ' ::
          (rest ++ '"' :: ' ' :: st)))) ++ ' ' :: n := by rw [hdec]; simp
      rw [← h3, ← h4]
    obtain ⟨e2, _⟩ := split_unique _ _ _ _ hb
      (fun c hc => digit_ne_space c (hn.2 c hc)) e1
    have e3 : (pre ++ ['"', '"']) ++ ' ' :: status
        = (pre1 ++ '"' :: (msg.Method ++ ' ' :: '/' :: (p ++ ' ' :: (rest ++ ['"']))))
          ++ ' ' :: st := by
      simpa using e2
    obtain ⟨e4, _⟩ := split_unique _ _ _ _ hs
      (fun c hc => digit_ne_space c (hst.2 c hc)) e3
    have e5 : (pre ++ ['"']) ++ ['"']
        = (pre1 ++ '"' :: (msg.Method ++ ' ' :: '/' :: (p ++ ' ' :: rest))) ++ ['"'] := by
      simpa using e4
    have e6 := List.append_cancel_right e5
    have e7 : pre ++ ['"'] = (pre1 ++ '"' :: (msg.Method ++ ' ' :: '/' :: p)) ++ ' ' :: rest := by
      simpa using e6
    rcases List.eq_nil_or_concat rest with hr | ⟨r0, x, hr⟩
    · subst hr
      have e8 : pre ++ ['"'] = (pre1 ++ '"' :: (msg.Method ++ ' ' :: '/' :: p)) ++ [' '] := e7
      have := (List.append_inj' e8 rfl).2
      simp at this
    · subst hr
      have e8 : pre ++ ['"'] = (pre1 ++ '"' :: (msg.Method ++ ' ' :: '/' :: (p ++ ' ' :: r0)))
          ++ [x] := by
        rw [e7]; simp
      have e9 := (List.append_inj' e8 rfl).1
      exact hpre2 '"' (by rw [e9]; simp) rfl

/-- C12: a record is returned only for a line of the form
`a b c [t] "r" s n` with `a`, `b`, `c`, `t` and `r` non-empty and with `s` and
`n` non-empty strings of decimal digits; hence a line that has not this form
is rejected with an error, and so are the lines of the test that miss the
status, the host, the ident, the authuser, the text of the timestamp, the
timestamp or the byte count. -/
theorem success_decomposes (StatusText : Int → Str) (str : Str) :
    (∀ (msg : LogMessage) (err : Option error),
      NewLogMessageFromLogEntry StatusText str = (some msg, err) →
        ∃ a b c t r s n,
          str = a ++ [' '] ++ b ++ [' '] ++ c ++ [' ', '['] ++ t ++ [']', ' ', '"'] ++ r
            ++ ['"', ' '] ++ s ++ [' '] ++ n ∧
          a ≠ [] ∧ b ≠ [] ∧ c ≠ [] ∧ t ≠ [] ∧ r ≠ [] ∧
          (s ≠ [] ∧ ∀ x ∈ s, isDigit x = true) ∧ (n ≠ [] ∧ ∀ x ∈ n, isDigit x = true)) ∧
    ((¬ ∃ a b c t r s n,
          str = a ++ [' '] ++ b ++ [' '] ++ c ++ [' ', '['] ++ t ++ [']', ' ', '"'] ++ r
            ++ ['"', ' '] ++ s ++ [' '] ++ n ∧
          a ≠ [] ∧ b ≠ [] ∧ c ≠ [] ∧ t ≠ [] ∧ r ≠ [] ∧
          (s ≠ [] ∧ ∀ x ∈ s, isDigit x = true) ∧ (n ≠ [] ∧ ∀ x ∈ n, isDigit x = true)) →
      ∃ err, NewLogMessageFromLogEntry StatusText str = (none, some err)) ∧
    (∀ l ∈ ["127.0.0.1 - mary [09/May/2018:16:00:42 +0000] \"GET /api/user HTTP/1.0\" 12",
          "- mary [09/May/2018:16:00:42 +0000] \"GET /api/user HTTP/1.0\" 200 12",
          "127.0.0.1 mary [09/May/2018:16:00:42 +0000] \"GET /api/user HTTP/1.0\" 200 12",
          "127.0.0.1 - [09/May/2018:16:00:42 +0000] \"GET /api/user HTTP/1.0\" 200 12",
          "127.0.0.1 - mary [] \"GET /api/user HTTP/1.0\" 200 12",
          "127.0.0.1 - - \"GET /api/user HTTP/1.0\" 200 12",
          "127.0.0.1 - mary [09/May/2018:16:00:42 +0000] \"GET /api/user HTTP/1.0\" 200"],
      NewLogMessageFromLogEntry http.StatusText l.toList
        = (none, some (error.New "w3c log entry format not matched".toList))) := by
  have hpos : ∀ (msg : LogMessage) (err : Option error),
      NewLogMessageFromLogEntry StatusText str = (some msg, err) →
        ∃ a b c t r s n,
          str = a ++ [' '] ++ b ++ [' '] ++ c ++ [' ', '['] ++ t ++ [']', ' ', '"'] ++ r
            ++ ['"', ' '] ++ s ++ [' '] ++ n ∧
          a ≠ [] ∧ b ≠ [] ∧ c ≠ [] ∧ t ≠ [] ∧ r ≠ [] ∧
          (s ≠ [] ∧ ∀ x ∈ s, isDigit x = true) ∧ (n ≠ [] ∧ ∀ x ∈ n, isDigit x = true) := by
    intro msg err h
    obtain ⟨_, _, req, code, hw, _⟩ := newLog_ok StatusText str msg err h
    obtain ⟨a, b, c, t, n, hdec, ha, hb, hc, ht, hr, hcode, hn⟩ := w3c_sound str req code hw
    exact ⟨a, b, c, t, req, code, n, by rw [hdec]; simp, ha.1, hb.1, hc.1, ht.1, hr.1, hcode, hn⟩
  refine ⟨hpos, ?_, by decide⟩
  intro hno
  apply newLog_none_err
  by_contra hne
  obtain ⟨msg, hmsg⟩ := newLog_some StatusText str hne
  exact hno (hpos msg none hmsg)

end collector

/-! ## Theorems on maps and on the counters of the summary -/

theorem Map.lookup_cons_self (k : Str) (b : Int) (m : Map) :
    List.lookup k ((k, b) :: m) = some b := by
  simp [List.lookup]

theorem Map.lookup_cons_ne (k a : Str) (b : Int) (m : Map) (h : k ≠ a) :
    List.lookup k ((a, b) :: m) = List.lookup k m := by
  have h2 : (k == a) = false := by simpa using h
  simp [List.lookup, h2]

theorem Map.lookup_map_set (k : Str) (v : Int) (k1 : Str) (m : Map) :
    List.lookup k1 (m.map (fun p => if p.1 = k then (k, v) else p))
      = if k1 = k then (if m.any (fun p => p.1 == k) then some v else none)
        else List.lookup k1 m := by
  induction m with
  | nil => simp
  | cons p m ih =>
    obtain ⟨a, b⟩ := p
    rw [List.map_cons]
    by_cases hak : a = k
    · subst hak
      rw [if_pos rfl]
      by_cases h1 : k1 = a
      · subst h1
        rw [Map.lookup_cons_self]
        simp
      · rw [Map.lookup_cons_ne _ _ _ _ h1, ih, if_neg h1, if_neg h1,
          Map.lookup_cons_ne _ _ _ _ h1]
    · rw [if_neg hak]
      by_cases h1 : k1 = k
      · subst h1
        rw [Map.lookup_cons_ne _ _ _ _ (fun h => hak h.symm), ih]
        have h3 : (a == k1) = false := by simpa using hak
        simp only [if_true, List.any_cons, h3, Bool.false_or]
      · rw [if_neg h1]
        by_cases h4 : k1 = a
        · subst h4
          rw [Map.lookup_cons_self, Map.lookup_cons_self]
        · rw [Map.lookup_cons_ne _ _ _ _ h4, Map.lookup_cons_ne _ _ _ _ h4, ih, if_neg h1]

theorem Map.lookup_none (k : Str) (m : Map) (h : m.any (fun p => p.1 == k) = false) :
    List.lookup k m = none := by
  induction m with
  | nil => rfl
  | cons p m ih =>
    obtain ⟨a, b⟩ := p
    simp only [List.any_cons, Bool.or_eq_false_iff] at h
    have h2 : k ≠ a := by
      have := h.1
      simp only [beq_eq_false_iff_ne, ne_eq] at this
      exact fun e => this e.symm
    rw [Map.lookup_cons_ne _ _ _ _ h2]
    exact ih h.2

theorem Map.lookup_snoc (k : Str) (v : Int) (k1 : Str) (m : Map) :
    List.lookup k1 (m ++ [(k, v)])
      = match List.lookup k1 m with
        | some x => some x
        | none => if k1 = k then some v else none := by
  induction m with
  | nil =>
    by_cases h : k1 = k
    · subst h
      rw [List.nil_append, Map.lookup_cons_self]
      simp
    · rw [List.nil_append, Map.lookup_cons_ne _ _ _ _ h]
      simp [h]
  | cons p m ih =>
    obtain ⟨a, b⟩ := p
    rw [List.cons_append]
    by_cases h : k1 = a
    · subst h
      rw [Map.lookup_cons_self, Map.lookup_cons_self]
    · rw [Map.lookup_cons_ne _ _ _ _ h, Map.lookup_cons_ne _ _ _ _ h, ih]

theorem Map.get_set (m : Map) (k : Str) (v : Int) (k1 : Str) :
    (m.set k v).get k1 = if k1 = k then v else m.get k1 := by
  unfold Map.set Map.get
  by_cases hany : m.any (fun p => p.1 == k) = true
  · simp only [hany, if_true, Map.lookup_map_set]
    by_cases h : k1 = k
    · simp [h]
    · simp [h]
  · have hany2 : m.any (fun p => p.1 == k) = false := (Bool.not_eq_true _).mp hany
    simp only [hany2, Bool.false_eq_true, if_false, Map.lookup_snoc]
    by_cases h : k1 = k
    · subst h
      simp [Map.lookup_none k1 m hany2]
    · simp only [h, if_false]
      cases List.lookup k1 m <;> rfl

theorem Map.get_inc (m : Map) (k k1 : Str) :
    (m.inc k).get k1 = if k1 = k then m.get k + 1 else m.get k1 := by
  unfold Map.inc
  rw [Map.get_set]

theorem Map.get_nil (k : Str) : Map.get [] k = 0 := rfl

namespace collector

theorem add_counts (s : Summary) (m : LogMessage) :
    (s.Add m).Sum.get hitsKey = s.Sum.get hitsKey + 1 ∧
    (s.Add m).Sum.get successKey
      = s.Sum.get successKey + (if m.Code.tdiv 100 = 2 then 1 else 0) ∧
    (s.Add m).Sum.get redirectKey
      = s.Sum.get redirectKey + (if m.Code.tdiv 100 = 3 then 1 else 0) ∧
    (s.Add m).Sum.get errorsKey
      = s.Sum.get errorsKey + (if m.Code.tdiv 100 = 4 ∨ m.Code.tdiv 100 = 5 then 1 else 0) := by
  have k1 : hitsKey ≠ successKey := by decide
  have k2 : hitsKey ≠ redirectKey := by decide
  have k3 : hitsKey ≠ errorsKey := by decide
  have k4 : successKey ≠ redirectKey := by decide
  have k5 : successKey ≠ errorsKey := by decide
  have k6 : redirectKey ≠ errorsKey := by decide
  unfold Summary.Add
  by_cases h5 : m.Code.tdiv 100 = 5
  · simp [h5, Map.get_inc, k1, k2, k3, k4, k5, k6, k1.symm, k2.symm, k3.symm, k4.symm, k5.symm,
      k6.symm]
  · by_cases h4 : m.Code.tdiv 100 = 4
    · simp [h4, Map.get_inc, k1, k2, k3, k4, k5, k6, k1.symm, k2.symm, k3.symm, k4.symm,
        k5.symm, k6.symm]
    · by_cases h3 : m.Code.tdiv 100 = 3
      · simp [h3, Map.get_inc, k1, k2, k3, k4, k5, k6, k1.symm, k2.symm, k3.symm, k4.symm,
          k5.symm, k6.symm]
      · by_cases h2 : m.Code.tdiv 100 = 2
        · simp [h2, Map.get_inc, k1, k2, k3, k4, k5, k6, k1.symm, k2.symm, k3.symm, k4.symm,
            k5.symm, k6.symm]
        · simp [h2, h3, h4, h5, Map.get_inc, k1, k2, k3, k4, k5, k6, k1.symm, k2.symm, k3.symm,
            k4.symm, k5.symm, k6.symm]

theorem addAll_counts (ms : List LogMessage) : ∀ (s : Summary),
    (s.addAll ms).Sum.get hitsKey = s.Sum.get hitsKey + ms.length ∧
    (s.addAll ms).Sum.get successKey
      = s.Sum.get successKey + ms.countP (fun m => decide (m.Code.tdiv 100 = 2)) ∧
    (s.addAll ms).Sum.get redirectKey
      = s.Sum.get redirectKey + ms.countP (fun m => decide (m.Code.tdiv 100 = 3)) ∧
    (s.addAll ms).Sum.get errorsKey
      = s.Sum.get errorsKey
        + ms.countP (fun m => decide (m.Code.tdiv 100 = 4 ∨ m.Code.tdiv 100 = 5)) := by
  induction ms with
  | nil => intro s; simp [Summary.addAll]
  | cons m ms ih =>
    intro s
    obtain ⟨a1, a2, a3, a4⟩ := add_counts s m
    obtain ⟨b1, b2, b3, b4⟩ := ih (s.Add m)
    simp only [Summary.addAll, List.length_cons, List.countP_cons, decide_eq_true_eq]
    rw [b1, b2, b3, b4, a1, a2, a3, a4]
    refine ⟨by push_cast; ring, ?_, ?_, ?_⟩
    · split <;> (push_cast; ring)
    · split <;> (push_cast; ring)
    · split <;> (push_cast; ring)

theorem class_partition (ms : List LogMessage) :
    ms.length = ms.countP (fun m => decide (m.Code.tdiv 100 = 2))
      + ms.countP (fun m => decide (m.Code.tdiv 100 = 3))
      + ms.countP (fun m => decide (m.Code.tdiv 100 = 4 ∨ m.Code.tdiv 100 = 5))
      + ms.countP (fun m => decide (m.Code.tdiv 100 ∉ [2, 3, 4, 5])) := by
  induction ms with
  | nil => rfl
  | cons m ms ih =>
    simp only [List.length_cons, List.countP_cons, decide_eq_true_eq]
    rw [ih]
    by_cases h2 : m.Code.tdiv 100 = 2
    · simp [h2]; omega
    · by_cases h3 : m.Code.tdiv 100 = 3
      · simp [h3]; omega
      · by_cases h4 : m.Code.tdiv 100 = 4
        · simp [h4]; omega
        · by_cases h5 : m.Code.tdiv 100 = 5
          · simp [h5]; omega
          · simp [h2, h3, h4, h5]; omega

/-- C13: after any sequence of records added to a fresh summary, the number of
hits is the number of records and is the sum of the numbers of successes,
redirects and errors and of the number of records whose status class is none
of 2, 3, 4 and 5, where the successes, the redirects and the errors are the
records of the class 2, of the class 3 and of the classes 4 and 5; when every
code is between 200 and 599 the hits are the sum of the three counters; the
ten records of the test give 10 = 7 + 1 + 2. -/
theorem hits_partition (top : Int) (ms : List LogMessage) :
    ((NewSummary top).addAll ms).Sum.get hitsKey
      = ((NewSummary top).addAll ms).Sum.get successKey
        + ((NewSummary top).addAll ms).Sum.get redirectKey
        + ((NewSummary top).addAll ms).Sum.get errorsKey
        + ms.countP (fun m => decide (m.Code.tdiv 100 ∉ [2, 3, 4, 5])) ∧
    ((NewSummary top).addAll ms).Sum.get hitsKey = ms.length ∧
    ((NewSummary top).addAll ms).Sum.get successKey
      = ms.countP (fun m => decide (m.Code.tdiv 100 = 2)) ∧
    ((NewSummary top).addAll ms).Sum.get redirectKey
      = ms.countP (fun m => decide (m.Code.tdiv 100 = 3)) ∧
    ((NewSummary top).addAll ms).Sum.get errorsKey
      = ms.countP (fun m => decide (m.Code.tdiv 100 = 4 ∨ m.Code.tdiv 100 = 5)) ∧
    ((∀ m ∈ ms, 200 ≤ m.Code ∧ m.Code ≤ 599) →
      ((NewSummary top).addAll ms).Sum.get hitsKey
        = ((NewSummary top).addAll ms).Sum.get successKey
          + ((NewSummary top).addAll ms).Sum.get redirectKey
          + ((NewSummary top).addAll ms).Sum.get errorsKey) ∧
    (testSummary.Sum.get hitsKey = 10 ∧ testSummary.Sum.get successKey = 7 ∧
      testSummary.Sum.get redirectKey = 1 ∧ testSummary.Sum.get errorsKey = 2) := by
  obtain ⟨b1, b2, b3, b4⟩ := addAll_counts ms (NewSummary top)
  have z : ∀ k, (NewSummary top).Sum.get k = 0 := fun k => rfl
  rw [z, zero_add] at b1 b2 b3 b4
  have hp := class_partition ms
  have hsum : ((NewSummary top).addAll ms).Sum.get hitsKey
      = ((NewSummary top).addAll ms).Sum.get successKey
        + ((NewSummary top).addAll ms).Sum.get redirectKey
        + ((NewSummary top).addAll ms).Sum.get errorsKey
        + ms.countP (fun m => decide (m.Code.tdiv 100 ∉ [2, 3, 4, 5])) := by
    rw [b1, b2, b3, b4, hp]; push_cast; ring
  refine ⟨hsum, b1, b2, b3, b4, ?_, by decide⟩
  intro hall
  have h0 : ms.countP (fun m => decide (m.Code.tdiv 100 ∉ [2, 3, 4, 5])) = 0 := by
    rw [List.countP_eq_zero]
    intro m hm
    obtain ⟨h1, h2⟩ := hall m hm
    simp only [decide_eq_true_eq, not_not]
    have h3 : 2 ≤ m.Code.tdiv 100 := by
      rw [Int.tdiv_eq_ediv (by omega) (by omega)]; omega
    have h4 : m.Code.tdiv 100 ≤ 5 := by
      rw [Int.tdiv_eq_ediv (by omega) (by omega)]; omega
    have : m.Code.tdiv 100 = 2 ∨ m.Code.tdiv 100 = 3 ∨ m.Code.tdiv 100 = 4
        ∨ m.Code.tdiv 100 = 5 := by omega
    simpa using this
  rw [hsum, h0]; simp

/-- C14, amended: for every summary whose hits are below `2 ^ 52` in absolute
value and every interval `win` with `0 < win < 2 ^ 53`, where the quotient of
the two `float64` is near enough, `CalcTraffic` returns and sets the traffic to
an integer within one half of the quotient of the hits by the interval, the
one farther from zero when the quotient is halfway between two integers: for
hits that are not negative, as every number of hits counted by `Add` is, this
is the floor of `hits / win + 1 / 2`, the half rounded up; every other entry
of `Sum`, the section counts and the limit are unchanged; 10 hits over 5 give
2 and 5 hits over 2 give 3. -/
theorem calc_traffic_rounds (s : Summary) (win : Int) (hwin : 0 < win)
    (hh52 : (s.Sum.get hitsKey).natAbs < 2 ^ 52) (hw53 : win < 2 ^ 53) :
    ∃ s1, s.CalcTraffic win = some s1 ∧
      |((s1.Sum.get trafficKey : Int) : ℚ) - (s.Sum.get hitsKey : ℚ) / (win : ℚ)| ≤ 1 / 2 ∧
      (|((s1.Sum.get trafficKey : Int) : ℚ) - (s.Sum.get hitsKey : ℚ) / (win : ℚ)| = 1 / 2 →
        |(s.Sum.get hitsKey : ℚ) / (win : ℚ)| < |((s1.Sum.get trafficKey : Int) : ℚ)|) ∧
      (0 ≤ s.Sum.get hitsKey →
        s1.Sum.get trafficKey = (2 * s.Sum.get hitsKey + win) / (2 * win) ∧
        ((s1.Sum.get trafficKey : Int) : ℚ)
          = ⌊(s.Sum.get hitsKey : ℚ) / (win : ℚ) + 1 / 2⌋) ∧
      (∀ k, k ≠ trafficKey → s1.Sum.get k = s.Sum.get k) ∧
      s1.Sections = s.Sections ∧ s1.topNum = s.topNum ∧
      (s.Sum.get hitsKey = 10 → win = 5 → s1.Sum.get trafficKey = 2) ∧
      (s.Sum.get hitsKey = 5 → win = 2 → s1.Sum.get trafficKey = 3) := by
  have hne : win ≠ 0 := by omega
  have hpos : 0 < win.toNat := by omega
  have hw53n : win.toNat < 2 ^ 53 := by omega
  have hcast : ((win.toNat : Int)) = win := Int.toNat_of_nonneg (le_of_lt hwin)
  have hq : ((win.toNat : Nat) : ℚ) = (win : ℚ) := by
    have : (((win.toNat : Nat) : Int) : ℚ) = (win : ℚ) := by rw [hcast]
    exact_mod_cast this
  have hcalc : s.CalcTraffic win = some { s with
      Sum := (s.Sum.set trafficKey (alertmanager.roundDiv (s.Sum.get hitsKey) win.toNat)) } := by
    simp [Summary.CalcTraffic, roundQuot, hne, hwin]
  have hget : (s.Sum.set trafficKey (alertmanager.roundDiv (s.Sum.get hitsKey) win.toNat)).get
      trafficKey = alertmanager.roundDiv (s.Sum.get hitsKey) win.toNat := by
    rw [Map.get_set]; simp
  obtain ⟨n1, n2⟩ := alertmanager.roundDiv_near (s.Sum.get hitsKey) win.toNat hpos hh52 hw53n
  rw [hq] at n1 n2
  refine ⟨_, hcalc, ?_, ?_, ?_, ?_, rfl, rfl, ?_, ?_⟩
  · simp only [hget]; exact n1
  · simp only [hget]; exact n2
  · intro h0
    simp only [hget]
    have e1 := alertmanager.roundDiv_nonneg (s.Sum.get hitsKey) win.toNat h0 hpos
      (by omega) hw53n
    rw [hcast] at e1
    refine ⟨e1, ?_⟩
    have hw : (0 : ℚ) < (win : ℚ) := by exact_mod_cast hwin
    have e2 : (s.Sum.get hitsKey : ℚ) / (win : ℚ) + 1 / 2
        = ((2 * s.Sum.get hitsKey + win : Int) : ℚ) / ((2 * win.toNat : Nat) : ℚ) := by
      push_cast
      rw [hq]
      field_simp
      ring
    have e3 : ⌊(s.Sum.get hitsKey : ℚ) / (win : ℚ) + 1 / 2⌋
        = (2 * s.Sum.get hitsKey + win) / (2 * win) := by
      rw [e2, Rat.floor_intCast_div_natCast]
      push_cast
      rw [hcast]
    rw [e3, e1]
  · intro k hk
    show (s.Sum.set trafficKey _).get k = _
    rw [Map.get_set]; simp [hk]
  · intro h1 h2
    subst h2
    simp only [hget]
    rw [h1]; decide
  · intro h1 h2
    subst h2
    simp only [hget]
    rw [h1]; decide

/-- C14 as it stands fails for a summary with a negative number of hits, whose
half is rounded down, away from zero: with -5 hits over 2 seconds `CalcTraffic`
sets the traffic to -3, where the half rounded up, the floor of
`-5 / 2 + 1 / 2`, is -2. It also fails from about `2 ^ 52` hits on, where the
quotient of the two `float64` is not exact: with 6755399441055745 hits over 3
seconds the traffic is set to 2251799813685249, two thirds away from the
quotient. -/
theorem calc_traffic_not_half_up :
    (negativeSummary.Sum.get hitsKey = -5 ∧
      (negativeSummary.CalcTraffic 2).map (fun s => s.Sum.get trafficKey) = some (-3) ∧
      ⌊((-5 : Int) : ℚ) / ((2 : Int) : ℚ) + 1 / 2⌋ = -2) ∧
    (hugeSummary.Sum.get hitsKey = 6755399441055745 ∧
      (hugeSummary.CalcTraffic 3).map (fun s => s.Sum.get trafficKey)
        = some 2251799813685249 ∧
      (1 / 2 : ℚ) < |((2251799813685249 : Int) : ℚ)
        - ((6755399441055745 : Int) : ℚ) / ((3 : Int) : ℚ)|) := by
  refine ⟨⟨by decide, by decide, ?_⟩, by decide, by decide, ?_⟩
  · have e : ((-5 : Int) : ℚ) / ((2 : Int) : ℚ) + 1 / 2 = ((-2 : Int) : ℚ) := by norm_num
    rw [e, Int.floor_intCast]
  · have e : ((2251799813685249 : Int) : ℚ) - ((6755399441055745 : Int) : ℚ) / ((3 : Int) : ℚ)
        = 2 / 3 := by norm_num
    rw [e]
    norm_num [abs_of_pos]

/-- C14 at the summary of the test, with its 10 hits, over 5 seconds. -/
theorem calc_traffic_rounds_witness :
    (testSummary.Sum.get hitsKey).natAbs < 2 ^ 52 ∧
    ∃ s1, testSummary.CalcTraffic 5 = some s1 ∧ s1.Sum.get trafficKey = 2 ∧
      s1.Sum.get hitsKey = 10 ∧ s1.Sections = testSummary.Sections :=
  ⟨by decide,
    match calc_traffic_rounds testSummary 5 (by decide) (by decide) (by decide) with
    | ⟨s1, h1, _, _, _, h5, h6, _, h8, _⟩ =>
      ⟨s1, h1, h8 (by decide) rfl, by rw [h5 hitsKey (by decide)]; decide, h6⟩⟩

end collector

/-! ## Theorems on the tables of package `printer` -/

theorem len_nonneg (s : Str) : 0 ≤ len s := by
  unfold len
  exact Int.natCast_nonneg _

namespace strings

theorem Repeat_some (s : Str) (n : Int) (h : 0 ≤ n) :
    Repeat s n = some (List.replicate n.toNat s).flatten := by
  simp [Repeat, not_lt.mpr h]

end strings

namespace printer

theorem center_some (str filler : Str) (max : Int) (h : len str ≤ max) :
    ∃ o, center str filler max = some o := by
  have hp : 0 ≤ (max - len str).tdiv 2 := Int.tdiv_nonneg (by omega) (by norm_num)
  have hq : 0 ≤ (if (max - len str).tmod 2 ≠ 0 then (max - len str).tdiv 2 + 1
      else (max - len str).tdiv 2) := by
    split <;> omega
  simp only [center]
  rw [strings.Repeat_some _ _ hp, strings.Repeat_some _ _ hq]
  exact ⟨_, rfl⟩

theorem padRight_some (str : Str) (max : Int) (h : len str ≤ max) :
    ∃ o, padRight str max = some o := by
  simp only [padRight]
  rw [strings.Repeat_some _ _ (by omega)]
  exact ⟨_, rfl⟩

theorem padLeft_some (str : Str) (max : Int) (h : len str ≤ max) :
    ∃ o, padLeft str max = some o := by
  simp only [padLeft]
  rw [strings.Repeat_some _ _ (by omega)]
  exact ⟨_, rfl⟩

theorem formatRows_some (t : Table2dMessage) (rows : List strPair)
    (h : ∀ r ∈ rows, len r.Key ≤ t.max.1 ∧ len r.Value ≤ t.max.2) :
    ∃ o, formatRows t rows = some o := by
  induction rows with
  | nil => exact ⟨_, rfl⟩
  | cons r rs ih =>
    obtain ⟨k, hk⟩ := padRight_some r.Key t.max.1 (h r (by simp)).1
    obtain ⟨v, hv⟩ := padLeft_some r.Value t.max.2 (h r (by simp)).2
    obtain ⟨o, ho⟩ := ih (fun x hx => h x (by simp [hx]))
    simp only [formatRows, hk, hv, ho]
    exact ⟨_, rfl⟩

theorem format_some (t : Table2dMessage) (h : t.fits) : ∃ o, t.Format = some o := by
  obtain ⟨h1, h2, h3, h4⟩ := h
  obtain ⟨a, ha⟩ := center_some t.Name ['-'] t.Length h3
  obtain ⟨b, hb⟩ := center_some t.Titles.1 [' '] t.max.1 h1
  obtain ⟨c, hc⟩ := center_some t.Titles.2 [' '] t.max.2 h2
  obtain ⟨r, hr⟩ := formatRows_some t t.Rows h4
  have z1 : 0 ≤ t.max.1 := le_trans (len_nonneg _) h1
  have z2 : 0 ≤ t.max.2 := le_trans (len_nonneg _) h2
  simp only [Table2dMessage.Format, ha, hb, hc, hr, strings.Repeat_some _ _ z1,
    strings.Repeat_some _ _ z2]
  exact ⟨_, rfl⟩

theorem addRow_eq (t : Table2dMessage) (k v : Str) :
    t.AddRow k v =
      { Name := t.Name
        Titles := t.Titles
        Rows := t.Rows ++ [{ Key := k, Value := v }]
        max := (if len k > t.max.1 then len k else t.max.1,
          if len v > t.max.2 then len v else t.max.2)
        colSep := t.colSep } := by
  simp only [Table2dMessage.AddRow]
  by_cases h1 : len k > t.max.1 <;> by_cases h2 : len v > t.max.2 <;> simp [h1, h2]

theorem addRow_rows (t : Table2dMessage) (k v : Str) :
    (t.AddRow k v).Rows = t.Rows ++ [{ Key := k, Value := v }] := by
  rw [addRow_eq]

theorem addRow_fits (t : Table2dMessage) (k v : Str) (h : t.fits) : (t.AddRow k v).fits := by
  obtain ⟨h1, h2, h3, h4⟩ := h
  simp only [Table2dMessage.Length] at h3
  rw [addRow_eq]
  simp only [Table2dMessage.fits, Table2dMessage.Length, List.mem_append, List.mem_singleton]
  refine ⟨by split <;> omega, by split <;> omega, by split <;> split <;> omega, ?_⟩
  intro r hr
  rcases hr with hr | hr
  · have := h4 r hr
    constructor <;> split <;> omega
  · subst hr
    constructor <;> split <;> (simp only []; omega)

theorem enlarge_rows (t : Table2dMessage) (n : Int) : (t.Enlarge n).Rows = t.Rows := by
  simp only [Table2dMessage.Enlarge]
  split
  · rfl
  · split
    · rfl
    · split <;> rfl

theorem enlarge_fits (t : Table2dMessage) (n : Int) (h : t.fits) : (t.Enlarge n).fits := by
  obtain ⟨h1, h2, h3, h4⟩ := h
  simp only [Table2dMessage.Length] at h3
  simp only [Table2dMessage.Enlarge, Table2dMessage.Length]
  split
  · exact ⟨h1, h2, h3, h4⟩
  · rename_i hlen
    have hd := Int.tdiv_add_tmod (n - len t.colSep) 2
    have hm1 := Int.tmod_lt_of_pos (n - len t.colSep) (by norm_num : (0 : Int) < 2)
    split
    · simp only [Table2dMessage.fits, Table2dMessage.Length]
      refine ⟨by omega, by omega, by omega, ?_⟩
      intro r hr
      have := h4 r hr
      constructor <;> omega
    · split
      · simp only [Table2dMessage.fits, Table2dMessage.Length]
        refine ⟨by omega, by omega, by omega, ?_⟩
        intro r hr
        have := h4 r hr
        constructor <;> omega
      · simp only [Table2dMessage.fits, Table2dMessage.Length]
        refine ⟨by omega, by omega, by omega, ?_⟩
        intro r hr
        have := h4 r hr
        constructor <;> omega

end printer

/-! ## Theorems on the text of the summary -/

theorem Map.get_of_mem (m : Map) (hk : (m.map Prod.fst).Nodup) (p : Str × Int) (hp : p ∈ m) :
    m.get p.1 = p.2 := by
  induction m with
  | nil => simp at hp
  | cons q m ih =>
    obtain ⟨a, b⟩ := q
    simp only [List.map_cons, List.nodup_cons] at hk
    rcases List.mem_cons.mp hp with h | h
    · subst h
      simp [Map.get, Map.lookup_cons_self]
    · have hne : p.1 ≠ a := by
        intro e
        exact hk.1 (by rw [← e]; exact List.mem_map_of_mem Prod.fst h)
      have := ih hk.2 h
      unfold Map.get at this ⊢
      rw [Map.lookup_cons_ne _ _ _ _ hne]
      exact this

theorem Map.set_keys (m : Map) (k : Str) (v : Int) (hk : (m.map Prod.fst).Nodup) :
    ((m.set k v).map Prod.fst).Nodup := by
  unfold Map.set
  by_cases hany : m.any (fun p => p.1 == k) = true
  · simp only [hany, if_true]
    have e : (m.map (fun p => if p.1 = k then (k, v) else p)).map Prod.fst = m.map Prod.fst := by
      rw [List.map_map]
      apply List.map_congr_left
      intro p _
      simp only [Function.comp]
      split
      · rename_i h; exact h.symm
      · rfl
    rw [e]; exact hk
  · have hany2 : m.any (fun p => p.1 == k) = false := (Bool.not_eq_true _).mp hany
    simp only [hany2, Bool.false_eq_true, if_false, List.map_append, List.map_cons, List.map_nil]
    rw [List.nodup_append]
    refine ⟨hk, by simp, ?_⟩
    intro a ha hb
    simp only [List.mem_singleton] at hb
    subst hb
    obtain ⟨p, hp, rfl⟩ := List.mem_map.mp ha
    have : m.any (fun q => q.1 == p.1) = true := by
      rw [List.any_eq_true]
      exact ⟨p, hp, by simp⟩
    rw [hany2] at this
    exact absurd this (by decide)

namespace collector

open printer

theorem add_sections (s : Summary) (m : LogMessage) :
    (s.Add m).Sections = s.Sections.inc m.Section ∧ (s.Add m).topNum = s.topNum := by
  unfold Summary.Add
  simp only []
  split
  · exact ⟨rfl, rfl⟩
  · split
    · exact ⟨rfl, rfl⟩
    · split
      · exact ⟨rfl, rfl⟩
      · split <;> exact ⟨rfl, rfl⟩

theorem addAll_keys (ms : List LogMessage) : ∀ (s : Summary),
    (s.Sections.map Prod.fst).Nodup → ((s.addAll ms).Sections.map Prod.fst).Nodup := by
  induction ms with
  | nil => intro s h; exact h
  | cons m ms ih =>
    intro s h
    apply ih
    rw [(add_sections s m).1]
    exact Map.set_keys _ _ _ h

theorem rowsLoop_run (om : List (Str × Int)) (T : Int) :
    ∀ (fuel i : Nat) (tbl : Table2dMessage), i ≤ om.length → om.length + 1 ≤ fuel + i →
      rowsLoop om T fuel i tbl
        = if (om.length : Int) = T then none else some (addRows tbl (om.drop i)) := by
  intro fuel
  induction fuel with
  | zero => intro i tbl h1 h2; omega
  | succ fuel ih =>
    intro i tbl h1 h2
    rcases Nat.lt_or_ge i om.length with hi | hi
    · have hget : om.get? i = some (om.get ⟨i, hi⟩) := List.get?_eq_get hi
      have hdrop : om.drop i = om.get ⟨i, hi⟩ :: om.drop (i + 1) := by
        simp
      simp only [rowsLoop, hi, true_or, if_true, hget]
      rw [ih (i + 1) _ (by omega) (by omega), hdrop]
      rfl
    · have hi2 : i = om.length := by omega
      subst hi2
      have hget : om.get? om.length = none := by
        rw [List.get?_eq_getElem?]; exact List.getElem?_eq_none (le_refl _)
      simp only [rowsLoop, lt_irrefl, false_or, hget, List.drop_length]
      split <;> rfl

theorem addRows_rows (om : List (Str × Int)) : ∀ (tbl : Table2dMessage),
    (addRows tbl om).Rows = tbl.Rows ++ om.map sectionRow := by
  induction om with
  | nil => intro tbl; simp [addRows]
  | cons p om ih =>
    intro tbl
    have := ih (tbl.AddRow p.1 (strconv.Itoa p.2))
    unfold addRows at this ⊢
    rw [List.foldl_cons, this, addRow_rows]
    simp [sectionRow]

theorem addRows_fits (om : List (Str × Int)) : ∀ (tbl : Table2dMessage),
    tbl.fits → (addRows tbl om).fits := by
  induction om with
  | nil => intro tbl h; exact h
  | cons p om ih =>
    intro tbl h
    have := ih (tbl.AddRow p.1 (strconv.Itoa p.2)) (addRow_fits _ _ _ h)
    unfold addRows at this ⊢
    rw [List.foldl_cons]
    exact this

theorem slice_perm (order : Map) :
    (sort.Slice (fun (a b : Str × Int) => decide (a.2 > b.2)) order).Perm order := by
  unfold sort.Slice
  exact List.perm_insertionSort _ _

theorem topTable_fits : topTable.fits := by decide

theorem topSections_nil (s : Summary) (order : Map) (h : s.Sections = []) :
    s.topSections order = some (topTable.AddRow "<no section data>".toList []) := by
  simp [Summary.topSections, h, topTable]

theorem topSections_eq (s : Summary) (order : Map) (hperm : order.Perm s.Sections)
    (hne : s.Sections ≠ []) :
    s.topSections order
      = if (s.Sections.length : Int) = s.topNum then none
        else some (addRows topTable
          (sort.Slice (fun (a b : Str × Int) => decide (a.2 > b.2)) order)) := by
  have hl : s.Sections.length ≠ 0 := by
    intro h; exact hne (List.length_eq_zero.mp h)
  have hlen : (sort.Slice (fun (a b : Str × Int) => decide (a.2 > b.2)) order).length
      = s.Sections.length := by
    rw [(slice_perm order).length_eq, hperm.length_eq]
  simp only [Summary.topSections, hl, if_false]
  rw [rowsLoop_run _ _ _ _ _ (Nat.zero_le _) (by omega), hlen]
  rfl

theorem topSections_fits (s : Summary) (order : Map) (hperm : order.Perm s.Sections)
    (t : Table2dMessage) (h : s.topSections order = some t) : t.fits := by
  by_cases hne : s.Sections = []
  · rw [topSections_nil s order hne] at h
    cases h
    exact addRow_fits _ _ _ topTable_fits
  · rw [topSections_eq s order hperm hne] at h
    split at h
    · cases h
    · cases h
      exact addRows_fits _ _ topTable_fits

theorem summaryTable_fits (s : Summary) : s.summaryTable.fits := by
  unfold Summary.summaryTable
  have h0 : (NewTable2dMessage "SUMMARY".toList "Detail".toList "Value".toList).fits := by
    decide
  exact addRow_fits _ _ _ (addRow_fits _ _ _ (addRow_fits _ _ _ (addRow_fits _ _ _
    (addRow_fits _ _ _ h0))))

theorem align_fits (a b : Table2dMessage) (ha : a.fits) (hb : b.fits) :
    (align a b).1.fits ∧ (align a b).2.fits := by
  unfold align
  split
  · exact ⟨enlarge_fits _ _ ha, hb⟩
  · split
    · exact ⟨ha, enlarge_fits _ _ hb⟩
    · exact ⟨ha, hb⟩

theorem align_rows (a b : Table2dMessage) :
    (align a b).1.Rows = a.Rows ∧ (align a b).2.Rows = b.Rows := by
  unfold align
  split
  · exact ⟨enlarge_rows _ _, rfl⟩
  · split
    · exact ⟨rfl, enlarge_rows _ _⟩
    · exact ⟨rfl, rfl⟩

theorem format_of_top (s : Summary) (order : Map) (hperm : order.Perm s.Sections)
    (t : Table2dMessage) (h : s.topSections order = some t) :
    ∃ a b, (align t s.summaryTable).1.Format = some a ∧
      (align t s.summaryTable).2.Format = some b ∧ s.Format order = some (a ++ b) := by
  obtain ⟨f1, f2⟩ := align_fits t s.summaryTable (topSections_fits s order hperm t h)
    (summaryTable_fits s)
  obtain ⟨a, ha⟩ := format_some _ f1
  obtain ⟨b, hb⟩ := format_some _ f2
  refine ⟨a, b, ha, hb, ?_⟩
  simp only [Summary.Format, h, ha, hb]

theorem format_none (s : Summary) (order : Map) (h : s.topSections order = none) :
    s.Format order = none := by
  simp only [Summary.Format, h]

theorem top_of_format (s : Summary) (order : Map) (out : Str)
    (h : s.Format order = some out) : ∃ t, s.topSections order = some t := by
  cases ht : s.topSections order with
  | none => rw [format_none s order ht] at h; cases h
  | some t => exact ⟨t, rfl⟩

set_option maxRecDepth 100000 in
theorem testSummary_format :
    (testSummary.CalcTraffic 5).bind (fun s => s.Format s.Sections) = some expectedFormat := by
  decide

/-- C15: `Format` indexes past the sections and returns no string when the
number of distinct sections is the limit: so it does for the ten records of the
test, with their four sections, under the limit 4, and for every summary with
at least one section and as many sections as the limit. -/
theorem format_index_out_of_range :
    ((NewSummary 4).addAll testRecords).Sections.length = 4 ∧
    ((NewSummary 4).addAll testRecords).Format ((NewSummary 4).addAll testRecords).Sections
      = none ∧
    (∀ (s : Summary) (order : Map), order.Perm s.Sections → s.Sections ≠ [] →
      (s.Sections.length : Int) = s.topNum → s.Format order = none) := by
  refine ⟨by decide, by decide, ?_⟩
  intro s order hperm hne hl
  apply format_none
  rw [topSections_eq s order hperm hne, if_pos hl]

/-- C16: when the number of distinct sections is smaller than the limit,
`Format` returns the text of its two tables, and the rows of its top sections
table are the rows of the collected sections, one for each, or the single row
`<no section data>` when there is none. -/
theorem fewer_sections_all_shown (s : Summary) (order : Map)
    (hperm : order.Perm s.Sections) (hlt : (s.Sections.length : Int) < s.topNum) :
    ∃ t a b, s.topSections order = some t ∧
      (align t s.summaryTable).1.Rows = t.Rows ∧
      (align t s.summaryTable).1.Format = some a ∧
      (align t s.summaryTable).2.Format = some b ∧
      s.Format order = some (a ++ b) ∧
      (s.Sections = [] → t.Rows = [noSectionRow]) ∧
      (s.Sections ≠ [] → t.Rows.Perm (s.Sections.map sectionRow) ∧
        t.Rows.length = s.Sections.length) := by
  have key : ∃ t, s.topSections order = some t ∧
      (s.Sections = [] → t.Rows = [noSectionRow]) ∧
      (s.Sections ≠ [] → t.Rows.Perm (s.Sections.map sectionRow) ∧
        t.Rows.length = s.Sections.length) := by
    by_cases hne : s.Sections = []
    · refine ⟨_, topSections_nil s order hne, ?_, fun h => absurd hne h⟩
      intro _
      rw [addRow_rows]; rfl
    · have hl : ¬ (s.Sections.length : Int) = s.topNum := by omega
      refine ⟨_, by rw [topSections_eq s order hperm hne, if_neg hl], fun h => absurd h hne, ?_⟩
      intro _
      rw [addRows_rows]
      have hp : (sort.Slice (fun (a b : Str × Int) => decide (a.2 > b.2)) order).Perm
          s.Sections := (slice_perm order).trans hperm
      refine ⟨?_, ?_⟩
      · simpa [topTable, NewTable2dMessage] using hp.map sectionRow
      · simp [topTable, NewTable2dMessage, hp.length_eq]
  obtain ⟨t, ht, h1, h2⟩ := key
  obtain ⟨a, b, ha, hb, hf⟩ := format_of_top s order hperm t ht
  exact ⟨t, a, b, ht, (align_rows t s.summaryTable).1, ha, hb, hf, h1, h2⟩

/-- C17: `Format` does not bound the rows of the top sections table by the
limit: with the limit 2 the ten records of the test, with their four sections,
give four rows; for every summary with at least one section, `Format` fails
when the number of sections is the limit and shows a row for every section
otherwise, also when there are more sections than the limit. -/
theorem format_shows_every_section :
    (∃ t, ((NewSummary 2).addAll testRecords).topSections
        ((NewSummary 2).addAll testRecords).Sections = some t ∧
      t.Rows = [sectionRow ("/here".toList, 4), sectionRow ("/".toList, 3),
        sectionRow ("/there".toList, 2), sectionRow ("/redirect".toList, 1)]) ∧
    (∀ (s : Summary) (order : Map), order.Perm s.Sections → s.Sections ≠ [] →
      ((s.Sections.length : Int) = s.topNum → s.topSections order = none) ∧
      ((s.Sections.length : Int) ≠ s.topNum →
        ∃ t, s.topSections order = some t ∧ t.Rows.length = s.Sections.length ∧
          t.Rows.Perm (s.Sections.map sectionRow))) := by
  refine ⟨⟨addRows topTable [("/here".toList, 4), ("/".toList, 3), ("/there".toList, 2),
    ("/redirect".toList, 1)], by decide, by decide⟩, ?_⟩
  intro s order hperm hne
  refine ⟨fun hl => by rw [topSections_eq s order hperm hne, if_pos hl], ?_⟩
  intro hl
  refine ⟨_, by rw [topSections_eq s order hperm hne, if_neg hl], ?_, ?_⟩
  · rw [addRows_rows]
    simp [topTable, NewTable2dMessage, ((slice_perm order).trans hperm).length_eq]
  · rw [addRows_rows]
    simpa [topTable, NewTable2dMessage] using ((slice_perm order).trans hperm).map sectionRow

/-- C16 at the summary of the test, with four sections under the limit 5, whose
text is the text that the test expects. -/
theorem fewer_sections_all_shown_witness :
    ((testSummary.CalcTraffic 5).bind (fun s => s.Format s.Sections) = some expectedFormat) ∧
    ∃ t a b, testSummary.topSections testSummary.Sections = some t ∧
      (align t testSummary.summaryTable).1.Rows = t.Rows ∧
      (align t testSummary.summaryTable).1.Format = some a ∧
      (align t testSummary.summaryTable).2.Format = some b ∧
      testSummary.Format testSummary.Sections = some (a ++ b) ∧
      (testSummary.Sections = [] → t.Rows = [noSectionRow]) ∧
      (testSummary.Sections ≠ [] → t.Rows.Perm (testSummary.Sections.map sectionRow) ∧
        t.Rows.length = testSummary.Sections.length) :=
  ⟨testSummary_format,
    fewer_sections_all_shown testSummary testSummary.Sections (List.Perm.refl _) (by decide)⟩

end collector

/-! ## Theorems on package `reader` -/

namespace reader

open printer alertmanager

theorem span_line (line rest : Str) (h : ∀ c ∈ line, c ≠ '\n') :
    (line ++ '\n' :: rest).span (fun c => c != '\n') = (line, '\n' :: rest) := by
  rw [List.span_eq_take_drop]
  induction line with
  | nil => simp [List.takeWhile, List.dropWhile]
  | cons x xs ih =>
    have hx : (x != '\n') = true := by simpa using h x (by simp)
    have := ih (fun c hc => h c (by simp [hc]))
    simp only [Prod.mk.injEq] at this
    simp only [List.cons_append, List.takeWhile_cons, List.dropWhile_cons, hx, if_true,
      this.1, this.2]

theorem span_end (buf : Str) (h : ∀ c ∈ buf, c ≠ '\n') :
    buf.span (fun c => c != '\n') = (buf, []) := by
  rw [List.span_eq_take_drop]
  induction buf with
  | nil => simp
  | cons x xs ih =>
    have hx : (x != '\n') = true := by simpa using h x (by simp)
    have := ih (fun c hc => h c (by simp [hc]))
    simp only [Prod.mk.injEq] at this
    simp only [List.takeWhile_cons, List.dropWhile_cons, hx, if_true, this.1, this.2]

theorem ReadBytes_line (line rest : Str) (err : Option Str) (h : ∀ c ∈ line, c ≠ '\n') :
    ReadBytes (line ++ '\n' :: rest) err '\n' = (line ++ ['\n'], none, rest) := by
  simp only [ReadBytes, span_line line rest h]

theorem ReadBytes_end (buf : Str) (err : Option Str) (h : ∀ c ∈ buf, c ≠ '\n') :
    ReadBytes buf err '\n' = (buf, some err, []) := by
  simp only [ReadBytes, span_end buf h]

theorem first_line (buf : Str) :
    (∀ c ∈ buf, c ≠ '\n') ∨
      ∃ line rest, buf = line ++ '\n' :: rest ∧ ∀ c ∈ line, c ≠ '\n' := by
  induction buf with
  | nil => left; simp
  | cons x xs ih =>
    by_cases hx : x = '\n'
    · right; exact ⟨[], xs, by simp [hx], by simp⟩
    · rcases ih with h | ⟨line, rest, h1, h2⟩
      · left
        intro c hc
        rcases List.mem_cons.mp hc with rfl | hc
        · exact hx
        · exact h c hc
      · right
        refine ⟨x :: line, rest, by simp [h1], ?_⟩
        intro c hc
        rcases List.mem_cons.mp hc with rfl | hc
        · exact hx
        · exact h2 c hc

theorem readLoop_run (err : Option Str) : ∀ (fuel : Nat) (buf : Str) (cnt : Int),
    buf.length < fuel →
    ∃ (lines : List Str) (rest : Str), buf = lines.flatten ++ rest ∧
      (∀ l ∈ lines, ∃ body, l = body ++ ['\n'] ∧ ∀ c ∈ body, c ≠ '\n') ∧
      (∀ c ∈ rest, c ≠ '\n') ∧
      readLoop err fuel buf cnt
        = (lines.map (fun l => Send.log (strings.TrimSpace l))
            ++ (match err with
                | none => []
                | some e => [Send.print (NewErrorMessage (readErrorText e))]),
           cnt + lines.length) := by
  intro fuel
  induction fuel with
  | zero => intro buf cnt h; omega
  | succ fuel ih =>
    intro buf cnt h
    rcases first_line buf with hend | ⟨line, rest, hbuf, hline⟩
    · refine ⟨[], buf, by simp, by simp, hend, ?_⟩
      simp only [readLoop, ReadBytes_end buf err hend]
      cases err <;> simp
    · subst hbuf
      have hlen : rest.length < fuel := by
        simp only [List.length_append, List.length_cons] at h
        omega
      obtain ⟨lines, part, hrest, hl, hp, hrun⟩ := ih rest (cnt + 1) hlen
      refine ⟨(line ++ ['\n']) :: lines, part, ?_, ?_, hp, ?_⟩
      · rw [hrest]; simp
      · intro l hmem
        rcases List.mem_cons.mp hmem with rfl | hmem
        · exact ⟨line, rfl, hline⟩
        · exact hl l hmem
      · simp only [readLoop, ReadBytes_line line rest err hline, hrun, List.map_cons,
          List.cons_append, List.length_cons, Prod.mk.injEq, true_and]
        push_cast
        ring

theorem run_length (ticks : List Tick) : ∀ (unread : Str), (run unread ticks).length = ticks.length := by
  induction ticks with
  | nil => intro unread; rfl
  | cons tk tks ih => intro unread; simp [run, ih]

theorem tick_run (unread : Str) (tk : Tick) :
    ∃ (lines : List Str) (rest : Str), (tk.reading unread).1 = lines.flatten ++ rest ∧
      (∀ l ∈ lines, ∃ body, l = body ++ ['\n'] ∧ ∀ c ∈ body, c ≠ '\n') ∧
      (∀ c ∈ rest, c ≠ '\n') ∧
      (tick unread tk).1
        = lines.map (fun l => Send.log (strings.TrimSpace l))
            ++ (match tk.fault with
                | none => []
                | some (_, e) => [Send.print (NewErrorMessage (readErrorText e))])
            ++ [Send.met (NewCounterMetric lines.length tk.t)] := by
  obtain ⟨lines, rest, h1, h2, h3, h4⟩ := readLoop_run (tk.reading unread).2.1
    ((tk.reading unread).1.length + 1) (tk.reading unread).1 0 (Nat.lt_succ_self _)
  refine ⟨lines, rest, h1, h2, h3, ?_⟩
  have e : tick unread tk
      = ((readLoop (tk.reading unread).2.1 ((tk.reading unread).1.length + 1)
            (tk.reading unread).1 0).1
          ++ [Send.met (NewCounterMetric
            (readLoop (tk.reading unread).2.1 ((tk.reading unread).1.length + 1)
              (tk.reading unread).1 0).2 tk.t)],
        (tk.reading unread).2.2) := rfl
  rw [e, h4]
  simp only [zero_add]
  cases hf : tk.fault with
  | none => simp [Tick.reading, hf]
  | some f =>
    obtain ⟨k, e⟩ := f
    simp [Tick.reading, hf]

/-- C19: the bytes of a line without its newline that a tick reads are lost:
when the file gets `ab` before a tick and `cd` with a newline before the next,
the first tick sends the metric of no line and the second the line `cd`, so
that `abcd` is never sent; in general, after a tick that reads a text `p`
without a newline, the tick that reads `q` and a newline sends the line of `q`
alone. -/
theorem unfinished_line_lost :
    Start [{ t := 1, appended := "ab".toList, fault := none },
        { t := 2, appended := "cd\n".toList, fault := none }]
      = [[Send.met (NewCounterMetric 0 1)],
         [Send.log "cd".toList, Send.met (NewCounterMetric 1 2)]] ∧
    (∀ (t1 t2 : Time) (p q : Str), (∀ c ∈ p, c ≠ '\n') → (∀ c ∈ q, c ≠ '\n') →
      Start [{ t := t1, appended := p, fault := none },
          { t := t2, appended := q ++ ['\n'], fault := none }]
        = [[Send.met (NewCounterMetric 0 t1)],
           [Send.log (strings.TrimSpace (q ++ ['\n'])), Send.met (NewCounterMetric 1 t2)]]) := by
  refine ⟨by decide, ?_⟩
  intro t1 t2 p q hp hq
  have e1 : tick [] { t := t1, appended := p, fault := none }
      = ([Send.met (NewCounterMetric 0 t1)], []) := by
    simp only [tick, Tick.reading, List.nil_append, readLoop, ReadBytes_end p none hp]
  have e2 : tick [] { t := t2, appended := q ++ ['\n'], fault := none }
      = ([Send.log (strings.TrimSpace (q ++ ['\n'])), Send.met (NewCounterMetric 1 t2)], []) := by
    have hr : ReadBytes (q ++ ['\n']) none '\n' = (q ++ ['\n'], none, []) :=
      ReadBytes_line q [] none hq
    have hr2 : ∀ c : Int, readLoop none (q ++ ['\n']).length [] c = ([], c) := by
      intro c
      have hlen : (q ++ ['\n']).length = q.length + 1 := by simp
      rw [hlen]
      simp only [readLoop, ReadBytes_end [] none (by simp)]
    simp only [tick, Tick.reading, List.nil_append, readLoop, hr, zero_add, hr2]
    simp
  simp only [Start, run, e1, e2]

theorem run_get_at (ticks : List Tick) : ∀ (unread : Str) (i : Nat) (tk : Tick),
    ticks.get? i = some tk →
      (run unread ticks).get? i = some (tick (unreadAt unread ticks i) tk).1 := by
  induction ticks with
  | nil => intro unread i tk h; simp at h
  | cons t0 tks ih =>
    intro unread i tk h
    cases i with
    | zero =>
      simp only [List.get?_cons_zero, Option.some.injEq] at h
      subst h
      rfl
    | succ i =>
      simp only [List.get?_cons_succ] at h
      have hu := ih (tick unread t0).2 i tk h
      simp only [run, List.get?_cons_succ, hu, unreadAt]

theorem cut_at_newline (b1 b2 r1 r2 : Str) (h1 : ∀ c ∈ b1, c ≠ '\n') (h2 : ∀ c ∈ b2, c ≠ '\n')
    (h : b1 ++ '\n' :: r1 = b2 ++ '\n' :: r2) : b1 = b2 ∧ r1 = r2 := by
  have e1 := span_line b1 r1 h1
  have e2 := span_line b2 r2 h2
  rw [h, e2] at e1
  simp only [Prod.mk.injEq, List.cons.injEq, true_and] at e1
  exact ⟨e1.1.symm, e1.2.symm⟩

/-- The bytes read determine their lines: two ways of cutting the same bytes
into lines that end with their only newline, followed by a rest without
newline, are the same. -/
theorem lines_unique : ∀ (lines lines2 : List Str) (rest rest2 : Str),
    (∀ l ∈ lines, ∃ body, l = body ++ ['\n'] ∧ ∀ c ∈ body, c ≠ '\n') →
    (∀ l ∈ lines2, ∃ body, l = body ++ ['\n'] ∧ ∀ c ∈ body, c ≠ '\n') →
    (∀ c ∈ rest, c ≠ '\n') → (∀ c ∈ rest2, c ≠ '\n') →
    lines.flatten ++ rest = lines2.flatten ++ rest2 → lines = lines2 ∧ rest = rest2 := by
  intro lines
  induction lines with
  | nil =>
    intro lines2 rest rest2 _ h2 hr _ h
    cases lines2 with
    | nil => exact ⟨rfl, by simpa using h⟩
    | cons l ls =>
      exfalso
      obtain ⟨body, hb, _⟩ := h2 l (List.mem_cons_self _ _)
      have hm : '\n' ∈ rest := by
        simp only [List.flatten_nil, List.nil_append] at h
        rw [h, hb]
        simp
      exact hr '\n' hm rfl
  | cons l ls ih =>
    intro lines2 rest rest2 h1 h2 hr hr2 h
    obtain ⟨body, hb, hbn⟩ := h1 l (List.mem_cons_self _ _)
    cases lines2 with
    | nil =>
      exfalso
      have hm : '\n' ∈ rest2 := by
        simp only [List.flatten_nil, List.nil_append] at h
        rw [← h, hb]
        simp
      exact hr2 '\n' hm rfl
    | cons l2 ls2 =>
      obtain ⟨body2, hb2, hbn2⟩ := h2 l2 (List.mem_cons_self _ _)
      have h3 : body ++ '\n' :: (ls.flatten ++ rest)
          = body2 ++ '\n' :: (ls2.flatten ++ rest2) := by
        have := h
        simp only [List.flatten_cons, hb, hb2, List.append_assoc, List.singleton_append] at this
        exact this
      obtain ⟨e1, e2⟩ := cut_at_newline body body2 _ _ hbn hbn2 h3
      obtain ⟨e3, e4⟩ := ih ls2 rest rest2
        (fun x hx => h1 x (List.mem_cons_of_mem _ hx))
        (fun x hx => h2 x (List.mem_cons_of_mem _ hx)) hr hr2 e2
      exact ⟨by rw [hb, hb2, e1, e3], e4⟩

/-- C20: `Start` makes the sends of one tick for each tick, and the sends of
a tick are: for each line that ends with a newline among the bytes that the
tick reads, from the bytes that the ticks before it have left unread on, in
the order of the file, the line trimmed on the log channel; then, only when the
reading ends on an error that is not `io.EOF`, one error message on the print
channel; then one metric on the metric channel, with the number of these lines
and the time of the tick, also when no line was read and also after an error.
The bytes read have one cutting only into such lines and a rest. -/
theorem tick_lines_then_metric (ticks : List Tick) :
    (Start ticks).length = ticks.length ∧
    (∀ (i : Nat) (tk : Tick), ticks.get? i = some tk →
      ∃ (lines : List Str) (rest : Str),
        (tk.reading (unreadAt [] ticks i)).1 = lines.flatten ++ rest ∧
        (∀ l ∈ lines, ∃ body, l = body ++ ['\n'] ∧ ∀ c ∈ body, c ≠ '\n') ∧
        (∀ c ∈ rest, c ≠ '\n') ∧
        (Start ticks).get? i = some
          (lines.map (fun l => Send.log (strings.TrimSpace l))
            ++ (match tk.fault with
                | none => []
                | some (_, e) =>
                  [Send.print (Formatter.ErrorMessage ("Error reading log file: ".toList ++ e))])
            ++ [Send.met { Time := tk.t, Value := Value.int lines.length }]) ∧
        (∀ (lines2 : List Str) (rest2 : Str),
          (tk.reading (unreadAt [] ticks i)).1 = lines2.flatten ++ rest2 →
          (∀ l ∈ lines2, ∃ body, l = body ++ ['\n'] ∧ ∀ c ∈ body, c ≠ '\n') →
          (∀ c ∈ rest2, c ≠ '\n') → lines2 = lines ∧ rest2 = rest)) ∧
    Start [{ t := 7, appended := [], fault := none }]
      = [[Send.met { Time := 7, Value := Value.int 0 }]] ∧
    Start [{ t := 7, appended := "here it comes\nhere it goes\nhere we are\n".toList,
             fault := none }]
      = [[Send.log "here it comes".toList, Send.log "here it goes".toList,
          Send.log "here we are".toList, Send.met { Time := 7, Value := Value.int 3 }]] ∧
    Start [{ t := 7, appended := "x\nab".toList, fault := some (3, "bad".toList) }]
      = [[Send.log "x".toList,
          Send.print (Formatter.ErrorMessage "Error reading log file: bad".toList),
          Send.met { Time := 7, Value := Value.int 1 }]] ∧
    Start [{ t := 7, appended := "x\nab\n".toList, fault := some (3, "bad".toList) },
           { t := 8, appended := "c\n".toList, fault := none }]
      = [[Send.log "x".toList,
          Send.print (Formatter.ErrorMessage "Error reading log file: bad".toList),
          Send.met { Time := 7, Value := Value.int 1 }],
         [Send.log "b".toList, Send.log "c".toList,
          Send.met { Time := 8, Value := Value.int 2 }]] := by
  refine ⟨run_length ticks [], ?_, by decide, by decide, by decide, by decide⟩
  intro i tk h
  have hu := run_get_at ticks [] i tk h
  obtain ⟨lines, rest, h1, h2, h3, h4⟩ := tick_run (unreadAt [] ticks i) tk
  rw [h4] at hu
  refine ⟨lines, rest, h1, h2, h3, hu, ?_⟩
  intro lines2 rest2 g1 g2 g3
  exact lines_unique lines2 lines rest2 rest g2 h2 g3 h3 (by rw [← g1, ← h1])

end reader

/-! ## Theorems on package `config` -/

theorem len_eq_zero (s : Str) : len s = 0 ↔ s = [] := by
  constructor
  · intro h
    cases s with
    | nil => rfl
    | cons c cs =>
      exfalso
      have hc : 0 < c.utf8Size := Char.utf8Size_pos c
      simp only [len, List.map_cons, List.sum_cons] at h
      omega
  · intro h; subst h; rfl

namespace strings

theorem trimSpace_nil_iff (s : Str) :
    TrimSpace s = [] ↔ ∀ c ∈ s, unicode.IsSpace c = true := by
  unfold TrimSpace
  rw [List.reverse_eq_nil_iff, List.dropWhile_eq_nil_iff]
  constructor
  · intro h c hc
    rw [← List.takeWhile_append_dropWhile unicode.IsSpace s] at hc
    rcases List.mem_append.mp hc with h1 | h1
    · exact List.mem_takeWhile_imp h1
    · exact h c (List.mem_reverse.mpr h1)
  · intro h
    have h0 : s.dropWhile unicode.IsSpace = [] := List.dropWhile_eq_nil_iff.mpr h
    rw [h0]
    simp

end strings

namespace config

theorem validate_spec (c : Config) :
    ∃ r, c.Validate = some r ∧
      (r = none ↔ (∃ ch ∈ c.LogFilePath, unicode.IsSpace ch = false) ∧
        0 < c.PollIntervalSec ∧ c.PollIntervalSec < c.SummaryIntervalSec ∧
        0 < c.MonitorWindowSec ∧ c.PollIntervalSec ∣ c.MonitorWindowSec ∧
        0 < c.AlertThreshold ∧ 0 < c.TopSectionNum) := by
  have hblank : len (strings.TrimSpace c.LogFilePath) = 0
      ↔ ¬ ∃ ch ∈ c.LogFilePath, unicode.IsSpace ch = false := by
    rw [len_eq_zero, strings.trimSpace_nil_iff]
    simp
  have rej : ∀ (e : error) (P : Prop), ¬ P → ((some e : Option error) = none ↔ P) :=
    fun e P hn => ⟨fun h => (nomatch h), fun h => absurd h hn⟩
  unfold Config.Validate
  by_cases h1 : len (strings.TrimSpace c.LogFilePath) = 0
  · rw [if_pos h1]
    exact ⟨_, rfl, rej _ _ (fun h => hblank.mp h1 h.1)⟩
  rw [if_neg h1]
  have hp : ∃ ch ∈ c.LogFilePath, unicode.IsSpace ch = false := by
    by_contra hn
    exact h1 (hblank.mpr hn)
  by_cases h2 : c.PollIntervalSec ≤ 0
  · rw [if_pos h2]
    exact ⟨_, rfl, rej _ _ (fun h => by omega)⟩
  rw [if_neg h2]
  by_cases h3 : c.SummaryIntervalSec ≤ 0
  · rw [if_pos h3]
    exact ⟨_, rfl, rej _ _ (fun h => by omega)⟩
  rw [if_neg h3]
  by_cases h4 : c.PollIntervalSec ≥ c.SummaryIntervalSec
  · rw [if_pos h4]
    exact ⟨_, rfl, rej _ _ (fun h => by omega)⟩
  rw [if_neg h4]
  by_cases h5 : c.MonitorWindowSec ≤ 0
  · rw [if_pos h5]
    exact ⟨_, rfl, rej _ _ (fun h => by omega)⟩
  rw [if_neg h5]
  have hne : c.PollIntervalSec ≠ 0 := by omega
  have hrem : rem c.MonitorWindowSec c.PollIntervalSec
      = some (c.MonitorWindowSec % c.PollIntervalSec) := by
    simp only [rem, hne, if_false]
    rw [Int.tmod_eq_emod (by omega) (by omega)]
  simp only [hrem]
  have hdvd : c.MonitorWindowSec % c.PollIntervalSec = 0
      ↔ c.PollIntervalSec ∣ c.MonitorWindowSec := Int.dvd_iff_emod_eq_zero.symm
  by_cases h6 : c.MonitorWindowSec % c.PollIntervalSec ≠ 0
  · rw [if_pos h6]
    exact ⟨_, rfl, rej _ _ (fun h => h6 (hdvd.mpr h.2.2.2.2.1))⟩
  rw [if_neg h6]
  have h6b : c.PollIntervalSec ∣ c.MonitorWindowSec := hdvd.mp (not_not.mp h6)
  by_cases h7 : c.AlertThreshold ≤ 0
  · rw [if_pos h7]
    exact ⟨_, rfl, rej _ _ (fun h => by omega)⟩
  rw [if_neg h7]
  by_cases h8 : c.TopSectionNum ≤ 0
  · rw [if_pos h8]
    exact ⟨_, rfl, rej _ _ (fun h => by omega)⟩
  rw [if_neg h8]
  exact ⟨_, rfl, fun _ => ⟨hp, by omega, by omega, by omega, h6b, by omega, by omega⟩,
    fun _ => rfl⟩

/-- C22: `Validate` always returns, without a division by zero, and it returns
`nil` exactly when the log file path has a character that is not white space,
the polling interval is positive, the summary interval is greater than the
polling interval, the monitoring window is positive and a multiple of the
polling interval, and the alert threshold and the number of top sections are
positive; the default configuration is accepted and the eight configurations
that the test expects an error for are refused. -/
theorem validate_accepts_iff (c : Config) :
    (∃ r, c.Validate = some r ∧
      (r = none ↔ (∃ ch ∈ c.LogFilePath, unicode.IsSpace ch = false) ∧
        0 < c.PollIntervalSec ∧ c.PollIntervalSec < c.SummaryIntervalSec ∧
        0 < c.MonitorWindowSec ∧ c.PollIntervalSec ∣ c.MonitorWindowSec ∧
        0 < c.AlertThreshold ∧ 0 < c.TopSectionNum)) ∧
    NewDefault.Validate = some none ∧
    (∀ d ∈ refusedConfigs, d.Validate ≠ none ∧ d.Validate ≠ some none) :=
  ⟨validate_spec c, by decide, by decide⟩

end config

namespace alertmanager

/-- C29: for every configuration that `Validate` accepts, the quotient `W` of
the monitoring window by the polling interval that `New` computes, in which
the division of the language truncates, is exact,
`W * PollIntervalSec = MonitorWindowSec`, and at least 1, and it is the
capacity of the receiver whenever `New` returns one; for the default
configuration `New` returns a receiver of capacity 120 and for the
configuration of the test, a window of 10 polled every 2 seconds, one of
capacity 5. -/
theorem validated_window_exact (cfg : config.Config) (h : cfg.Validate = some none) :
    cfg.MonitorWindowSec.tdiv cfg.PollIntervalSec * cfg.PollIntervalSec
      = cfg.MonitorWindowSec ∧
    1 ≤ cfg.MonitorWindowSec.tdiv cfg.PollIntervalSec ∧
    cfg.MonitorWindowSec.tdiv cfg.PollIntervalSec
      = cfg.MonitorWindowSec / cfg.PollIntervalSec ∧
    (∀ a0, New cfg = some a0 →
      (a0.cap : Int) = cfg.MonitorWindowSec.tdiv cfg.PollIntervalSec ∧
      (a0.cap : Int) * cfg.PollIntervalSec = cfg.MonitorWindowSec ∧ 1 ≤ a0.cap) ∧
    (∃ a0, New config.NewDefault = some a0 ∧ a0.cap = 120) ∧
    (∃ a0, New nominalCfg = some a0 ∧ a0.cap = 5) := by
  obtain ⟨r, hr, hiff⟩ := config.validate_spec cfg
  rw [h] at hr
  cases hr
  obtain ⟨_, hp, _, hw, hd, _, _⟩ := hiff.mp rfl
  have hne : cfg.PollIntervalSec ≠ 0 := by omega
  have hq : cfg.MonitorWindowSec.tdiv cfg.PollIntervalSec
      = cfg.MonitorWindowSec / cfg.PollIntervalSec :=
    Int.tdiv_eq_ediv (by omega) (by omega)
  obtain ⟨k, hk⟩ := hd
  have hk0 : 0 < k := by
    rcases lt_trichotomy 0 k with h0 | h0 | h0
    · exact h0
    · subst h0; simp at hk; omega
    · have : cfg.PollIntervalSec * k < 0 := Int.mul_neg_of_pos_of_neg hp h0
      omega
  have hdiv : cfg.MonitorWindowSec / cfg.PollIntervalSec = k := by
    rw [hk]; exact Int.mul_ediv_cancel_left k hne
  have hexact : cfg.MonitorWindowSec.tdiv cfg.PollIntervalSec * cfg.PollIntervalSec
      = cfg.MonitorWindowSec := by
    rw [hq, hdiv, hk]; ring
  have hone : 1 ≤ cfg.MonitorWindowSec.tdiv cfg.PollIntervalSec := by
    rw [hq, hdiv]; omega
  refine ⟨hexact, hone, hq, ?_, ⟨_, rfl, rfl⟩, ⟨_, rfl, rfl⟩⟩
  intro a0 hNew
  have hcap : (a0.cap : Int) = cfg.MonitorWindowSec.tdiv cfg.PollIntervalSec := by
    unfold New at hNew
    split at hNew
    · simp at hNew
    · simp only at hNew
      split at hNew
      · simp at hNew
      · simp only [Option.some.injEq] at hNew
        subst hNew
        exact Int.toNat_of_nonneg (by omega)
  refine ⟨hcap, by rw [hcap]; exact hexact, ?_⟩
  omega

/-- C29 at the default configuration, with its window of 120 seconds polled
every second. -/
theorem validated_window_exact_witness :
    config.NewDefault.Validate = some none ∧
    config.NewDefault.MonitorWindowSec.tdiv config.NewDefault.PollIntervalSec = 120 ∧
    ∃ a0, New config.NewDefault = some a0 ∧ a0.cap = 120 :=
  ⟨by decide, by decide, (validated_window_exact config.NewDefault (by decide)).2.2.2.2.1⟩

end alertmanager

/-! ## Theorems on the invariants of the alert manager -/

namespace alertmanager

open printer

theorem avg_set_trig (a : AlertManager) (b : Bool) :
    ({ a with alertTriggered := b } : AlertManager).AvgTraffic = a.AvgTraffic := rfl

theorem loop_flag (W : Nat) (hW : 1 ≤ W) (ms : List Metric) :
    ∀ (xs : List Int) (s : Loop), Window W xs s.a →
      (xs.length < W → s.a.alertTriggered = false) →
      (W ≤ xs.length → ∃ avg, s.a.AvgTraffic = some avg ∧
        s.a.alertTriggered = decide (s.a.threshold ≤ avg)) →
      ∃ s1 outs, loop s ms = some (s1, outs) ∧ Window W (xs ++ ms.map cntOf) s1.a ∧
        s1.a.threshold = s.a.threshold ∧
        (xs.length + ms.length < W → s1.a.alertTriggered = false) ∧
        (W ≤ xs.length + ms.length → ∃ avg, s1.a.AvgTraffic = some avg ∧
          s1.a.alertTriggered = decide (s1.a.threshold ≤ avg)) := by
  induction ms with
  | nil =>
    intro xs s h h1 h2
    exact ⟨s, [], rfl, by simpa using h, rfl, by simpa using h1, by simpa using h2⟩
  | cons m ms ih =>
    intro xs s h h1 h2
    obtain ⟨a1, avg, _, hw1, hthr, htrig, havg, hit⟩ := iteration_eq W xs s m hW h
    have hw2 := window_set_trig W _ a1
      (if W ≤ xs.length + 1 then decide (a1.threshold ≤ avg) else a1.alertTriggered) hw1
    obtain ⟨s1, outs, hl, hw3, ht3, hf1, hf2⟩ := ih (xs ++ [cntOf m])
      ⟨{ a1 with alertTriggered :=
            if W ≤ xs.length + 1 then decide (a1.threshold ≤ avg) else a1.alertTriggered },
        s.alertOnPrinted || decide (W ≤ xs.length + 1)⟩ hw2
      (by
        intro hlt
        simp only [List.length_append, List.length_singleton] at hlt
        have hn : ¬ W ≤ xs.length + 1 := by omega
        simp only [hn, if_false]
        rw [htrig]
        exact h1 (by omega))
      (by
        intro hle
        simp only [List.length_append, List.length_singleton] at hle
        refine ⟨avg, ?_, ?_⟩
        · rw [avg_set_trig]; exact havg
        · simp only [hle, if_true])
    simp only [loop, hit, hl]
    refine ⟨s1, _, rfl, ?_, ?_, ?_, ?_⟩
    · simpa using hw3
    · rw [ht3]; exact hthr
    · intro hlt
      apply hf1
      have e1 : (xs ++ [cntOf m]).length = xs.length + 1 := by simp
      have e2 : (m :: ms).length = ms.length + 1 := by simp
      omega
    · intro hle
      apply hf2
      have e1 : (xs ++ [cntOf m]).length = xs.length + 1 := by simp
      have e2 : (m :: ms).length = ms.length + 1 := by simp
      omega

theorem index_some (s : List Int) (i : Int) (h0 : 0 ≤ i) (h1 : i < s.length) :
    ∃ x, index s i = some x := by
  have hn : ¬ i < 0 := by omega
  have hl : i.toNat < s.length := by omega
  exact ⟨s.get ⟨i.toNat, hl⟩, by simp only [index, hn, if_false]; exact List.get?_eq_get hl⟩

theorem addCircular_some (a : AlertManager) (cnt : Int) (h0 : 0 ≤ a.ptr)
    (h1 : a.ptr < a.buf.length) : ∃ a1, a.addCircular cnt = some a1 := by
  obtain ⟨x, hx⟩ := index_some a.buf a.ptr h0 h1
  simp only [AlertManager.addCircular, hx]
  split <;> exact ⟨_, rfl⟩

/-- C24: for every sequence of metrics that `Start` processes from the
receiver made by `New`, with a capacity `W` of at least 1: while fewer than `W`
metrics have been processed the flag `alertTriggered` is false, and once at
least `W` have been, the flag is true exactly when the rounded average
`AvgTraffic` of the receiver is at least the threshold of the configuration. -/
theorem flag_tracks_average (cfg : config.Config) (a0 : AlertManager) (ms : List Metric)
    (hNew : New cfg = some a0) (hW : 1 ≤ a0.cap) :
    ∃ a outs, a0.Start ms = some (a, outs) ∧
      (ms.length < a0.cap → a.alertTriggered = false) ∧
      (a0.cap ≤ ms.length → ∃ avg, a.AvgTraffic = some avg ∧
        (a.alertTriggered = true ↔ cfg.AlertThreshold ≤ avg)) := by
  obtain ⟨hw, hthr, htrig⟩ := window_New cfg a0 hNew hW
  obtain ⟨s1, outs, hl, _, ht, hf1, hf2⟩ := loop_flag a0.cap hW ms [] ⟨a0, false⟩ hw
    (fun _ => htrig) (fun h => by simp at h; omega)
  refine ⟨s1.a, outs, by simp only [AlertManager.Start, hl], ?_, ?_⟩
  · intro hlt
    exact hf1 (by simpa using hlt)
  · intro hle
    obtain ⟨avg, havg, hflag⟩ := hf2 (by simpa using hle)
    refine ⟨avg, havg, ?_⟩
    rw [hflag, ht]
    simp only [decide_eq_true_eq]
    rw [hthr]

/-- C25: in every state reached from the receiver made by `New`, with a
capacity `W` of at least 1, by calls to `add`, each of which returns: the sum
of the buffer is the running sum, the buffer holds at most `W` elements, the
capacity is still `W` and the write pointer is at least 0 and below `W`; when
the buffer is full the pointer is below its length, so that `addCircular`
returns, without an index out of range, and so does the next `add`. -/
theorem window_invariant (cfg : config.Config) (a0 : AlertManager) (ms : List Metric)
    (hNew : New cfg = some a0) (hW : 1 ≤ a0.cap) :
    ∃ a, addAll a0 ms = some a ∧ a.buf.sum = a.sum ∧ a.buf.length ≤ a0.cap ∧
      a.cap = a0.cap ∧ 0 ≤ a.ptr ∧ a.ptr < a0.cap ∧
      (a.bufFull = true → a.ptr < a.buf.length ∧ ∀ cnt, ∃ a1, a.addCircular cnt = some a1) ∧
      (∀ m, ∃ a1, a.add m = some a1) := by
  obtain ⟨hw, _, _⟩ := window_New cfg a0 hNew hW
  obtain ⟨a, hadd, hwin, _, _⟩ := window_addAll a0.cap hW ms [] a0 hw
  have hlen : a.buf.length ≤ a0.cap := by rw [hwin.len_eq]; exact Nat.min_le_left _ _
  refine ⟨a, hadd, hwin.sum_eq.symm, hlen, hwin.cap_eq, hwin.ptr_nonneg, hwin.ptr_lt, ?_, ?_⟩
  · intro hfull
    have hl : a.buf.length = a0.cap := by
      have h1 : a.buf.length = a.cap := by simpa [AlertManager.bufFull] using hfull
      rw [h1, hwin.cap_eq]
    have hp : a.ptr < a.buf.length := by rw [hl]; exact hwin.ptr_lt
    exact ⟨hp, fun cnt => addCircular_some a cnt hwin.ptr_nonneg hp⟩
  · intro m
    obtain ⟨a1, h1, _⟩ := window_add a0.cap _ a m hW hwin
    exact ⟨a1, h1⟩

/-- C24 at the nominal test: after its nine metrics the average is 9, below
the threshold 10, and the flag is false. -/
theorem flag_tracks_average_witness :
    New nominalCfg = some nominalManager ∧ 1 ≤ nominalManager.cap ∧
    ∃ a outs, nominalManager.Start nominalMetrics = some (a, outs) ∧
      (nominalMetrics.length < nominalManager.cap → a.alertTriggered = false) ∧
      (nominalManager.cap ≤ nominalMetrics.length → ∃ avg, a.AvgTraffic = some avg ∧
        (a.alertTriggered = true ↔ nominalCfg.AlertThreshold ≤ avg)) :=
  ⟨by decide, by decide, flag_tracks_average nominalCfg nominalManager nominalMetrics
    (by decide) (by decide)⟩

/-- C25 at the nominal test: nine pushes into a window of capacity five. -/
theorem window_invariant_witness :
    New nominalCfg = some nominalManager ∧ 1 ≤ nominalManager.cap ∧
    ∃ a, addAll nominalManager nominalMetrics = some a ∧ a.buf.sum = a.sum ∧
      a.buf.length ≤ nominalManager.cap ∧ a.cap = nominalManager.cap ∧ 0 ≤ a.ptr ∧
      a.ptr < nominalManager.cap ∧
      (a.bufFull = true → a.ptr < a.buf.length ∧ ∀ cnt, ∃ a1, a.addCircular cnt = some a1) ∧
      (∀ m, ∃ a1, a.add m = some a1) :=
  ⟨by decide, by decide, window_invariant nominalCfg nominalManager nominalMetrics
    (by decide) (by decide)⟩

end alertmanager

/-! ## Theorems on the width of the tables -/

namespace printer

theorem enlarge_small (t : Table2dMessage) (n : Int) (h : n ≤ t.Length) : t.Enlarge n = t := by
  simp only [Table2dMessage.Enlarge, h, if_true]

theorem enlarge_length (t : Table2dMessage) (n : Int) (h1 : 0 ≤ t.max.1) (h2 : 0 ≤ t.max.2)
    (hn : t.Length < n) :
    t.max.1 ≤ (t.Enlarge n).max.1 ∧ t.max.2 ≤ (t.Enlarge n).max.2 ∧
    ((t.Enlarge n).Length = n ∨ (t.Enlarge n).Length = n - 1) ∧
    ((t.Enlarge n).Length = n - 1 ↔
      t.max.1 ≤ (n - len t.colSep).tdiv 2 ∧ t.max.2 ≤ (n - len t.colSep).tdiv 2 ∧
        (n - len t.colSep).tmod 2 = 1) := by
  simp only [Table2dMessage.Length] at hn
  have hlen : ¬ n ≤ t.max.1 + t.max.2 + len t.colSep := by omega
  have hd := Int.tdiv_add_tmod (n - len t.colSep) 2
  have hm1 := Int.tmod_lt_of_pos (n - len t.colSep) (by norm_num : (0 : Int) < 2)
  have hm0 := Int.tmod_nonneg 2 (by omega : 0 ≤ n - len t.colSep)
  simp only [Table2dMessage.Enlarge, Table2dMessage.Length, hlen, if_false]
  by_cases c1 : t.max.1 > (n - len t.colSep).tdiv 2
  · simp only [c1, if_true]
    refine ⟨by omega, by omega, by omega, ?_⟩
    constructor
    · intro h; omega
    · intro h; omega
  · simp only [c1, if_false]
    by_cases c2 : t.max.2 > (n - len t.colSep).tdiv 2
    · simp only [c2, if_true]
      refine ⟨by omega, by omega, by omega, ?_⟩
      constructor
      · intro h; omega
      · intro h; omega
    · simp only [c2, if_false]
      refine ⟨by omega, by omega, by omega, ?_⟩
      constructor
      · intro h; omega
      · intro h; omega

theorem fits_nonneg (t : Table2dMessage) (h : t.fits) : 0 ≤ t.max.1 ∧ 0 ≤ t.max.2 :=
  ⟨le_trans (len_nonneg _) h.1, le_trans (len_nonneg _) h.2.1⟩

/-- C23: `Enlarge` does not always give the table the new width: the table
with the titles `a` and `b`, of width 6, enlarged to 9 has the width 8. A
table is left as it is by a new width that is not greater than its width. For
a greater one no column gets narrower and the width becomes the new width or
one less: one less exactly when no column is wider than half of the new width
without the separator and that width without the separator is odd. The table
of the test, of width 71, enlarged to 81 has the width 81. -/
theorem enlarge_misses_odd_width :
    (smallTable.fits ∧ smallTable.Length = 6 ∧ (smallTable.Enlarge 9).Length = 8) ∧
    (testTable.Length = 71 ∧ (testTable.Enlarge (testTable.Length + 10)).Length = 81) ∧
    (∀ (t : Table2dMessage) (n : Int), n ≤ t.Length → t.Enlarge n = t) ∧
    (∀ (t : Table2dMessage) (n : Int), 0 ≤ t.max.1 → 0 ≤ t.max.2 → t.Length < n →
      t.max.1 ≤ (t.Enlarge n).max.1 ∧ t.max.2 ≤ (t.Enlarge n).max.2 ∧
      ((t.Enlarge n).Length = n ∨ (t.Enlarge n).Length = n - 1) ∧
      ((t.Enlarge n).Length = n - 1 ↔
        t.max.1 ≤ (n - len t.colSep).tdiv 2 ∧ t.max.2 ≤ (n - len t.colSep).tdiv 2 ∧
          (n - len t.colSep).tmod 2 = 1)) :=
  ⟨by decide, by decide, enlarge_small, enlarge_length⟩

end printer

namespace collector

open printer

set_option maxRecDepth 100000 in
theorem longSection_format :
    longSectionSummary.Format longSectionSummary.Sections = some longSectionFormat := by
  decide

theorem align_length (a b : Table2dMessage) (ha : a.fits) (hb : b.fits) :
    (a.Length = b.Length → (align a b).1.Length = (align a b).2.Length) ∧
    ((align a b).1.Length = (align a b).2.Length ∨
      (align a b).1.Length + 1 = (align a b).2.Length ∨
      (align a b).1.Length = (align a b).2.Length + 1) := by
  obtain ⟨a1, a2⟩ := fits_nonneg a ha
  obtain ⟨b1, b2⟩ := fits_nonneg b hb
  unfold align
  by_cases h1 : b.Length > a.Length
  · simp only [h1, if_true]
    obtain ⟨_, _, h, _⟩ := enlarge_length a b.Length a1 a2 h1
    constructor
    · intro he; omega
    · rcases h with h | h
      · left; exact h
      · right; left; omega
  · simp only [h1, if_false]
    by_cases h2 : a.Length > b.Length
    · simp only [h2, if_true]
      obtain ⟨_, _, h, _⟩ := enlarge_length b a.Length b1 b2 h2
      constructor
      · intro he; omega
      · rcases h with h | h
        · left; exact h.symm
        · right; right; omega
    · simp only [h2, if_false]
      exact ⟨fun he => he, Or.inl (by omega)⟩

/-- C30: the alignment of `Format` does not always give the two tables the
same width: for the summary of one record whose section has 27 characters,
`Format` returns a text whose top sections table has the width 45 and whose
summary table has the width 44, as its lines show. For every summary on which
`Format` returns, the widths of the two tables differ by one at most. -/
theorem format_tables_misaligned :
    (∃ t, longSectionSummary.topSections longSectionSummary.Sections = some t ∧
      t.Length = 45 ∧ longSectionSummary.summaryTable.Length = 29 ∧
      (align t longSectionSummary.summaryTable).1.Length = 45 ∧
      (align t longSectionSummary.summaryTable).2.Length = 44 ∧
      longSectionSummary.Format longSectionSummary.Sections = some longSectionFormat) ∧
    (∀ (s : Summary) (order : Map) (out : Str), order.Perm s.Sections →
      s.Format order = some out →
      ∃ t, s.topSections order = some t ∧
        ((align t s.summaryTable).1.Length = (align t s.summaryTable).2.Length ∨
          (align t s.summaryTable).1.Length + 1 = (align t s.summaryTable).2.Length ∨
          (align t s.summaryTable).1.Length = (align t s.summaryTable).2.Length + 1)) := by
  refine ⟨⟨addRows topTable longSectionSummary.Sections, by decide, by decide, by decide,
    by decide, by decide, longSection_format⟩, ?_⟩
  intro s order out hperm hret
  obtain ⟨t, ht⟩ := top_of_format s order out hret
  exact ⟨t, ht, (align_length t s.summaryTable (topSections_fits s order hperm t ht)
    (summaryTable_fits s)).2⟩

end collector

/-! ## Theorems on the effect of `Add` -/

namespace collector

open printer

theorem tdiv_class (c k : Int) (hk : 1 ≤ k) :
    c.tdiv 100 = k ↔ 100 * k ≤ c ∧ c ≤ 100 * k + 99 := by
  have hd := Int.tdiv_add_tmod c 100
  rcases le_or_lt 0 c with hc | hc
  · have h0 := Int.tmod_nonneg 100 hc
    have h1 := Int.tmod_lt_of_pos c (by norm_num : (0 : Int) < 100)
    constructor
    · intro h; constructor <;> omega
    · intro h; omega
  · have hn : (-c).tmod 100 = -(c.tmod 100) := by
      rw [Int.tmod_def, Int.tmod_def, Int.neg_tdiv]; ring
    have h0 := Int.tmod_nonneg 100 (by omega : 0 ≤ -c)
    have h1 := Int.tmod_lt_of_pos (-c) (by norm_num : (0 : Int) < 100)
    constructor
    · intro h; omega
    · intro h; omega

theorem add_other_keys (s : Summary) (m : LogMessage) (k : Str) (h1 : k ≠ hitsKey)
    (h2 : k ≠ successKey) (h3 : k ≠ redirectKey) (h4 : k ≠ errorsKey) :
    (s.Add m).Sum.get k = s.Sum.get k := by
  unfold Summary.Add
  simp only []
  split
  · simp only [Map.get_inc, h1, h4, if_false]
  · split
    · simp only [Map.get_inc, h1, h4, if_false]
    · split
      · simp only [Map.get_inc, h1, h3, if_false]
      · split
        · simp only [Map.get_inc, h1, h2, if_false]
        · simp only [Map.get_inc, h1, if_false]

/-- C27: `Add` of a record with the code `c` increases the hits by 1 and the
count of the section of the record by 1; it increases the successes by 1 when
`200 ≤ c ≤ 299`, the redirects when `300 ≤ c ≤ 399`, the errors when
`400 ≤ c ≤ 599`, and in each case leaves the two other class counters as they
are; outside 200 to 599 it leaves the three as they are; every other entry of
`Sum`, the traffic among them, the count of every other section and the limit
are left as they are; the ten records of the test give the section counts 4,
3, 2 and 1. -/
theorem add_effect (s : Summary) (m : LogMessage) :
    (s.Add m).Sum.get hitsKey = s.Sum.get hitsKey + 1 ∧
    (s.Add m).Sections.get m.Section = s.Sections.get m.Section + 1 ∧
    (∀ k, k ≠ m.Section → (s.Add m).Sections.get k = s.Sections.get k) ∧
    (200 ≤ m.Code ∧ m.Code ≤ 299 →
      (s.Add m).Sum.get successKey = s.Sum.get successKey + 1 ∧
      (s.Add m).Sum.get redirectKey = s.Sum.get redirectKey ∧
      (s.Add m).Sum.get errorsKey = s.Sum.get errorsKey) ∧
    (300 ≤ m.Code ∧ m.Code ≤ 399 →
      (s.Add m).Sum.get successKey = s.Sum.get successKey ∧
      (s.Add m).Sum.get redirectKey = s.Sum.get redirectKey + 1 ∧
      (s.Add m).Sum.get errorsKey = s.Sum.get errorsKey) ∧
    (400 ≤ m.Code ∧ m.Code ≤ 599 →
      (s.Add m).Sum.get successKey = s.Sum.get successKey ∧
      (s.Add m).Sum.get redirectKey = s.Sum.get redirectKey ∧
      (s.Add m).Sum.get errorsKey = s.Sum.get errorsKey + 1) ∧
    (m.Code < 200 ∨ 599 < m.Code →
      (s.Add m).Sum.get successKey = s.Sum.get successKey ∧
      (s.Add m).Sum.get redirectKey = s.Sum.get redirectKey ∧
      (s.Add m).Sum.get errorsKey = s.Sum.get errorsKey) ∧
    (∀ k, k ≠ hitsKey → k ≠ successKey → k ≠ redirectKey → k ≠ errorsKey →
      (s.Add m).Sum.get k = s.Sum.get k) ∧
    (s.Add m).Sum.get trafficKey = s.Sum.get trafficKey ∧
    (s.Add m).topNum = s.topNum ∧
    testSummary.Sections = [("/here".toList, 4), ("/".toList, 3), ("/there".toList, 2),
      ("/redirect".toList, 1)] := by
  obtain ⟨c1, c2, c3, c4⟩ := add_counts s m
  obtain ⟨s1, s2⟩ := add_sections s m
  have e2 := tdiv_class m.Code 2 (by norm_num)
  have e3 := tdiv_class m.Code 3 (by norm_num)
  have e4 := tdiv_class m.Code 4 (by norm_num)
  have e5 := tdiv_class m.Code 5 (by norm_num)
  refine ⟨c1, ?_, ?_, ?_, ?_, ?_, ?_, add_other_keys s m, ?_, s2, by decide⟩
  · rw [s1, Map.get_inc]; simp
  · intro k hk
    rw [s1, Map.get_inc]; simp [hk]
  · intro h
    have h2 : m.Code.tdiv 100 = 2 := e2.mpr (by omega)
    rw [c2, c3, c4, h2]
    simp
  · intro h
    have h3 : m.Code.tdiv 100 = 3 := e3.mpr (by omega)
    rw [c2, c3, c4, h3]
    simp
  · intro h
    have h45 : m.Code.tdiv 100 = 4 ∨ m.Code.tdiv 100 = 5 := by
      rcases le_or_lt m.Code 499 with h1 | h1
      · left; exact e4.mpr (by omega)
      · right; exact e5.mpr (by omega)
    have n2 : ¬ m.Code.tdiv 100 = 2 := by omega
    have n3 : ¬ m.Code.tdiv 100 = 3 := by omega
    rw [c2, c3, c4]
    simp [h45, n2, n3]
  · intro h
    have n2 : ¬ m.Code.tdiv 100 = 2 := fun h2 => by have := e2.mp h2; omega
    have n3 : ¬ m.Code.tdiv 100 = 3 := fun h2 => by have := e3.mp h2; omega
    have n4 : ¬ m.Code.tdiv 100 = 4 := fun h2 => by have := e4.mp h2; omega
    have n5 : ¬ m.Code.tdiv 100 = 5 := fun h2 => by have := e5.mp h2; omega
    rw [c2, c3, c4]
    simp [n2, n3, n4, n5]
  · exact add_other_keys s m trafficKey (by decide) (by decide) (by decide) (by decide)

end collector

/-! ## Theorems on the loop of the collector -/

namespace strings

end strings

namespace strconv

end strconv

namespace collector

open printer

theorem newLog_cases (StatusText : Int → Str) (l : Str) :
    (∃ msg, NewLogMessageFromLogEntry StatusText l = (some msg, none)) ∨
    (∃ err, NewLogMessageFromLogEntry StatusText l = (none, some err)) := by
  by_cases h : (NewLogMessageFromLogEntry StatusText l).1 = none
  · right; exact newLog_none_err StatusText l h
  · left; exact newLog_some StatusText l h

theorem step_refused (StatusText : Int → Str) (tables : Char → Bool) (c : Collector) (l : Str)
    (msg : Option LogMessage) (err : error)
    (h : NewLogMessageFromLogEntry StatusText l = (msg, some err)) :
    c.step StatusText tables (Event.log l)
      = some (c, [Print.message (NewErrorMessage (parseErrorText tables l err))]) := by
  simp only [Collector.step, h]

theorem step_parsed (StatusText : Int → Str) (tables : Char → Bool) (c : Collector) (l : Str)
    (msg : LogMessage) (h : NewLogMessageFromLogEntry StatusText l = (some msg, none)) :
    c.step StatusText tables (Event.log l) = some ({ c with sum := c.sum.Add msg }, []) := by
  simp only [Collector.step, h]

theorem step_tick (StatusText : Int → Str) (tables : Char → Bool) (c : Collector)
    (s : Summary) (h : c.sum.CalcTraffic c.config.SummaryIntervalSec = some s) :
    c.step StatusText tables Event.tick
      = some ({ c with sum := NewSummary c.config.TopSectionNum }, [Print.summary s]) := by
  simp only [Collector.step, h]

theorem calcTraffic_some (s : Summary) (win : Int) (h : 0 < win) :
    s.CalcTraffic win = some { s with
      Sum := (s.Sum.set trafficKey (alertmanager.roundDiv (s.Sum.get hitsKey) win.toNat)) } := by
  have hne : win ≠ 0 := by omega
  simp [Summary.CalcTraffic, roundQuot, hne, h]

theorem run_cons (StatusText : Int → Str) (tables : Char → Bool) (c : Collector) (e : Event)
    (es : List Event) :
    c.run StatusText tables (e :: es)
      = match c.step StatusText tables e with
        | none => none
        | some (c1, out) =>
          match Collector.run StatusText tables c1 es with
          | none => none
          | some (c2, outs) => some (c2, out ++ outs) := rfl

theorem run_append (StatusText : Int → Str) (tables : Char → Bool) (es1 : List Event) :
    ∀ (c c1 : Collector) (o1 : List Print) (es2 : List Event),
      c.run StatusText tables es1 = some (c1, o1) →
      c.run StatusText tables (es1 ++ es2)
        = match c1.run StatusText tables es2 with
          | none => none
          | some (c2, o2) => some (c2, o1 ++ o2) := by
  induction es1 with
  | nil =>
    intro c c1 o1 es2 h
    simp only [Collector.run, Option.some.injEq, Prod.mk.injEq] at h
    obtain ⟨rfl, rfl⟩ := h
    simp only [List.nil_append]
    cases c.run StatusText tables es2 with
    | none => rfl
    | some r => rfl
  | cons e es ih =>
    intro c c1 o1 es2 h
    simp only [Collector.run] at h
    cases hs : c.step StatusText tables e with
    | none => simp [hs] at h
    | some r =>
      obtain ⟨ca, oa⟩ := r
      simp only [hs] at h
      cases hr : ca.run StatusText tables es with
      | none => simp [hr] at h
      | some r2 =>
        obtain ⟨cb, ob⟩ := r2
        simp only [hr, Option.some.injEq, Prod.mk.injEq] at h
        obtain ⟨rfl, rfl⟩ := h
        have hi := ih ca cb ob es2 hr
        rw [List.cons_append, run_cons, hs]
        simp only []
        rw [hi]
        cases cb.run StatusText tables es2 with
        | none => rfl
        | some r3 =>
          obtain ⟨c3, o3⟩ := r3
          simp

theorem run_lines (StatusText : Int → Str) (tables : Char → Bool) (ls : List Str) :
    ∀ (c : Collector), c.run StatusText tables (ls.map Event.log)
      = some ({ c with sum := c.sum.addAll (parsed StatusText ls) },
          refused StatusText tables ls) := by
  induction ls with
  | nil => intro c; rfl
  | cons l ls ih =>
    intro c
    rcases newLog_cases StatusText l with ⟨msg, h⟩ | ⟨err, h⟩
    · simp only [List.map_cons, Collector.run, step_parsed StatusText tables c l msg h, ih,
        parsed, refused, List.filterMap_cons, h, Summary.addAll, List.nil_append]
    · simp only [List.map_cons, Collector.run, step_refused StatusText tables c l none err h,
        ih, parsed, refused, List.filterMap_cons, h, List.singleton_append]

/-- C26: with a positive summary interval, a turn of the loop of `Start` on a
tick sends one thing, the summary in flight with its traffic set by
`CalcTraffic` for `SummaryIntervalSec` and with every other entry, the section
counts and the limit as they were, and goes on with the empty summary of
`NewSummary` for the limit of the configuration; so after a tick, the lines
`ls` and a tick, the summary sent last is the summary of the records of the
lines of `ls` that were accepted, added to an empty summary, with its traffic;
and what comes after a tick changes nothing of what the tick sent. -/
theorem tick_snapshot (StatusText : Int → Str) (tables : Char → Bool) (c : Collector)
    (hwin : 0 < c.config.SummaryIntervalSec) :
    (∃ s, c.sum.CalcTraffic c.config.SummaryIntervalSec = some s ∧
      c.step StatusText tables Event.tick
        = some ({ config := c.config, sum := NewSummary c.config.TopSectionNum },
            [Print.summary s]) ∧
      s.Sum.get trafficKey
        = alertmanager.roundDiv (c.sum.Sum.get hitsKey) c.config.SummaryIntervalSec.toNat ∧
      (∀ k, k ≠ trafficKey → s.Sum.get k = c.sum.Sum.get k) ∧
      s.Sections = c.sum.Sections ∧ s.topNum = c.sum.topNum ∧
      (NewSummary c.config.TopSectionNum).Sections = [] ∧
      (NewSummary c.config.TopSectionNum).Sum = [] ∧
      (NewSummary c.config.TopSectionNum).topNum = c.config.TopSectionNum ∧
      (∀ (es : List Event) (c1 : Collector) (out : List Print),
        c.run StatusText tables (Event.tick :: es) = some (c1, out) →
        out.head? = some (Print.summary s))) ∧
    (∀ (ls : List Str), ∃ s0 s1,
      c.run StatusText tables (Event.tick :: (ls.map Event.log ++ [Event.tick]))
        = some ({ config := c.config, sum := NewSummary c.config.TopSectionNum },
            Print.summary s0 :: (refused StatusText tables ls ++ [Print.summary s1])) ∧
      ((NewSummary c.config.TopSectionNum).addAll (parsed StatusText ls)).CalcTraffic
        c.config.SummaryIntervalSec = some s1) := by
  have hc := calcTraffic_some c.sum c.config.SummaryIntervalSec hwin
  have hstep := step_tick StatusText tables c _ hc
  constructor
  · refine ⟨_, hc, hstep, ?_, ?_, rfl, rfl, rfl, rfl, rfl, ?_⟩
    · simp only []
      rw [Map.get_set]; simp
    · intro k hk
      simp only []
      rw [Map.get_set]; simp [hk]
    · intro es c1 out hrun
      rw [run_cons, hstep] at hrun
      simp only [] at hrun
      cases hr : Collector.run StatusText tables
          { config := c.config, sum := NewSummary c.config.TopSectionNum } es with
      | none => simp [hr] at hrun
      | some r =>
        obtain ⟨c2, o2⟩ := r
        simp only [hr, Option.some.injEq, Prod.mk.injEq] at hrun
        rw [← hrun.2]
        rfl
  · intro ls
    have h1 := run_lines StatusText tables ls
      { config := c.config, sum := NewSummary c.config.TopSectionNum }
    obtain ⟨s0, hs0⟩ : ∃ s, c.sum.CalcTraffic c.config.SummaryIntervalSec = some s := ⟨_, hc⟩
    obtain ⟨s1, hs1⟩ : ∃ s,
        ((NewSummary c.config.TopSectionNum).addAll (parsed StatusText ls)).CalcTraffic
          c.config.SummaryIntervalSec = some s :=
      ⟨_, calcTraffic_some _ _ hwin⟩
    refine ⟨s0, s1, ?_, hs1⟩
    rw [run_cons, step_tick StatusText tables c s0 hs0]
    simp only []
    rw [run_append StatusText tables _ _ _ _ [Event.tick] h1]
    simp only [run_cons, Collector.run, Collector.step, hs1]
    rfl

/-- C26 at the test of the collector: after its five lines the tick sends the
summary that the test expects, with 5 hits and the traffic 3 over 2 seconds,
and the collector goes on with an empty summary of the limit 2. -/
theorem tick_snapshot_witness :
    (0 < (New testConfig).config.SummaryIntervalSec) ∧
    ((New testConfig).Start http.StatusText (fun _ => true)
        (testLines.map Event.log ++ [Event.tick])
      = some (New testConfig, [Print.summary expectedSummary])) ∧
    ∃ s0 s1,
      (New testConfig).run http.StatusText (fun _ => true)
          (Event.tick :: (testLines.map Event.log ++ [Event.tick]))
        = some ({ config := testConfig, sum := NewSummary testConfig.TopSectionNum },
            Print.summary s0 :: (refused http.StatusText (fun _ => true) testLines
              ++ [Print.summary s1])) ∧
      ((NewSummary testConfig.TopSectionNum).addAll (parsed http.StatusText testLines)).CalcTraffic
        testConfig.SummaryIntervalSec = some s1 :=
  ⟨by decide, by decide,
    (tick_snapshot http.StatusText (fun _ => true) (New testConfig) (by decide)).2 testLines⟩

end collector

/-! ## Theorems on the lines that the reader sends -/

namespace strings

theorem head_dropWhile (p : Char → Bool) (l : Str) (c : Char)
    (h : (l.dropWhile p).head? = some c) : p c = false := by
  induction l with
  | nil => simp at h
  | cons x xs ih =>
    by_cases hx : p x = true
    · simp only [List.dropWhile_cons, hx, if_true] at h
      exact ih h
    · simp only [List.dropWhile_cons, hx] at h
      simp only [Bool.false_eq_true, if_false, List.head?_cons, Option.some.injEq] at h
      subst h
      simpa using hx

theorem trimSpace_spec (s : Str) :
    ∃ pre post, s = pre ++ TrimSpace s ++ post ∧
      (∀ c ∈ pre, unicode.IsSpace c = true) ∧ (∀ c ∈ post, unicode.IsSpace c = true) ∧
      (∀ c, (TrimSpace s).head? = some c → unicode.IsSpace c = false) ∧
      (∀ c, (TrimSpace s).getLast? = some c → unicode.IsSpace c = false) := by
  have h1 := List.takeWhile_append_dropWhile unicode.IsSpace s
  have h2 := List.takeWhile_append_dropWhile unicode.IsSpace
    (s.dropWhile unicode.IsSpace).reverse
  have h3 : s.dropWhile unicode.IsSpace
      = ((s.dropWhile unicode.IsSpace).reverse.dropWhile unicode.IsSpace).reverse
        ++ ((s.dropWhile unicode.IsSpace).reverse.takeWhile unicode.IsSpace).reverse := by
    rw [← List.reverse_append, h2, List.reverse_reverse]
  refine ⟨s.takeWhile unicode.IsSpace,
    ((s.dropWhile unicode.IsSpace).reverse.takeWhile unicode.IsSpace).reverse, ?_,
    fun c hc => List.mem_takeWhile_imp hc,
    fun c hc => List.mem_takeWhile_imp (List.mem_reverse.mp hc), ?_, ?_⟩
  · unfold TrimSpace
    rw [List.append_assoc, ← h3, h1]
  · intro c hc
    unfold TrimSpace at hc
    apply head_dropWhile unicode.IsSpace s c
    rw [h3]
    cases hx : ((s.dropWhile unicode.IsSpace).reverse.dropWhile unicode.IsSpace).reverse with
    | nil => rw [hx] at hc; simp at hc
    | cons y ys => rw [hx] at hc; simpa using hc
  · intro c hc
    unfold TrimSpace at hc
    rw [List.getLast?_reverse] at hc
    exact head_dropWhile unicode.IsSpace _ c hc

end strings

namespace reader

open printer alertmanager

theorem run_get_inv (ticks : List Tick) : ∀ (unread : Str) (i : Nat) (sends : List Send),
    (run unread ticks).get? i = some sends →
      ∃ tk u, ticks.get? i = some tk ∧ sends = (tick u tk).1 := by
  induction ticks with
  | nil => intro unread i sends h; simp [run] at h
  | cons t0 tks ih =>
    intro unread i sends h
    cases i with
    | zero =>
      simp only [run, List.get?_cons_zero, Option.some.injEq] at h
      exact ⟨t0, unread, rfl, h.symm⟩
    | succ i =>
      simp only [run, List.get?_cons_succ] at h
      obtain ⟨tk, u, h1, h2⟩ := ih _ i sends h
      exact ⟨tk, u, by simpa using h1, h2⟩

theorem logs_of_lines (ls : List Str) :
    (ls.map (fun l => Send.log (strings.TrimSpace l))).filterMap (fun s => match s with
      | Send.log x => some x
      | Send.met _ => none
      | Send.print _ => none) = ls.map strings.TrimSpace := by
  induction ls with
  | nil => rfl
  | cons l ls ih => simp only [List.map_cons, List.filterMap_cons, ih]

/-- C28: the raw lines that `Start` sends at a tick are, one for one and in
order, the lines read at that tick, from the bytes that the ticks before it
have left unread on, that end with their only newline, each without its
leading and its trailing white space: a line is the text sent between two
texts of white space only, and the text sent neither begins nor ends with a
white space character; the bytes read have one cutting only into such lines
and a rest. The test's lines ` here it comes`, `  here it goes` and
a tab before `here we are`, each with its newline, are sent as
`here it comes`, `here it goes` and `here we are`. -/
theorem sent_line_trimmed (ticks : List Tick) :
    (∀ (i : Nat) (sends : List Send), (Start ticks).get? i = some sends →
      ∃ (tk : Tick) (lines : List Str) (rest : Str),
        ticks.get? i = some tk ∧
        (tk.reading (unreadAt [] ticks i)).1 = lines.flatten ++ rest ∧
        (∀ l ∈ lines, ∃ body, l = body ++ ['\n'] ∧ ∀ c ∈ body, c ≠ '\n') ∧
        (∀ c ∈ rest, c ≠ '\n') ∧
        sends.filterMap (fun s => match s with
          | Send.log x => some x
          | Send.met _ => none
          | Send.print _ => none) = lines.map strings.TrimSpace ∧
        (∀ x, Send.log x ∈ sends → ∃ line ∈ lines, x = strings.TrimSpace line) ∧
        (∀ (lines2 : List Str) (rest2 : Str),
          (tk.reading (unreadAt [] ticks i)).1 = lines2.flatten ++ rest2 →
          (∀ l ∈ lines2, ∃ body, l = body ++ ['\n'] ∧ ∀ c ∈ body, c ≠ '\n') →
          (∀ c ∈ rest2, c ≠ '\n') → lines2 = lines ∧ rest2 = rest)) ∧
    (∀ (line : Str), ∃ pre post, line = pre ++ strings.TrimSpace line ++ post ∧
      (∀ c ∈ pre, unicode.IsSpace c = true) ∧ (∀ c ∈ post, unicode.IsSpace c = true) ∧
      (∀ c, (strings.TrimSpace line).head? = some c → unicode.IsSpace c = false) ∧
      (∀ c, (strings.TrimSpace line).getLast? = some c → unicode.IsSpace c = false)) ∧
    strings.TrimSpace " here it comes\n".toList = "here it comes".toList ∧
    strings.TrimSpace "\there we are\n".toList = "here we are".toList ∧
    Start [{ t := 7, appended := " here it comes\n  here it goes\n\there we are\n".toList,
             fault := none }]
      = [[Send.log "here it comes".toList, Send.log "here it goes".toList,
          Send.log "here we are".toList, Send.met (NewCounterMetric 3 7)]] := by
  refine ⟨?_, strings.trimSpace_spec, by decide, by decide, by decide⟩
  intro i sends hget
  obtain ⟨tk, u, htk, _⟩ := run_get_inv ticks [] i sends hget
  have hu := run_get_at ticks [] i tk htk
  have hsends : sends = (tick (unreadAt [] ticks i) tk).1 := by
    have : (Start ticks).get? i = some (tick (unreadAt [] ticks i) tk).1 := hu
    rw [hget] at this
    exact Option.some.inj this
  obtain ⟨lines, rest, h1, h2, h3, h4⟩ := tick_run (unreadAt [] ticks i) tk
  have hfm : sends.filterMap (fun s => match s with
      | Send.log x => some x
      | Send.met _ => none
      | Send.print _ => none) = lines.map strings.TrimSpace := by
    have e1 : (List.filterMap (fun s => match s with
        | Send.log x => some x
        | Send.met _ => none
        | Send.print _ => none)
        (match tk.fault with
          | none => []
          | some (_, e) => [Send.print (NewErrorMessage (readErrorText e))])) = [] := by
      cases hf : tk.fault with
      | none => rfl
      | some f => rfl
    rw [hsends, h4, List.filterMap_append, List.filterMap_append, logs_of_lines, e1]
    simp
  refine ⟨tk, lines, rest, htk, h1, h2, h3, hfm, ?_, ?_⟩
  swap
  · intro lines2 rest2 g1 g2 g3
    exact lines_unique lines2 lines rest2 rest g2 h2 g3 h3 (by rw [← g1, ← h1])
  intro x hx
  have hm : x ∈ sends.filterMap (fun s => match s with
      | Send.log x => some x
      | Send.met _ => none
      | Send.print _ => none) := by
    rw [List.mem_filterMap]
    exact ⟨Send.log x, hx, rfl⟩
  rw [hfm, List.mem_map] at hm
  obtain ⟨l, hl, he⟩ := hm
  exact ⟨l, hl, he.symm⟩

end reader

/-! ## Theorems on the section counts and on the section of a record -/

theorem Map.sum_map_set (k : Str) (v : Int) (m : Map) (hk : (m.map Prod.fst).Nodup)
    (hany : m.any (fun p => p.1 == k) = true) :
    ((m.map (fun p => if p.1 = k then (k, v) else p)).map Prod.snd).sum
      = (m.map Prod.snd).sum - m.get k + v := by
  induction m with
  | nil => simp at hany
  | cons q m ih =>
    obtain ⟨a, b⟩ := q
    simp only [List.map_cons, List.nodup_cons] at hk
    by_cases hak : a = k
    · subst hak
      have e : m.map (fun p => if p.1 = a then (a, v) else p) = m := by
        have e1 : m.map (fun p => if p.1 = a then (a, v) else p) = m.map id := by
          apply List.map_congr_left
          intro p hp
          have hne : p.1 ≠ a := fun h => hk.1 (by rw [← h]; exact List.mem_map_of_mem Prod.fst hp)
          simp [hne]
        rw [e1, List.map_id]
      have hg : Map.get ((a, b) :: m) a = b := by
        simp [Map.get, Map.lookup_cons_self]
      rw [List.map_cons, if_pos rfl, e, hg]
      simp only [List.map_cons, List.sum_cons]
      ring
    · have hany2 : m.any (fun p => p.1 == k) = true := by
        have h3 : (a == k) = false := by simpa using hak
        simpa [List.any_cons, h3] using hany
      have hg : Map.get ((a, b) :: m) k = Map.get m k := by
        unfold Map.get
        rw [Map.lookup_cons_ne _ _ _ _ (fun h => hak h.symm)]
      rw [List.map_cons, if_neg hak, hg]
      simp only [List.map_cons, List.sum_cons]
      rw [ih hk.2 hany2]
      ring

theorem Map.sum_set (m : Map) (k : Str) (v : Int) (hk : (m.map Prod.fst).Nodup) :
    ((m.set k v).map Prod.snd).sum = (m.map Prod.snd).sum - m.get k + v := by
  by_cases hany : m.any (fun p => p.1 == k) = true
  · simp only [Map.set, hany, if_true]
    exact Map.sum_map_set k v m hk hany
  · have hany2 : m.any (fun p => p.1 == k) = false := (Bool.not_eq_true _).mp hany
    have hg : m.get k = 0 := by
      simp [Map.get, Map.lookup_none k m hany2]
    simp only [Map.set, hany2, Bool.false_eq_true, if_false, List.map_append, List.sum_append,
      List.map_cons, List.map_nil, List.sum_cons, List.sum_nil, hg]
    ring

theorem Map.mem_set (m : Map) (k : Str) (v : Int) (p : Str × Int) (h : p ∈ m.set k v) :
    p = (k, v) ∨ p ∈ m := by
  unfold Map.set at h
  by_cases hany : m.any (fun p => p.1 == k) = true
  · simp only [hany, if_true] at h
    obtain ⟨q, hq, he⟩ := List.mem_map.mp h
    by_cases hqk : q.1 = k
    · left; rw [← he, if_pos hqk]
    · right; rw [← he, if_neg hqk]; exact hq
  · have hany2 : m.any (fun p => p.1 == k) = false := (Bool.not_eq_true _).mp hany
    simp only [hany2, Bool.false_eq_true, if_false, List.mem_append, List.mem_singleton] at h
    rcases h with h | h
    · right; exact h
    · left; exact h

theorem Map.get_nonneg (m : Map) (k : Str) (h : ∀ p ∈ m, 0 ≤ p.2) : 0 ≤ m.get k := by
  induction m with
  | nil => simp [Map.get]
  | cons q m ih =>
    obtain ⟨a, b⟩ := q
    by_cases hak : k = a
    · subst hak
      have : Map.get ((k, b) :: m) k = b := by simp [Map.get, Map.lookup_cons_self]
      rw [this]
      exact h (k, b) (by simp)
    · have : Map.get ((a, b) :: m) k = Map.get m k := by
        unfold Map.get
        rw [Map.lookup_cons_ne _ _ _ _ hak]
      rw [this]
      exact ih (fun p hp => h p (by simp [hp]))

namespace collector

open regexp

theorem addAll_sections (ms : List LogMessage) : ∀ (s : Summary),
    (s.Sections.map Prod.fst).Nodup → (∀ p ∈ s.Sections, 1 ≤ p.2) →
    ((s.addAll ms).Sections.map Prod.snd).sum = (s.Sections.map Prod.snd).sum + ms.length ∧
    (∀ p ∈ (s.addAll ms).Sections, 1 ≤ p.2) ∧
    (∀ k, (s.addAll ms).Sections.get k
      = s.Sections.get k + ms.countP (fun m => decide (m.Section = k))) := by
  induction ms with
  | nil => intro s _ h; exact ⟨by simp [Summary.addAll], h, by simp [Summary.addAll]⟩
  | cons m ms ih =>
    intro s hk hpos
    have hs := (add_sections s m).1
    have hk1 : ((s.Add m).Sections.map Prod.fst).Nodup := by
      rw [hs]; exact Map.set_keys _ _ _ hk
    have hg0 : 0 ≤ s.Sections.get m.Section :=
      Map.get_nonneg _ _ (fun p hp => by have := hpos p hp; omega)
    have hpos1 : ∀ p ∈ (s.Add m).Sections, 1 ≤ p.2 := by
      intro p hp
      rw [hs] at hp
      rcases Map.mem_set _ _ _ _ hp with h | h
      · rw [h]; simp only []; omega
      · exact hpos p h
    have hsum1 : ((s.Add m).Sections.map Prod.snd).sum = (s.Sections.map Prod.snd).sum + 1 := by
      rw [hs]
      unfold Map.inc
      rw [Map.sum_set _ _ _ hk]
      ring
    obtain ⟨i1, i2, i3⟩ := ih (s.Add m) hk1 hpos1
    refine ⟨?_, i2, ?_⟩
    · simp only [Summary.addAll, List.length_cons]
      rw [i1, hsum1]
      push_cast
      ring
    · intro k
      simp only [Summary.addAll, List.countP_cons]
      rw [i3 k, hs, Map.get_inc]
      by_cases hkm : k = m.Section
      · subst hkm
        simp
        ring
      · have hne : ¬ m.Section = k := fun h => hkm h.symm
        simp [hkm, hne]

/-- C31: after any sequence of records added to a fresh summary, the sum of
the counts of the sections is the number of hits, each section is in the map
once, each count in the map is at least 1, and the count of a section is the
number of the records added with that section; the ten records of the test
give the counts 4, 3, 2 and 1, of sum 10, for 10 hits. -/
theorem section_counts_sum (top : Int) (ms : List LogMessage) :
    (((NewSummary top).addAll ms).Sections.map Prod.snd).sum
      = ((NewSummary top).addAll ms).Sum.get hitsKey ∧
    (((NewSummary top).addAll ms).Sections.map Prod.fst).Nodup ∧
    (∀ p ∈ ((NewSummary top).addAll ms).Sections, 1 ≤ p.2) ∧
    (∀ k, k ∈ ((NewSummary top).addAll ms).Sections.map Prod.fst →
      1 ≤ ((NewSummary top).addAll ms).Sections.get k) ∧
    (∀ k, ((NewSummary top).addAll ms).Sections.get k
      = ms.countP (fun m => decide (m.Section = k))) ∧
    ((testSummary.Sections.map Prod.snd) = [4, 3, 2, 1] ∧
      (testSummary.Sections.map Prod.snd).sum = 10 ∧ testSummary.Sum.get hitsKey = 10) := by
  have hk0 : ((NewSummary top).Sections.map Prod.fst).Nodup := by simp [NewSummary]
  have hp0 : ∀ p ∈ (NewSummary top).Sections, 1 ≤ p.2 := by simp [NewSummary]
  obtain ⟨h1, h2, h3⟩ := addAll_sections ms (NewSummary top) hk0 hp0
  have hkeys := addAll_keys ms (NewSummary top) hk0
  have hhits := (addAll_counts ms (NewSummary top)).1
  refine ⟨?_, hkeys, h2, ?_, ?_, by decide⟩
  · rw [h1, hhits]
    simp [NewSummary, Map.get]
  · intro k hk
    obtain ⟨p, hp, rfl⟩ := List.mem_map.mp hk
    rw [Map.get_of_mem _ hkeys p hp]
    exact h2 p hp
  · intro k
    rw [h3 k]
    simp [NewSummary, Map.get]

/-- C32: for every line on which `NewLogMessageFromLogEntry` returns a record,
the request that the line expression captures is the method, a space, the
path, a space and a rest; the method is a non-empty text of word characters;
the path begins with a slash and has no space; the section is the slash
followed by the characters of the path up to its next slash, so that it begins
with a slash, has no other slash and no space, and the path is the section
followed by nothing or by a text that begins with a slash. -/
theorem section_of_path (StatusText : Int → Str) (str : Str) (msg : LogMessage)
    (err : Option error) (h : NewLogMessageFromLogEntry StatusText str = (some msg, err)) :
    ∃ req code p rest t q,
      w3cLogEntryRegExp str = some (req, code) ∧
      req = msg.Method ++ [' '] ++ ('/' :: p) ++ [' '] ++ rest ∧
      (msg.Method ≠ [] ∧ ∀ c ∈ msg.Method, isWord c = true) ∧
      (∀ c ∈ p, c ≠ ' ') ∧
      msg.Section = '/' :: t ∧
      (∀ c ∈ t, c ≠ '/' ∧ c ≠ ' ') ∧
      '/' :: p = msg.Section ++ q ∧
      (q = [] ∨ q.head? = some '/') ∧
      (∀ c ∈ msg.Section, c ≠ ' ') := by
  obtain ⟨req, code, path, hw, _, hmp, hsec⟩ := newLog_inv StatusText str msg err h
  obtain ⟨p, rest, hreq, hpath, hm, hp⟩ := methodPath_sound req msg.Method path hmp
  subst hpath
  have hs : msg.Section = '/' :: p.takeWhile (fun c => c != '/') := by
    rw [hsec]
    have := section_of_index p
    simpa using this
  have ht : ∀ c ∈ p.takeWhile (fun c => c != '/'), c ≠ '/' ∧ c ≠ ' ' := by
    intro c hc
    have h1 := List.mem_takeWhile_imp hc
    have h2 : c ∈ p := by
      have := List.takeWhile_append_dropWhile (fun c => c != '/') p
      rw [← this]
      exact List.mem_append_left _ hc
    exact ⟨by simpa using h1, (hp c h2).1⟩
  refine ⟨req, code, p, rest, p.takeWhile (fun c => c != '/'),
    p.dropWhile (fun c => c != '/'), hw, ?_, hm, fun c hc => (hp c hc).1, hs, ht, ?_, ?_, ?_⟩
  · rw [hreq]; simp
  · rw [hs, List.cons_append, List.takeWhile_append_dropWhile]
  · cases hd : p.dropWhile (fun c => c != '/') with
    | nil => left; rfl
    | cons y ys =>
      right
      have := strings.head_dropWhile (fun c => c != '/') p y (by rw [hd]; rfl)
      have hy : y = '/' := by simpa using this
      rw [hy]; rfl
  · intro c hc
    rw [hs] at hc
    rcases List.mem_cons.mp hc with rfl | hc
    · decide
    · exact (ht c hc).2

/-- C32 at the nominal line of the test, with the request
`GET /api/user HTTP/1.0`: the section is `/api`. -/
theorem section_of_path_witness :
    NewLogMessageFromLogEntry http.StatusText nominalEntry.line
      = (some { Section := "/api".toList, Method := "GET".toList, Code := 200 }, none) ∧
    ∃ req code p rest t q,
      w3cLogEntryRegExp nominalEntry.line = some (req, code) ∧
      req = "GET".toList ++ [' '] ++ ('/' :: p) ++ [' '] ++ rest ∧
      ("GET".toList ≠ [] ∧ ∀ c ∈ "GET".toList, isWord c = true) ∧
      (∀ c ∈ p, c ≠ ' ') ∧
      "/api".toList = '/' :: t ∧
      (∀ c ∈ t, c ≠ '/' ∧ c ≠ ' ') ∧
      '/' :: p = "/api".toList ++ q ∧
      (q = [] ∨ q.head? = some '/') ∧
      (∀ c ∈ "/api".toList, c ≠ ' ') :=
  ⟨by decide,
    section_of_path http.StatusText nominalEntry.line
      { Section := "/api".toList, Method := "GET".toList, Code := 200 } none (by decide)⟩

end collector
